import Mathlib

/-!
# Adafruit DPS310 driver: calibration, configuration and compensation

A shallow embedding of `Adafruit_DPS310.cpp` / `Adafruit_DPS310.h`.

* Machine integers are mathematical integers with explicit wrap-around: an
  `int16_t` / `int32_t` field is a value of the bounded types `I16` / `I32`,
  a store into such a field goes through `wrapI16` / `wrapI32`, and `uint32_t`
  arithmetic is taken modulo `2 ^ 32`.
* The sensor is a register file (one byte per address) together with the list
  of register writes the driver has issued.  What the sensor does on its own
  while the driver sleeps is a parameter `hw` of every operation that calls
  `delay`.
* `float` is IEEE 754 binary32 and `double` is binary64 (as on the 32-bit
  boards the driver targets), with round to nearest, ties to even, signed
  zeros, infinities and NaN.  Every operation is rounded once to the type the
  C++ conversion rules give it; `pow` of the math library is a parameter.
* Polling loops take a `fuel` bound on the number of polls and return `none`
  when it is exhausted.
-/

namespace DPS310

/-! ## Machine integers -/

/-- The values an `int16_t` object can hold. -/
abbrev I16 : Type := { x : Int // -32768 ≤ x ∧ x ≤ 32767 }

/-- The values an `int32_t` object can hold. -/
abbrev I32 : Type := { x : Int // -2147483648 ≤ x ∧ x ≤ 2147483647 }

/-- Conversion of an integer value to `int16_t` (two's-complement narrowing). -/
def wrapI16 (x : Int) : I16 :=
  ⟨(x + 32768) % 65536 - 32768, by omega⟩

/-- Conversion of an integer value to `int32_t` (two's-complement narrowing). -/
def wrapI32 (x : Int) : I32 :=
  ⟨(x + 2147483648) % 4294967296 - 2147483648, by omega⟩

/-- Conversion of an `int32_t` to `uint32_t`. -/
def toU32 (x : I32) : Nat :=
  (x.val % 4294967296).toNat

/-! ## Binary floating point

`float` is IEEE 754 binary32 and `double` is binary64, every operation is
rounded once to its own type (round to nearest, ties to even), with
infinities and NaN.  A finite value is `(-1)^neg * m * 2^e`; zeros carry their
sign and are always written `fin neg 0 0`. -/

/-- A floating-point datum of either format. -/
inductive Flt where
  | fin (neg : Bool) (m : Nat) (e : Int)
  | inf (neg : Bool)
  | nan
  deriving DecidableEq, Repr

/-- A binary format: precision in bits, least and greatest normal exponent. -/
structure FloatFormat where
  prec : Nat
  emin : Int
  emax : Int

/-- The format of `float`. -/
def binary32 : FloatFormat := { prec := 24, emin := -126, emax := 127 }

/-- The format of `double`. -/
def binary64 : FloatFormat := { prec := 53, emin := -1022, emax := 1023 }

/-- The power `2 ^ k` for `k ≥ 0`, and `1` for `k < 0`. -/
def pow2 (k : Int) : Nat := 2 ^ k.toNat

/-- The position of the leading bit of `n` (`0` for `n < 2`), found in at most
`fuel` halvings. -/
def ilog2 : Nat → Nat → Nat
  | 0, _ => 0
  | fuel + 1, n => if n < 2 then 0 else ilog2 fuel (n / 2) + 1

/-- The exponent `e` with `2 ^ e ≤ num / den < 2 ^ (e + 1)`, for positive `num`
and `den`. -/
def expOf (num den : Nat) : Int :=
  let l : Int := (ilog2 num num : Int) - (ilog2 den den : Int)
  if den * pow2 l ≤ num * pow2 (-l) then l else l - 1

/-- The value `num / den` of exponent `e`, with sign `neg`, rounded to the
format `F`: a multiple of `2 ^ (max e emin - (prec - 1))`, the nearest one, the
even one of two equally near, and infinite from `2 ^ (emax + 1)` on. -/
def Flt.roundAt (F : FloatFormat) (neg : Bool) (num den : Nat) (e : Int) : Flt :=
  let qe : Int := max e F.emin - ((F.prec : Int) - 1)
  let N : Nat := num * pow2 (-qe)
  let D : Nat := den * pow2 qe
  let q : Nat := N / D
  let r : Nat := N % D
  let n : Nat := if 2 * r < D ∨ (2 * r = D ∧ q % 2 = 0) then q else q + 1
  if n = 0 then Flt.fin neg 0 0
  else if pow2 (F.emax + 1 - qe) ≤ n then Flt.inf neg
  else Flt.fin neg n qe

/-- The value `num / den` (`den > 0`) with sign `neg`, rounded to the format
`F`: to nearest, ties to even, subnormal below `2 ^ emin`. -/
def Flt.round (F : FloatFormat) (neg : Bool) (num den : Nat) : Flt :=
  if num = 0 then Flt.fin neg 0 0 else Flt.roundAt F neg num den (expOf num den)

/-- Conversion of an integer to the format `F`: the nearest datum; `0` becomes
`+0`. -/
def Flt.ofInt (F : FloatFormat) (i : Int) : Flt :=
  Flt.round F (decide (i < 0)) i.natAbs 1

/-- Conversion of a floating-point datum to the format `F`: a finite value is
rounded, infinities and NaN pass through. -/
def Flt.convert (F : FloatFormat) : Flt → Flt
  | Flt.fin s m e => Flt.round F s (m * pow2 e) (pow2 (-e))
  | x => x

/-- Multiplication in the format `F`: the exact product rounded once; the sign
of a zero or infinite result is the exclusive or of the signs, and
`inf * 0` is NaN. -/
def Flt.mul (F : FloatFormat) : Flt → Flt → Flt
  | Flt.nan, _ => Flt.nan
  | _, Flt.nan => Flt.nan
  | Flt.inf s, Flt.inf t => Flt.inf (xor s t)
  | Flt.inf s, Flt.fin t n _ => if n = 0 then Flt.nan else Flt.inf (xor s t)
  | Flt.fin s m _, Flt.inf t => if m = 0 then Flt.nan else Flt.inf (xor s t)
  | Flt.fin s m e, Flt.fin t n f =>
    if m = 0 ∨ n = 0 then Flt.fin (xor s t) 0 0
    else Flt.round F (xor s t) (m * n * pow2 (e + f)) (pow2 (-(e + f)))

/-- Division in the format `F`: the exact quotient rounded once; `0 / 0` and
`inf / inf` are NaN, a nonzero value over zero is an infinity, and the sign of
a zero or infinite result is the exclusive or of the signs. -/
def Flt.div (F : FloatFormat) : Flt → Flt → Flt
  | Flt.nan, _ => Flt.nan
  | _, Flt.nan => Flt.nan
  | Flt.inf _, Flt.inf _ => Flt.nan
  | Flt.inf s, Flt.fin t _ _ => Flt.inf (xor s t)
  | Flt.fin s _ _, Flt.inf t => Flt.fin (xor s t) 0 0
  | Flt.fin s m e, Flt.fin t n f =>
    if n = 0 then (if m = 0 then Flt.nan else Flt.inf (xor s t))
    else if m = 0 then Flt.fin (xor s t) 0 0
    else Flt.round F (xor s t) (m * pow2 (e - f)) (n * pow2 (f - e))

/-- Addition in the format `F`: the exact sum rounded once; `inf - inf` is NaN,
a sum of two zeros is `-0` only when both are `-0`, and an exact zero sum of
nonzero operands is `+0`. -/
def Flt.add (F : FloatFormat) : Flt → Flt → Flt
  | Flt.nan, _ => Flt.nan
  | _, Flt.nan => Flt.nan
  | Flt.inf s, Flt.inf t => if s = t then Flt.inf s else Flt.nan
  | Flt.inf s, Flt.fin _ _ _ => Flt.inf s
  | Flt.fin _ _ _, Flt.inf t => Flt.inf t
  | Flt.fin s m e, Flt.fin t n f =>
    if m = 0 then (if n = 0 then Flt.fin (s && t) 0 0 else Flt.convert F (Flt.fin t n f))
    else if n = 0 then Flt.convert F (Flt.fin s m e)
    else
      let g : Int := min e f
      let a : Int := (if s then -1 else 1) * ((m * pow2 (e - g) : Nat) : Int)
      let b : Int := (if t then -1 else 1) * ((n * pow2 (f - g) : Nat) : Int)
      if a + b = 0 then Flt.fin false 0 0
      else Flt.round F (decide (a + b < 0)) ((a + b).natAbs * pow2 g) (pow2 (-g))

/-- Negation. -/
def Flt.neg : Flt → Flt
  | Flt.fin s m e => Flt.fin (!s) m e
  | Flt.inf s => Flt.inf (!s)
  | Flt.nan => Flt.nan

/-- Subtraction in the format `F`. -/
def Flt.sub (F : FloatFormat) (x y : Flt) : Flt :=
  Flt.add F x (Flt.neg y)

/-- The rational value of a finite datum. -/
def Flt.toRat : Flt → Option ℚ
  | Flt.fin s m e => some ((if s then -1 else 1) * (m : ℚ) * (2 : ℚ) ^ e)
  | _ => none

/-! ## Constants and enumerations (`Adafruit_DPS310.h`) -/

/-- Highest byte of pressure data. -/
def DPS310_PRSB2 : Nat := 0x00
/-- Highest byte of temperature data. -/
def DPS310_TMPB2 : Nat := 0x03
/-- Pressure configuration. -/
def DPS310_PRSCFG : Nat := 0x06
/-- Temperature configuration. -/
def DPS310_TMPCFG : Nat := 0x07
/-- Sensor configuration. -/
def DPS310_MEASCFG : Nat := 0x08
/-- Interrupt/FIFO configuration. -/
def DPS310_CFGREG : Nat := 0x09
/-- Soft reset. -/
def DPS310_RESET : Nat := 0x0C
/-- Register that contains the part ID. -/
def DPS310_PRODREVID : Nat := 0x0D
/-- Temperature calibration source. -/
def DPS310_TMPCOEFSRCE : Nat := 0x28

/-- The measurement rate ranges. -/
inductive dps310_rate_t where
  | DPS310_1HZ
  | DPS310_2HZ
  | DPS310_4HZ
  | DPS310_8HZ
  | DPS310_16HZ
  | DPS310_32HZ
  | DPS310_64HZ
  | DPS310_128HZ
  deriving DecidableEq, Repr

/-- The enumerator value of a rate. -/
def dps310_rate_t.toNat : dps310_rate_t → Nat
  | .DPS310_1HZ => 0
  | .DPS310_2HZ => 1
  | .DPS310_4HZ => 2
  | .DPS310_8HZ => 3
  | .DPS310_16HZ => 4
  | .DPS310_32HZ => 5
  | .DPS310_64HZ => 6
  | .DPS310_128HZ => 7

/-- The oversample rate ranges. -/
inductive dps310_oversample_t where
  | DPS310_1SAMPLE
  | DPS310_2SAMPLES
  | DPS310_4SAMPLES
  | DPS310_8SAMPLES
  | DPS310_16SAMPLES
  | DPS310_32SAMPLES
  | DPS310_64SAMPLES
  | DPS310_128SAMPLES
  deriving DecidableEq, Repr

/-- The enumerator value of an oversample setting. -/
def dps310_oversample_t.toNat : dps310_oversample_t → Nat
  | .DPS310_1SAMPLE => 0
  | .DPS310_2SAMPLES => 1
  | .DPS310_4SAMPLES => 2
  | .DPS310_8SAMPLES => 3
  | .DPS310_16SAMPLES => 4
  | .DPS310_32SAMPLES => 5
  | .DPS310_64SAMPLES => 6
  | .DPS310_128SAMPLES => 7

/-- The operating modes. -/
inductive dps310_mode_t where
  | DPS310_IDLE
  | DPS310_ONE_PRESSURE
  | DPS310_ONE_TEMPERATURE
  | DPS310_CONT_PRESSURE
  | DPS310_CONT_TEMP
  | DPS310_CONT_PRESTEMP
  deriving DecidableEq, Repr

/-- The enumerator value (3-bit hardware code) of a mode. -/
def dps310_mode_t.toNat : dps310_mode_t → Nat
  | .DPS310_IDLE => 0b000
  | .DPS310_ONE_PRESSURE => 0b001
  | .DPS310_ONE_TEMPERATURE => 0b010
  | .DPS310_CONT_PRESSURE => 0b101
  | .DPS310_CONT_TEMP => 0b110
  | .DPS310_CONT_PRESTEMP => 0b111

/-- The table `static int32_t oversample_scalefactor[]`. -/
def oversample_scalefactor : List I32 :=
  [⟨524288, by omega⟩, ⟨1572864, by omega⟩, ⟨3670016, by omega⟩, ⟨7864320, by omega⟩,
   ⟨253952, by omega⟩, ⟨516096, by omega⟩, ⟨1040384, by omega⟩, ⟨2088960, by omega⟩]

/-! ## The register bus -/

/-- The sensor as the driver sees it: the byte held at each register address,
and the register writes issued so far as `(address, byte)`, most recent first. -/
structure Bus where
  regs : Nat → Nat
  log : List (Nat × Nat)

/-- Modelled from the spec: the Register Access Adapter `readRegister(addr,
length)` of the external bus library, which this repository only calls.  It
reads `width` consecutive bytes starting at `addr` and combines them most
significant byte first (`value <<= 8; value |= buffer[i]`).  Every transaction
is taken to succeed. -/
def Bus.readRegister (b : Bus) (addr width : Nat) : Nat :=
  (List.range width).foldl (fun value i => (value <<< 8) ||| (b.regs (addr + i) % 256)) 0

/-- Modelled from the spec: the Register Access Adapter `writeRegister(addr,
value)` for a one-byte register.  The low byte of `value` is stored at `addr`
and the write is recorded. -/
def Bus.writeRegister (b : Bus) (addr value : Nat) : Bus :=
  { regs := fun a => if a = addr then value % 256 else b.regs a
    log := (addr, value % 256) :: b.log }

/-- Modelled from the spec: the Register Access Adapter `readBit` for a field
of `bits` bits at offset `shift` of the one-byte register `addr`, with the
arguments in the order of the `Adafruit_BusIO_RegisterBits` constructor. -/
def Bus.readBit (b : Bus) (addr bits shift : Nat) : Nat :=
  (b.readRegister addr 1 >>> shift) &&& ((1 <<< bits) - 1)

/-- Modelled from the spec: the Register Access Adapter `writeBit`, a
read-modify-write of the one-byte register `addr` that replaces the field of
`bits` bits at offset `shift` by the low bits of `data` and keeps the others. -/
def Bus.writeBit (b : Bus) (addr bits shift data : Nat) : Bus :=
  let val := b.readRegister addr 1
  let mask := (1 <<< bits) - 1
  let data := data &&& mask
  let mask := mask <<< shift
  let val := val &&& (0xFFFFFFFF ^^^ mask)
  let val := val ||| (data <<< shift)
  b.writeRegister addr val

/-- The most recent byte written to register `addr`, if any. -/
def lastWrite (log : List (Nat × Nat)) (addr : Nat) : Option Nat :=
  (log.find? (fun w => w.1 == addr)).map (fun w => w.2)

/-! ## The driver object -/

/-- The data members of `class Adafruit_DPS310` that the driver logic uses. -/
structure Adafruit_DPS310 where
  bus : Bus
  _c0 : I16
  _c1 : I16
  _c01 : I16
  _c11 : I16
  _c20 : I16
  _c21 : I16
  _c30 : I16
  _c00 : I32
  _c10 : I32
  raw_pressure : I32
  raw_temperature : I32
  _temperature : Flt
  _scaled_rawtemp : Flt
  _pressure : Flt
  temp_scale : I32
  pressure_scale : I32
  _sensorID : I32

/-- The Arduino `delay(ms)`: the driver state is kept and the sensor takes
`ms` autonomous steps `hw` on its registers. -/
def delay (hw : (Nat → Nat) → (Nat → Nat)) (ms : Nat) (s : Adafruit_DPS310) :
    Adafruit_DPS310 :=
  { s with bus := { s.bus with regs := hw^[ms] s.bus.regs } }

/-- The loop `while (!done()) { delay(ms); }` with at most `fuel` evaluations of
the condition. -/
def pollUntil (hw : (Nat → Nat) → (Nat → Nat)) (ms : Nat) (done : Adafruit_DPS310 → Bool) :
    Nat → Adafruit_DPS310 → Option Adafruit_DPS310
  | 0, _ => none
  | fuel + 1, s => if done s then some s else pollUntil hw ms done fuel (delay hw ms s)

/-- The function `Adafruit_DPS310::reset`. -/
def reset (hw : (Nat → Nat) → (Nat → Nat)) (fuel : Nat) (s : Adafruit_DPS310) :
    Option Adafruit_DPS310 :=
  let s := { s with bus := s.bus.writeRegister DPS310_RESET 0x89 }
  let s := delay hw 10 s
  pollUntil hw 1 (fun s => s.bus.readBit DPS310_MEASCFG 1 6 != 0) fuel s

/-- The function `twosComplement(int32_t val, uint8_t bits)`.  The test and the
subtraction are carried out in `uint32_t`; the driver calls it with
`bits` in `{12, 16, 20, 24}`. -/
def twosComplement (val : I32) (bits : Nat) : I32 :=
  if toU32 val &&& ((1 <<< (bits - 1)) % 4294967296) ≠ 0 then
    wrapI32 (((toU32 val + 4294967296 - (1 <<< bits) % 4294967296) % 4294967296 : Nat) : Int)
  else
    val

/-- Lines 191-214 of `_readCalibration`: read the 18 coefficient bytes and
store the nine coefficients. -/
def loadCalibration (s : Adafruit_DPS310) : Adafruit_DPS310 :=
  let coeffs : Nat → Nat := fun addr => s.bus.readRegister (0x10 + addr) 1
  let v0 : Nat := (coeffs 0 <<< 4) ||| ((coeffs 1 >>> 4) &&& 0x0F)
  let s := { s with _c0 := wrapI16 (v0 : Int) }
  let s := { s with _c0 := wrapI16 (twosComplement (wrapI32 s._c0.val) 12).val }
  let v1 : Nat := ((coeffs 1 &&& 0x0F) <<< 8) ||| coeffs 2
  let s := { s with _c1 := wrapI16 (twosComplement (wrapI32 (v1 : Int)) 12).val }
  let v00 : Nat := (coeffs 3 <<< 12) ||| (coeffs 4 <<< 4) ||| ((coeffs 5 >>> 4) &&& 0x0F)
  let s := { s with _c00 := wrapI32 (v00 : Int) }
  let s := { s with _c00 := twosComplement s._c00 20 }
  let v10 : Nat := ((coeffs 5 &&& 0x0F) <<< 16) ||| (coeffs 6 <<< 8) ||| coeffs 7
  let s := { s with _c10 := wrapI32 (v10 : Int) }
  let s := { s with _c10 := twosComplement s._c10 20 }
  let v01 : Nat := (coeffs 8 <<< 8) ||| coeffs 9
  let s := { s with _c01 := wrapI16 (twosComplement (wrapI32 (v01 : Int)) 16).val }
  let v11 : Nat := (coeffs 10 <<< 8) ||| coeffs 11
  let s := { s with _c11 := wrapI16 (twosComplement (wrapI32 (v11 : Int)) 16).val }
  let v20 : Nat := (coeffs 12 <<< 8) ||| coeffs 13
  let s := { s with _c20 := wrapI16 (twosComplement (wrapI32 (v20 : Int)) 16).val }
  let v21 : Nat := (coeffs 14 <<< 8) ||| coeffs 15
  let s := { s with _c21 := wrapI16 (twosComplement (wrapI32 (v21 : Int)) 16).val }
  let v30 : Nat := (coeffs 16 <<< 8) ||| coeffs 17
  { s with _c30 := wrapI16 (twosComplement (wrapI32 (v30 : Int)) 16).val }

/-- The function `Adafruit_DPS310::_readCalibration`: wait for the
calibration-ready bit, then load the coefficients. -/
def _readCalibration (hw : (Nat → Nat) → (Nat → Nat)) (fuel : Nat) (s : Adafruit_DPS310) :
    Option Adafruit_DPS310 :=
  (pollUntil hw 1 (fun s => s.bus.readBit DPS310_MEASCFG 1 7 != 0) fuel s).map loadCalibration

/-- The function `Adafruit_DPS310::temperatureAvailable`: the returned flag and
the driver state after the call. -/
def temperatureAvailable (s : Adafruit_DPS310) : Bool × Adafruit_DPS310 :=
  (s.bus.readBit DPS310_MEASCFG 1 5 != 0, s)

/-- The function `Adafruit_DPS310::pressureAvailable`: the returned flag and
the driver state after the call. -/
def pressureAvailable (s : Adafruit_DPS310) : Bool × Adafruit_DPS310 :=
  (s.bus.readBit DPS310_MEASCFG 1 4 != 0, s)

/-- The function `Adafruit_DPS310::setMode`. -/
def setMode (s : Adafruit_DPS310) (mode : dps310_mode_t) : Adafruit_DPS310 :=
  { s with bus := s.bus.writeBit DPS310_MEASCFG 3 0 mode.toNat }

/-- The function `Adafruit_DPS310::configurePressure`. -/
def configurePressure (s : Adafruit_DPS310) (rate : dps310_rate_t) (os : dps310_oversample_t) :
    Adafruit_DPS310 :=
  let s := { s with bus := s.bus.writeBit DPS310_PRSCFG 3 4 rate.toNat }
  let s := { s with bus := s.bus.writeBit DPS310_PRSCFG 4 0 os.toNat }
  let s :=
    if os.toNat > dps310_oversample_t.DPS310_8SAMPLES.toNat then
      { s with bus := s.bus.writeBit DPS310_CFGREG 1 2 1 }
    else
      { s with bus := s.bus.writeBit DPS310_CFGREG 1 2 0 }
  { s with pressure_scale := oversample_scalefactor.get ⟨os.toNat, by cases os <;> decide⟩ }

/-- The function `Adafruit_DPS310::configureTemperature`. -/
def configureTemperature (s : Adafruit_DPS310) (rate : dps310_rate_t)
    (os : dps310_oversample_t) : Adafruit_DPS310 :=
  let s := { s with bus := s.bus.writeBit DPS310_TMPCFG 3 4 rate.toNat }
  let s := { s with bus := s.bus.writeBit DPS310_TMPCFG 4 0 os.toNat }
  let s := { s with temp_scale := oversample_scalefactor.get ⟨os.toNat, by cases os <;> decide⟩ }
  let s :=
    if os.toNat > dps310_oversample_t.DPS310_8SAMPLES.toNat then
      { s with bus := s.bus.writeBit DPS310_CFGREG 1 3 1 }
    else
      { s with bus := s.bus.writeBit DPS310_CFGREG 1 3 0 }
  { s with bus := s.bus.writeBit DPS310_TMPCFG 1 7 (s.bus.readBit DPS310_TMPCOEFSRCE 1 7) }

/-- The function `Adafruit_DPS310::_read`.  An integer operand of a `float`
operation is converted to `float` first; `_c0 / 2.0` and the addition it enters
are `double` operations (`Flt.fin false 1 1` is the literal `2.0`; the
promotion of the `float` product to `double` is exact and leaves the datum as
it is), and the store to the `float` member `_temperature` rounds to `float`.
The second assignment to `_pressure` reads the member the first one stored. -/
def _read (s : Adafruit_DPS310) : Adafruit_DPS310 :=
  let s := { s with raw_temperature :=
                      twosComplement (wrapI32 (s.bus.readRegister DPS310_TMPB2 3 : Nat)) 24 }
  let s := { s with raw_pressure :=
                      twosComplement (wrapI32 (s.bus.readRegister DPS310_PRSB2 3 : Nat)) 24 }
  let s := { s with _scaled_rawtemp :=
                      Flt.div binary32 (Flt.ofInt binary32 s.raw_temperature.val)
                        (Flt.ofInt binary32 s.temp_scale.val) }
  let s := { s with _temperature :=
                      Flt.convert binary32
                        (Flt.add binary64
                          (Flt.mul binary32 s._scaled_rawtemp (Flt.ofInt binary32 s._c1.val))
                          (Flt.div binary64 (Flt.ofInt binary64 s._c0.val) (Flt.fin false 1 1))) }
  let s := { s with _pressure :=
                      Flt.div binary32 (Flt.ofInt binary32 s.raw_pressure.val)
                        (Flt.ofInt binary32 s.pressure_scale.val) }
  { s with _pressure :=
             Flt.add binary32
               (Flt.add binary32 (Flt.ofInt binary32 s._c00.val)
                 (Flt.mul binary32 s._pressure
                   (Flt.add binary32 (Flt.ofInt binary32 s._c10.val)
                     (Flt.mul binary32 s._pressure
                       (Flt.add binary32 (Flt.ofInt binary32 s._c20.val)
                         (Flt.mul binary32 s._pressure (Flt.ofInt binary32 s._c30.val)))))))
               (Flt.mul binary32 s._scaled_rawtemp
                 (Flt.add binary32 (Flt.ofInt binary32 s._c01.val)
                   (Flt.mul binary32 s._pressure
                     (Flt.add binary32 (Flt.ofInt binary32 s._c11.val)
                       (Flt.mul binary32 s._pressure (Flt.ofInt binary32 s._c21.val)))))) }

/-- The sensor types the driver reports. -/
inductive sensor_type_t where
  | SENSOR_TYPE_AMBIENT_TEMPERATURE
  | SENSOR_TYPE_PRESSURE
  deriving DecidableEq, Repr

/-- The members of `sensors_event_t` that `getEvents` fills in; `value` is the
member of the data union that was written (`temperature` or `pressure`). -/
structure sensors_event_t where
  version : Int
  sensor_id : Int
  type : sensor_type_t
  timestamp : Nat
  value : Flt

/-- The function `Adafruit_DPS310::getEvents`.  `temp_event` and
`pressure_event` say whether the corresponding pointer is non-null, `tT` and
`tP` are what `millis()` returns at the two calls.  The result is the returned
flag, the two events written (if any) and the driver state. -/
def getEvents (s : Adafruit_DPS310) (temp_event pressure_event : Bool) (tT tP : Nat) :
    Bool × Option sensors_event_t × Option sensors_event_t × Adafruit_DPS310 :=
  let s := _read s
  let te : Option sensors_event_t :=
    if temp_event then
      some { version := 1
             sensor_id := s._sensorID.val
             type := sensor_type_t.SENSOR_TYPE_AMBIENT_TEMPERATURE
             timestamp := tT
             value := s._temperature }
    else none
  let pe : Option sensors_event_t :=
    if pressure_event then
      some { version := 1
             sensor_id := s._sensorID.val
             type := sensor_type_t.SENSOR_TYPE_PRESSURE
             timestamp := tP
             value := Flt.div binary32 s._pressure (Flt.ofInt binary32 100) }
    else none
  (true, te, pe, s)

/-- The function `Adafruit_DPS310_Temp::getEvent`. -/
def Adafruit_DPS310_Temp.getEvent (s : Adafruit_DPS310) (tT : Nat) :
    Bool × Option sensors_event_t × Option sensors_event_t × Adafruit_DPS310 :=
  getEvents s true false tT 0

/-- The function `Adafruit_DPS310_Pressure::getEvent`. -/
def Adafruit_DPS310_Pressure.getEvent (s : Adafruit_DPS310) (tP : Nat) :
    Bool × Option sensors_event_t × Option sensors_event_t × Adafruit_DPS310 :=
  getEvents s false true 0 tP

/-- The function `Adafruit_DPS310::readAltitude`: the returned `float` and the
driver state.  `pow` is the `double` power function of the math library.  The
quotients `_pressure / 100` and `... / seaLevelhPa` are `float` operations, the
subtraction from the literal `1.0` (`Flt.fin false 1 0`) and the product with
`44330` are `double` operations, `Flt.round binary64 false 1903 10000` is the
literal `0.1903`, and the store to `altitude` rounds to `float`. -/
def readAltitude (pow : Flt → Flt → Flt) (s : Adafruit_DPS310) (seaLevelhPa : Flt) :
    Flt × Adafruit_DPS310 :=
  let s := _read s
  let altitude : Flt :=
    Flt.convert binary32
      (Flt.mul binary64 (Flt.ofInt binary64 44330)
        (Flt.sub binary64 (Flt.fin false 1 0)
          (pow (Flt.div binary32 (Flt.div binary32 s._pressure (Flt.ofInt binary32 100))
                 seaLevelhPa)
               (Flt.round binary64 false 1903 10000))))
  (altitude, s)

/-- The function `Adafruit_DPS310::_init`: the returned flag and the driver
state, or `none` when a polling loop runs out of fuel. -/
def _init (hw : (Nat → Nat) → (Nat → Nat)) (fuel : Nat) (s : Adafruit_DPS310) :
    Option (Bool × Adafruit_DPS310) :=
  if s.bus.readRegister DPS310_PRODREVID 1 ≠ 0x10 then
    some (false, s)
  else
    (reset hw fuel s).bind fun s =>
    (_readCalibration hw fuel s).bind fun s =>
      let s := configurePressure s dps310_rate_t.DPS310_64HZ dps310_oversample_t.DPS310_64SAMPLES
      let s := configureTemperature s dps310_rate_t.DPS310_64HZ dps310_oversample_t.DPS310_64SAMPLES
      let s := setMode s dps310_mode_t.DPS310_CONT_PRESTEMP
      (pollUntil hw 10
        (fun s => !(!(temperatureAvailable s).1 || !(pressureAvailable s).1)) fuel s).map
        fun s => (true, s)

/-- The functions `Adafruit_DPS310::begin_I2C` / `begin_SPI`: `dev_begin` is
what the transport's `begin()` returns. -/
def begin_I2C (hw : (Nat → Nat) → (Nat → Nat)) (fuel : Nat) (dev_begin : Bool)
    (s : Adafruit_DPS310) : Option (Bool × Adafruit_DPS310) :=
  if !dev_begin then some (false, s) else _init hw fuel s

/-! ## The calibration layout as the specification words it -/

/-- Sign extension of an `n`-bit field: subtract `2 ^ n` when bit `n - 1` is set. -/
def sext (n : Nat) (v : Nat) : Int :=
  if v.testBit (n - 1) then (v : Int) - 2 ^ n else (v : Int)

/-- The nine reference coefficients of an 18-byte block, in the order
`c0, c1, c00, c10, c01, c11, c20, c21, c30`. -/
def referenceCoefficients (bytes : Nat → Nat) : List Int :=
  [ sext 12 ((bytes 0 <<< 4) ||| (bytes 1 >>> 4)),
    sext 12 (((bytes 1 &&& 0x0F) <<< 8) ||| bytes 2),
    sext 20 ((bytes 3 <<< 12) ||| (bytes 4 <<< 4) ||| (bytes 5 >>> 4)),
    sext 20 (((bytes 5 &&& 0x0F) <<< 16) ||| (bytes 6 <<< 8) ||| bytes 7),
    sext 16 ((bytes 8 <<< 8) ||| bytes 9),
    sext 16 ((bytes 10 <<< 8) ||| bytes 11),
    sext 16 ((bytes 12 <<< 8) ||| bytes 13),
    sext 16 ((bytes 14 <<< 8) ||| bytes 15),
    sext 16 ((bytes 16 <<< 8) ||| bytes 17) ]

/-- The nine coefficients a driver object holds, in the same order. -/
def storedCoefficients (s : Adafruit_DPS310) : List Int :=
  [s._c0.val, s._c1.val, s._c00.val, s._c10.val, s._c01.val, s._c11.val, s._c20.val,
   s._c21.val, s._c30.val]

/-- The 18-byte calibration block the sensor presents at `0x10 .. 0x21`. -/
def calibrationBlock (b : Bus) : Nat → Nat :=
  fun i => b.regs (0x10 + i) % 256

/-! ## Sample devices -/

/-- A driver object on the register file `regs` on which nothing has run yet:
no write issued, every member zero. -/
def freshDriver (regs : Nat → Nat) : Adafruit_DPS310 :=
  { bus := { regs := regs, log := [] }
    _c0 := ⟨0, by omega⟩, _c1 := ⟨0, by omega⟩, _c01 := ⟨0, by omega⟩, _c11 := ⟨0, by omega⟩
    _c20 := ⟨0, by omega⟩, _c21 := ⟨0, by omega⟩, _c30 := ⟨0, by omega⟩
    _c00 := ⟨0, by omega⟩, _c10 := ⟨0, by omega⟩
    raw_pressure := ⟨0, by omega⟩, raw_temperature := ⟨0, by omega⟩
    _temperature := Flt.fin false 0 0, _scaled_rawtemp := Flt.fin false 0 0
    _pressure := Flt.fin false 0 0
    temp_scale := ⟨0, by omega⟩, pressure_scale := ⟨0, by omega⟩, _sensorID := ⟨0, by omega⟩ }

/-- A register file of a sensor that answers with product ID `0x10`, holds a
calibration block at `0x10 .. 0x21`, the raw temperature `0x0FE000 = 1040384`
and the raw pressure `0`, and has no status bit set yet. -/
def sampleRegs : Nat → Nat := fun a =>
  if a = 0x0D then 0x10
  else if a = 0x04 then 0xE0
  else if a = 0x03 then 0x0F
  else if 0x10 ≤ a ∧ a < 0x22 then
    [0x0C, 0x9E, 0xFE, 0x12, 0x34, 0x5F, 0xF0, 0x01, 0x80, 0x00, 0x7F, 0xFF, 0xFF, 0xFF,
     0x00, 0x01, 0x12, 0x34].getD (a - 0x10) 0
  else 0

/-- A sensor that raises its four status bits (calibration ready, sensor ready,
temperature and pressure available) during every millisecond of delay. -/
def sampleHw : (Nat → Nat) → (Nat → Nat) := fun regs a =>
  if a = 0x08 then regs 0x08 ||| 0xF0 else regs a

/-- A register file whose product ID register does not hold `0x10`. -/
def absentRegs : Nat → Nat := fun _ => 0

/-- The register file `sampleRegs` with the three raw pressure bytes
`p2 p1 p0` at `0x00 .. 0x02` and the three raw temperature bytes `t2 t1 t0` at
`0x03 .. 0x05`, most significant byte first. -/
def sampleRegsWith (p2 p1 p0 t2 t1 t0 : Nat) : Nat → Nat := fun a =>
  if a = 0x00 then p2 else if a = 0x01 then p1 else if a = 0x02 then p0
  else if a = 0x03 then t2 else if a = 0x04 then t1 else if a = 0x05 then t0
  else sampleRegs a

/-- A register file of a sensor with product ID `0x10` whose calibration block
encodes `c0 = 0`, `c1 = 1000`, `c00 = 100000` and zero for the other six
coefficients, with raw temperature `0x0FE000 = 1040384` and raw pressure `0`. -/
def exampleRegs : Nat → Nat := fun a =>
  if a = 0x0D then 0x10
  else if a = 0x04 then 0xE0
  else if a = 0x03 then 0x0F
  else if 0x10 ≤ a ∧ a < 0x22 then
    [0x00, 0x03, 0xE8, 0x18, 0x6A, 0x00, 0x00, 0x00, 0x00, 0x00, 0x00, 0x00, 0x00, 0x00,
     0x00, 0x00, 0x00, 0x00].getD (a - 0x10) 0
  else 0

/-- A driver object that holds `c00 = 100000`, zero for every other coefficient
and zero for both scale factors, on a sensor whose raw pressure is `0` and
whose raw temperature is `1040384`. -/
def zeroScaleExample : Adafruit_DPS310 :=
  { freshDriver exampleRegs with _c00 := ⟨100000, by omega⟩ }

/-- A driver object on which no `begin` or `_init` call has returned true: an
object of static storage duration before `begin`, every data member zero, on a
sensor with the wrong product ID. -/
def uninitialisedExample : Adafruit_DPS310 :=
  freshDriver absentRegs

/-! ## The compensation polynomial as the specification words it -/

/-- The calibrated pressure as a function of the seven pressure coefficients,
the scaled raw pressure `sp` and the scaled raw temperature `st`:
`c00 + sp*(c10 + sp*(c20 + sp*c30)) + st*(c01 + sp*(c11 + sp*c21))` with every
coefficient converted to `float` and every sum and product a `float`
operation. -/
def compensatedPressure (c00 c10 c01 c11 c20 c21 c30 : Int) (sp st : Flt) : Flt :=
  Flt.add binary32
    (Flt.add binary32 (Flt.ofInt binary32 c00)
      (Flt.mul binary32 sp
        (Flt.add binary32 (Flt.ofInt binary32 c10)
          (Flt.mul binary32 sp
            (Flt.add binary32 (Flt.ofInt binary32 c20)
              (Flt.mul binary32 sp (Flt.ofInt binary32 c30)))))))
    (Flt.mul binary32 st
      (Flt.add binary32 (Flt.ofInt binary32 c01)
        (Flt.mul binary32 sp
          (Flt.add binary32 (Flt.ofInt binary32 c11)
            (Flt.mul binary32 sp (Flt.ofInt binary32 c21))))))

/-- The same polynomial in exact rational arithmetic. -/
def exactPressure (c00 c10 c01 c11 c20 c21 c30 sp st : ℚ) : ℚ :=
  c00 + sp * (c10 + sp * (c20 + sp * c30)) + st * (c01 + sp * (c11 + sp * c21))

/-! ## Auxiliary definitions for the field and layout proofs -/

/-- The byte a field write leaves in a one-byte register that held the byte
`v`: the expression `writeBit` computes, reduced to the low byte that
`writeRegister` stores. -/
def fieldByte (v bits shift data : Nat) : Nat :=
  ((v &&& (0xFFFFFFFF ^^^ (((1 <<< bits) - 1) <<< shift)))
    ||| ((data &&& ((1 <<< bits) - 1)) <<< shift)) % 256

/-- The `bits` arguments of the nine sign extensions of `_readCalibration`, in
the order `c0, c1, c00, c10, c01, c11, c20, c21, c30`. -/
def coefficientBits : List Nat := [12, 12, 20, 20, 16, 16, 16, 16, 16]

/-- The unsigned `n`-bit field that holds the signed value `c`. -/
def fieldOf (n : Nat) (c : Int) : Nat := (c % 2 ^ n).toNat

/-- A calibration block laid out for nine given coefficients: byte `i` of the
block for `i < 18`, the reverse of the layout `_readCalibration` decodes. -/
def encodeCalibration (c0 c1 c00 c10 c01 c11 c20 c21 c30 : Int) : Nat → Nat
  | 0 => fieldOf 12 c0 / 16
  | 1 => fieldOf 12 c0 % 16 * 16 + fieldOf 12 c1 / 256
  | 2 => fieldOf 12 c1 % 256
  | 3 => fieldOf 20 c00 / 4096
  | 4 => fieldOf 20 c00 / 16 % 256
  | 5 => fieldOf 20 c00 % 16 * 16 + fieldOf 20 c10 / 65536
  | 6 => fieldOf 20 c10 / 256 % 256
  | 7 => fieldOf 20 c10 % 256
  | 8 => fieldOf 16 c01 / 256
  | 9 => fieldOf 16 c01 % 256
  | 10 => fieldOf 16 c11 / 256
  | 11 => fieldOf 16 c11 % 256
  | 12 => fieldOf 16 c20 / 256
  | 13 => fieldOf 16 c20 % 256
  | 14 => fieldOf 16 c21 / 256
  | 15 => fieldOf 16 c21 % 256
  | 16 => fieldOf 16 c30 / 256
  | 17 => fieldOf 16 c30 % 256
  | _ => 0

/-- A driver object on a sensor that presents the calibration block `block` at
`0x10 .. 0x21` and has its calibration-ready bit set. -/
def calibratedSensor (block : Nat → Nat) : Adafruit_DPS310 :=
  freshDriver fun a =>
    if a = DPS310_MEASCFG then 0x80
    else if 0x10 ≤ a ∧ a < 0x22 then block (a - 0x10)
    else 0

/-! ## Binary floating point: rounding lemmas -/

/-! ## Rounding lemmas -/

theorem ilog2_spec : ∀ (fuel n : Nat), n ≤ fuel → 1 ≤ n →
    2 ^ ilog2 fuel n ≤ n ∧ n < 2 ^ (ilog2 fuel n + 1) := by
  intro fuel
  induction fuel with
  | zero =>
    intro n hn h1
    omega
  | succ f ih =>
    intro n hn h1
    by_cases h2 : n < 2
    · have hn1 : n = 1 := by omega
      subst hn1
      simp [ilog2]
    · obtain ⟨hlo, hhi⟩ := ih (n / 2) (by omega) (by omega)
      simp only [ilog2, if_neg h2]
      have e1 : 2 ^ (ilog2 f (n / 2) + 1) = 2 * 2 ^ ilog2 f (n / 2) := by ring
      have e2 : 2 ^ (ilog2 f (n / 2) + 1 + 1) = 4 * 2 ^ ilog2 f (n / 2) := by ring
      rw [e1] at hhi
      rw [e1, e2]
      generalize 2 ^ ilog2 f (n / 2) = P at *
      omega

theorem pow2_pos (k : Int) : 0 < pow2 k := Nat.two_pow_pos _

theorem pow2_ratio (k : Int) :
    ((pow2 k : Nat) : ℚ) / ((pow2 (-k) : Nat) : ℚ) = (2 : ℚ) ^ k := by
  obtain ⟨n, rfl | rfl⟩ := Int.eq_nat_or_neg k
  · simp [pow2]
  · simp [pow2]

theorem pow2_cast_of_nonneg (k : Int) (hk : 0 ≤ k) : ((pow2 k : Nat) : ℚ) = (2 : ℚ) ^ k := by
  obtain ⟨n, rfl⟩ := Int.eq_ofNat_of_zero_le hk
  simp [pow2]

theorem two_zpow_pos (k : Int) : (0 : ℚ) < (2 : ℚ) ^ k := zpow_pos (by norm_num) k

theorem two_zpow_le_iff (a b : Int) : (2 : ℚ) ^ a ≤ (2 : ℚ) ^ b ↔ a ≤ b :=
  zpow_le_zpow_iff_right₀ (by norm_num)

theorem two_zpow_lt_iff (a b : Int) : (2 : ℚ) ^ a < (2 : ℚ) ^ b ↔ a < b :=
  zpow_lt_zpow_iff_right₀ (by norm_num)

/-- The exponent computed by `expOf` is the exponent of `num / den`. -/
theorem expOf_spec (num den : Nat) (hn : 0 < num) (hd : 0 < den) :
    (2 : ℚ) ^ expOf num den ≤ (num : ℚ) / den ∧
    (num : ℚ) / den < (2 : ℚ) ^ (expOf num den + 1) := by
  obtain ⟨ha1, ha2⟩ := ilog2_spec num num le_rfl hn
  obtain ⟨hb1, hb2⟩ := ilog2_spec den den le_rfl hd
  have hdq : (0 : ℚ) < den := by exact_mod_cast hd
  have h2 : (2 : ℚ) ≠ 0 := by norm_num
  have ha1q : (2 : ℚ) ^ (ilog2 num num : ℤ) ≤ num := by
    rw [zpow_natCast]; exact_mod_cast ha1
  have ha2q : (num : ℚ) < (2 : ℚ) ^ ((ilog2 num num : ℤ) + 1) := by
    have : (num : ℚ) < (2 : ℚ) ^ (ilog2 num num + 1) := by exact_mod_cast ha2
    rw [← zpow_natCast] at this
    push_cast at this
    exact this
  have hb1q : (2 : ℚ) ^ (ilog2 den den : ℤ) ≤ den := by
    rw [zpow_natCast]; exact_mod_cast hb1
  have hb2q : (den : ℚ) < (2 : ℚ) ^ ((ilog2 den den : ℤ) + 1) := by
    have : (den : ℚ) < (2 : ℚ) ^ (ilog2 den den + 1) := by exact_mod_cast hb2
    rw [← zpow_natCast] at this
    push_cast at this
    exact this
  simp only [expOf]
  generalize (ilog2 num num : ℤ) = a at *
  generalize (ilog2 den den : ℤ) = b at *
  have hlow : (2 : ℚ) ^ (a - b - 1) < (num : ℚ) / den := by
    rw [lt_div_iff₀ hdq]
    calc (2 : ℚ) ^ (a - b - 1) * den < (2 : ℚ) ^ (a - b - 1) * (2 : ℚ) ^ (b + 1) :=
          mul_lt_mul_of_pos_left hb2q (two_zpow_pos _)
      _ = (2 : ℚ) ^ a := by rw [← zpow_add₀ h2]; congr 1; ring
      _ ≤ num := ha1q
  have hup : (num : ℚ) / den < (2 : ℚ) ^ (a - b + 1) := by
    rw [div_lt_iff₀ hdq]
    calc (num : ℚ) < (2 : ℚ) ^ (a + 1) := ha2q
      _ = (2 : ℚ) ^ (a - b + 1) * (2 : ℚ) ^ b := by rw [← zpow_add₀ h2]; congr 1; ring
      _ ≤ (2 : ℚ) ^ (a - b + 1) * den := mul_le_mul_of_nonneg_left hb1q (two_zpow_pos _).le
  have hchk : den * pow2 (a - b) ≤ num * pow2 (-(a - b)) ↔
      (2 : ℚ) ^ (a - b) ≤ (num : ℚ) / den := by
    have hp : (0 : ℚ) < ((pow2 (-(a - b)) : Nat) : ℚ) := by exact_mod_cast pow2_pos _
    rw [le_div_iff₀ hdq, ← pow2_ratio (a - b), div_mul_eq_mul_div, div_le_iff₀ hp]
    constructor
    · intro h
      have : ((den * pow2 (a - b) : Nat) : ℚ) ≤ ((num * pow2 (-(a - b)) : Nat) : ℚ) := by
        exact_mod_cast h
      push_cast at this
      linarith
    · intro h
      have : ((den * pow2 (a - b) : Nat) : ℚ) ≤ ((num * pow2 (-(a - b)) : Nat) : ℚ) := by
        push_cast
        linarith
      exact_mod_cast this
  split
  · rename_i h
    exact ⟨hchk.mp h, hup⟩
  · rename_i h
    have h' : ¬ (2 : ℚ) ^ (a - b) ≤ (num : ℚ) / den := fun hc => h (hchk.mpr hc)
    refine ⟨hlow.le, ?_⟩
    have : a - b - 1 + 1 = a - b := by ring
    rw [this]
    exact not_le.mp h'

/-- The scaled quotient that `roundAt` rounds to an integer. -/
theorem scaled_ratio (num den : Nat) (qe : Int) (hden : 0 < den) :
    ((num * pow2 (-qe) : Nat) : ℚ) / ((den * pow2 qe : Nat) : ℚ)
      = (num : ℚ) / den * (2 : ℚ) ^ (-qe) := by
  have h := pow2_ratio (-qe)
  rw [neg_neg] at h
  rw [← h]
  have hp : ((pow2 qe : Nat) : ℚ) ≠ 0 := by exact_mod_cast (pow2_pos qe).ne'
  have hd : (den : ℚ) ≠ 0 := by exact_mod_cast hden.ne'
  push_cast
  field_simp

/-- A value `k * 2 ^ j` with `k` of at most `prec` bits, not below the
subnormal quantum and below `2 ^ (emax + 1)`, is rounded to itself. -/
theorem roundAt_exact (F : FloatFormat) (neg : Bool) (num den : Nat) (e : Int) (k : Nat)
    (j : Int) (hden : 0 < den) (hk : 0 < k) (hkp : k < 2 ^ F.prec)
    (he : (2 : ℚ) ^ e ≤ (num : ℚ) / den) (hv : (num : ℚ) / den = (k : ℚ) * (2 : ℚ) ^ j)
    (hsub : F.emin - ((F.prec : ℤ) - 1) ≤ j) (hov : (k : ℚ) * (2 : ℚ) ^ j < (2 : ℚ) ^ (F.emax + 1)) :
    ∃ n qe, Flt.roundAt F neg num den e = Flt.fin neg n qe ∧ n ≠ 0 ∧
      (n : ℚ) * (2 : ℚ) ^ qe = (k : ℚ) * (2 : ℚ) ^ j := by
  have h2 : (2 : ℚ) ≠ 0 := by norm_num
  have hkq : (k : ℚ) < (2 : ℚ) ^ (F.prec : ℤ) := by
    rw [zpow_natCast]; exact_mod_cast hkp
  have hlt : e < (F.prec : ℤ) + j := by
    rw [← two_zpow_lt_iff]
    calc (2 : ℚ) ^ e ≤ (k : ℚ) * (2 : ℚ) ^ j := hv ▸ he
      _ < (2 : ℚ) ^ (F.prec : ℤ) * (2 : ℚ) ^ j := mul_lt_mul_of_pos_right hkq (two_zpow_pos _)
      _ = (2 : ℚ) ^ ((F.prec : ℤ) + j) := by rw [zpow_add₀ h2]
  simp only [Flt.roundAt]
  have hqe : max e F.emin - ((F.prec : ℤ) - 1) ≤ j := by omega
  generalize max e F.emin - ((F.prec : ℤ) - 1) = qe at hqe ⊢
  obtain ⟨d, hd⟩ : ∃ d : Nat, j - qe = d := ⟨(j - qe).toNat, by omega⟩
  have hDpos : 0 < den * pow2 qe := Nat.mul_pos hden (pow2_pos _)
  have hDq : ((den * pow2 qe : Nat) : ℚ) ≠ 0 := by exact_mod_cast hDpos.ne'
  have hND : num * pow2 (-qe) = k * 2 ^ d * (den * pow2 qe) := by
    have h := scaled_ratio num den qe hden
    rw [hv, mul_assoc, ← zpow_add₀ h2, show j + -qe = (d : ℤ) by omega, zpow_natCast,
      div_eq_iff hDq] at h
    exact_mod_cast h
  have hq : num * pow2 (-qe) / (den * pow2 qe) = k * 2 ^ d := by
    rw [hND, Nat.mul_div_cancel _ hDpos]
  have hr : num * pow2 (-qe) % (den * pow2 qe) = 0 := by
    rw [hND, Nat.mul_mod_left]
  have hn0 : k * 2 ^ d ≠ 0 := Nat.mul_ne_zero hk.ne' (Nat.two_pow_pos d).ne'
  have hval : ((k * 2 ^ d : Nat) : ℚ) * (2 : ℚ) ^ qe = (k : ℚ) * (2 : ℚ) ^ j := by
    push_cast
    rw [mul_assoc, ← zpow_natCast, ← zpow_add₀ h2, show (d : ℤ) + qe = j by omega]
  have hnov : ¬ pow2 (F.emax + 1 - qe) ≤ k * 2 ^ d := by
    have h1 : ((k * 2 ^ d : Nat) : ℚ) < (2 : ℚ) ^ (F.emax + 1 - qe) := by
      have : ((k * 2 ^ d : Nat) : ℚ) * (2 : ℚ) ^ qe < (2 : ℚ) ^ (F.emax + 1 - qe) * (2 : ℚ) ^ qe := by
        rw [hval, ← zpow_add₀ h2, show F.emax + 1 - qe + qe = F.emax + 1 by ring]
        exact hov
      exact lt_of_mul_lt_mul_right this (two_zpow_pos _).le
    have h3 : (1 : ℚ) ≤ ((k * 2 ^ d : Nat) : ℚ) := by
      exact_mod_cast Nat.one_le_iff_ne_zero.mpr hn0
    have h4 : (0 : ℤ) < F.emax + 1 - qe := by
      rw [← two_zpow_lt_iff, zpow_zero]
      linarith
    intro hc
    have : ((pow2 (F.emax + 1 - qe) : Nat) : ℚ) ≤ ((k * 2 ^ d : Nat) : ℚ) := by exact_mod_cast hc
    rw [pow2_cast_of_nonneg _ h4.le] at this
    linarith
  rw [hq, hr]
  have hc : 2 * 0 < den * pow2 qe ∨ (2 * 0 = den * pow2 qe ∧ k * 2 ^ d % 2 = 0) :=
    Or.inl (by simpa using hDpos)
  rw [if_pos hc, if_neg hn0, if_neg hnov]
  exact ⟨k * 2 ^ d, qe, rfl, hn0, hval⟩

/-- A value below `2 ^ K` with `K ≤ emax` is rounded to a finite datum. -/
theorem roundAt_fin (F : FloatFormat) (neg : Bool) (num den : Nat) (e K : Int)
    (hden : 0 < den) (hprec : 1 ≤ F.prec) (hrange : F.emin < F.emax)
    (he : (2 : ℚ) ^ e ≤ (num : ℚ) / den) (hK : (num : ℚ) / den < (2 : ℚ) ^ K)
    (hKmax : K ≤ F.emax) :
    ∃ n qe, Flt.roundAt F neg num den e = Flt.fin neg n qe := by
  have h2 : (2 : ℚ) ≠ 0 := by norm_num
  have heK : e < K := by
    rw [← two_zpow_lt_iff]
    exact lt_of_le_of_lt he hK
  simp only [Flt.roundAt]
  have hqe : max e F.emin - ((F.prec : ℤ) - 1) ≤ F.emax - F.prec := by omega
  generalize max e F.emin - ((F.prec : ℤ) - 1) = qe at hqe ⊢
  obtain ⟨c, hc⟩ : ∃ c : Nat, F.emax - qe = c := ⟨(F.emax - qe).toNat, by omega⟩
  have hDpos : 0 < den * pow2 qe := Nat.mul_pos hden (pow2_pos _)
  have hq : num * pow2 (-qe) / (den * pow2 qe) < 2 ^ c := by
    have h1 : ((num * pow2 (-qe) / (den * pow2 qe) : Nat) : ℚ)
        ≤ ((num * pow2 (-qe) : Nat) : ℚ) / ((den * pow2 qe : Nat) : ℚ) := Nat.cast_div_le
    rw [scaled_ratio num den qe hden] at h1
    have h3 : (num : ℚ) / den * (2 : ℚ) ^ (-qe) < (2 : ℚ) ^ (c : ℤ) := by
      calc (num : ℚ) / den * (2 : ℚ) ^ (-qe) < (2 : ℚ) ^ K * (2 : ℚ) ^ (-qe) :=
            mul_lt_mul_of_pos_right hK (two_zpow_pos _)
        _ = (2 : ℚ) ^ (K + -qe) := by rw [zpow_add₀ h2]
        _ ≤ (2 : ℚ) ^ (c : ℤ) := by rw [two_zpow_le_iff]; omega
    rw [zpow_natCast] at h3
    have : ((num * pow2 (-qe) / (den * pow2 qe) : Nat) : ℚ) < ((2 ^ c : Nat) : ℚ) := by
      push_cast
      exact lt_of_le_of_lt h1 h3
    exact_mod_cast this
  have hpow : pow2 (F.emax + 1 - qe) = 2 ^ (c + 1) := by
    simp only [pow2]
    congr 1
    omega
  generalize num * pow2 (-qe) / (den * pow2 qe) = q at hq ⊢
  generalize num * pow2 (-qe) % (den * pow2 qe) = r
  have hcpos : 0 < 2 ^ c := Nat.two_pow_pos c
  have hnov : ∀ n, n ≤ q + 1 → ¬ pow2 (F.emax + 1 - qe) ≤ n := by
    intro n hn
    rw [hpow, pow_succ]
    omega
  by_cases hcond : 2 * r < den * pow2 qe ∨ (2 * r = den * pow2 qe ∧ q % 2 = 0)
  · rw [if_pos hcond]
    by_cases hq0 : q = 0
    · rw [if_pos hq0]; exact ⟨0, 0, rfl⟩
    · rw [if_neg hq0, if_neg (hnov q (by omega))]; exact ⟨q, qe, rfl⟩
  · rw [if_neg hcond, if_neg (Nat.succ_ne_zero q), if_neg (hnov (q + 1) le_rfl)]
    exact ⟨q + 1, qe, rfl⟩

/-- A value of normal exponent is rounded to infinity or to a datum with a
mantissa of full width. -/
theorem roundAt_normal (F : FloatFormat) (neg : Bool) (num den : Nat) (e : Int)
    (hden : 0 < den) (hprec : 1 ≤ F.prec) (he : (2 : ℚ) ^ e ≤ (num : ℚ) / den)
    (hnorm : F.emin ≤ e) :
    Flt.roundAt F neg num den e = Flt.inf neg ∨
    ∃ n, Flt.roundAt F neg num den e = Flt.fin neg n (e - ((F.prec : ℤ) - 1)) ∧
      2 ^ (F.prec - 1) ≤ n := by
  have h2 : (2 : ℚ) ≠ 0 := by norm_num
  simp only [Flt.roundAt]
  rw [max_eq_left hnorm]
  generalize hqe : e - ((F.prec : ℤ) - 1) = qe
  have hDpos : 0 < den * pow2 qe := Nat.mul_pos hden (pow2_pos _)
  have hq : 2 ^ (F.prec - 1) ≤ num * pow2 (-qe) / (den * pow2 qe) := by
    rw [Nat.le_div_iff_mul_le hDpos]
    have h1 := scaled_ratio num den qe hden
    have hDq : (0 : ℚ) < ((den * pow2 qe : Nat) : ℚ) := by exact_mod_cast hDpos
    have h3 : (2 : ℚ) ^ ((F.prec - 1 : Nat) : ℤ) ≤ (num : ℚ) / den * (2 : ℚ) ^ (-qe) := by
      calc (2 : ℚ) ^ ((F.prec - 1 : Nat) : ℤ) = (2 : ℚ) ^ e * (2 : ℚ) ^ (-qe) := by
            rw [← zpow_add₀ h2]; congr 1; omega
        _ ≤ (num : ℚ) / den * (2 : ℚ) ^ (-qe) :=
            mul_le_mul_of_nonneg_right he (two_zpow_pos _).le
    rw [← h1, zpow_natCast, le_div_iff₀ hDq] at h3
    exact_mod_cast h3
  generalize num * pow2 (-qe) / (den * pow2 qe) = q at hq ⊢
  generalize num * pow2 (-qe) % (den * pow2 qe) = r
  have hppos : 0 < 2 ^ (F.prec - 1) := Nat.two_pow_pos _
  by_cases hcond : 2 * r < den * pow2 qe ∨ (2 * r = den * pow2 qe ∧ q % 2 = 0)
  · rw [if_pos hcond, if_neg (by omega : ¬ q = 0)]
    by_cases hov : pow2 (F.emax + 1 - qe) ≤ q
    · rw [if_pos hov]; exact Or.inl rfl
    · rw [if_neg hov]; exact Or.inr ⟨q, rfl, hq⟩
  · rw [if_neg hcond, if_neg (Nat.succ_ne_zero q)]
    by_cases hov : pow2 (F.emax + 1 - qe) ≤ q + 1
    · rw [if_pos hov]; exact Or.inl rfl
    · rw [if_neg hov]; exact Or.inr ⟨q + 1, rfl, by omega⟩

/-- Exactness of `Flt.round` on representable values. -/
theorem round_exact (F : FloatFormat) (neg : Bool) (num den k : Nat) (j : Int)
    (hnum : 0 < num) (hden : 0 < den) (hk : 0 < k) (hkp : k < 2 ^ F.prec)
    (hv : (num : ℚ) / den = (k : ℚ) * (2 : ℚ) ^ j)
    (hsub : F.emin - ((F.prec : ℤ) - 1) ≤ j)
    (hov : (k : ℚ) * (2 : ℚ) ^ j < (2 : ℚ) ^ (F.emax + 1)) :
    ∃ n qe, Flt.round F neg num den = Flt.fin neg n qe ∧ n ≠ 0 ∧
      (n : ℚ) * (2 : ℚ) ^ qe = (k : ℚ) * (2 : ℚ) ^ j := by
  simp only [Flt.round, if_neg hnum.ne']
  exact roundAt_exact F neg num den _ k j hden hk hkp (expOf_spec num den hnum hden).1 hv hsub hov

/-- Finiteness of `Flt.round` below `2 ^ emax`. -/
theorem round_fin (F : FloatFormat) (neg : Bool) (num den : Nat) (K : Int)
    (hden : 0 < den) (hprec : 1 ≤ F.prec) (hrange : F.emin < F.emax)
    (hK : (num : ℚ) / den < (2 : ℚ) ^ K) (hKmax : K ≤ F.emax) :
    ∃ n qe, Flt.round F neg num den = Flt.fin neg n qe := by
  by_cases hnum : num = 0
  · simp only [Flt.round, if_pos hnum]
    exact ⟨0, 0, rfl⟩
  · simp only [Flt.round, if_neg hnum]
    exact roundAt_fin F neg num den _ K hden hprec hrange
      (expOf_spec num den (Nat.pos_of_ne_zero hnum) hden).1 hK hKmax

/-- Conversion of zero. -/
theorem ofInt_zero (F : FloatFormat) : Flt.ofInt F 0 = Flt.fin false 0 0 := by
  simp [Flt.ofInt, Flt.round]

/-- An integer of at most `prec` bits is converted exactly. -/
theorem ofInt_exact (F : FloatFormat) (i : Int) (hi : i ≠ 0) (hk : i.natAbs < 2 ^ F.prec)
    (hsub : F.emin - ((F.prec : ℤ) - 1) ≤ 0) (hov : (F.prec : ℤ) ≤ F.emax + 1) :
    ∃ n qe, Flt.ofInt F i = Flt.fin (decide (i < 0)) n qe ∧ n ≠ 0 ∧
      (n : ℚ) * (2 : ℚ) ^ qe = (i.natAbs : ℚ) := by
  have hpos : 0 < i.natAbs := Int.natAbs_pos.mpr hi
  have h := round_exact F (decide (i < 0)) i.natAbs 1 i.natAbs 0 hpos (by norm_num) hpos hk
    (by simp) hsub (by
      rw [zpow_zero, mul_one]
      calc (i.natAbs : ℚ) < (2 : ℚ) ^ (F.prec : ℤ) := by
            rw [zpow_natCast]; exact_mod_cast hk
        _ ≤ (2 : ℚ) ^ (F.emax + 1) := by rw [two_zpow_le_iff]; exact hov)
  simpa [Flt.ofInt] using h

/-- A nonzero `int32_t` converts to a finite `float` with a full mantissa. -/
theorem ofInt32_normal (i : Int) (hi : i ≠ 0) (hb : i.natAbs ≤ 2 ^ 31) :
    ∃ s n qe, Flt.ofInt binary32 i = Flt.fin s n qe ∧ 2 ^ 23 ≤ n ∧ -23 ≤ qe := by
  have hpos : 0 < i.natAbs := Int.natAbs_pos.mpr hi
  obtain ⟨he1, he2⟩ := expOf_spec i.natAbs 1 hpos (by norm_num)
  have hv1 : (1 : ℚ) ≤ ((i.natAbs : Nat) : ℚ) / ((1 : Nat) : ℚ) := by
    rw [Nat.cast_one, div_one]
    exact_mod_cast hpos
  have hv2 : ((i.natAbs : Nat) : ℚ) / ((1 : Nat) : ℚ) < (2 : ℚ) ^ (32 : ℤ) := by
    rw [Nat.cast_one, div_one]
    have : ((i.natAbs : Nat) : ℚ) ≤ ((2 ^ 31 : Nat) : ℚ) := by exact_mod_cast hb
    norm_num at this ⊢
    linarith
  have he0 : 0 ≤ expOf i.natAbs 1 := by
    have : (2 : ℚ) ^ (0 : ℤ) < (2 : ℚ) ^ (expOf i.natAbs 1 + 1) := by
      rw [zpow_zero]
      exact lt_of_le_of_lt hv1 he2
    rw [two_zpow_lt_iff] at this
    omega
  obtain ⟨n, qe, hfin⟩ := roundAt_fin binary32 (decide (i < 0)) i.natAbs 1 _ 32 (by norm_num)
    (by decide) (by decide) he1 hv2 (by decide)
  have hnorm := roundAt_normal binary32 (decide (i < 0)) i.natAbs 1 _ (by norm_num) (by decide)
    he1 (by
      have : binary32.emin = -126 := rfl
      omega)
  simp only [Flt.ofInt, Flt.round, if_neg hpos.ne']
  rcases hnorm with hinf | ⟨m, hm, hm2⟩
  · rw [hinf] at hfin
    exact absurd hfin (by simp)
  · refine ⟨_, m, _, hm, hm2, ?_⟩
    have : ((binary32.prec : ℤ) - 1) = 23 := rfl
    omega

/-- A raw 24-bit sample converts to a finite `float` of magnitude at most `2 ^ 23`. -/
theorem ofInt32_raw (t : Int) (ht : t.natAbs ≤ 2 ^ 23) :
    ∃ s m e, Flt.ofInt binary32 t = Flt.fin s m e ∧ (m : ℚ) * (2 : ℚ) ^ e ≤ (2 : ℚ) ^ (23 : ℤ) := by
  by_cases h0 : t = 0
  · subst h0
    exact ⟨false, 0, 0, ofInt_zero _, by norm_num⟩
  · obtain ⟨n, qe, hn, _, hval⟩ := ofInt_exact binary32 t h0
      (lt_of_le_of_lt ht (by decide)) (by decide) (by decide)
    refine ⟨_, n, qe, hn, ?_⟩
    rw [hval]
    have : ((t.natAbs : Nat) : ℚ) ≤ ((2 ^ 23 : Nat) : ℚ) := by exact_mod_cast ht
    norm_num at this ⊢
    exact this

/-- The quotient of a raw sample by a nonzero scale factor is finite. -/
theorem div32_fin (s t : Bool) (m n : Nat) (e f : Int)
    (hm : (m : ℚ) * (2 : ℚ) ^ e ≤ (2 : ℚ) ^ (23 : ℤ)) (hn : 2 ^ 23 ≤ n) (hf : -23 ≤ f) :
    ∃ u k g, Flt.div binary32 (Flt.fin s m e) (Flt.fin t n f) = Flt.fin u k g := by
  have h2 : (2 : ℚ) ≠ 0 := by norm_num
  have hn0 : n ≠ 0 := by
    have : 0 < 2 ^ 23 := by norm_num
    omega
  simp only [Flt.div, if_neg hn0]
  by_cases hm0 : m = 0
  · rw [if_pos hm0]
    exact ⟨_, 0, 0, rfl⟩
  · rw [if_neg hm0]
    have hden : 0 < n * pow2 (f - e) := Nat.mul_pos (Nat.pos_of_ne_zero hn0) (pow2_pos _)
    have hval : ((m * pow2 (e - f) : Nat) : ℚ) / ((n * pow2 (f - e) : Nat) : ℚ)
        < (2 : ℚ) ^ (24 : ℤ) := by
      have hr := pow2_ratio (e - f)
      rw [neg_sub] at hr
      have hnq : (0 : ℚ) < (n : ℚ) := by exact_mod_cast Nat.pos_of_ne_zero hn0
      have hpq : (0 : ℚ) < ((pow2 (f - e) : Nat) : ℚ) := by exact_mod_cast pow2_pos _
      have e1 : ((m * pow2 (e - f) : Nat) : ℚ) / ((n * pow2 (f - e) : Nat) : ℚ)
          = (m : ℚ) * (2 : ℚ) ^ e / ((n : ℚ) * (2 : ℚ) ^ f) := by
        have hz : (2 : ℚ) ^ e = (2 : ℚ) ^ (e - f) * (2 : ℚ) ^ f := by
          rw [← zpow_add₀ h2]; congr 1; ring
        rw [hz, ← hr]
        have hfq : (2 : ℚ) ^ f ≠ 0 := (two_zpow_pos f).ne'
        push_cast
        field_simp
        ring
      rw [e1, div_lt_iff₀ (mul_pos hnq (two_zpow_pos f))]
      have hnq2 : (2 : ℚ) ^ (23 : ℤ) ≤ (n : ℚ) := by
        have : ((2 ^ 23 : Nat) : ℚ) ≤ (n : ℚ) := by exact_mod_cast hn
        norm_num at this ⊢
        exact this
      have hfq : (2 : ℚ) ^ (-23 : ℤ) ≤ (2 : ℚ) ^ f := by rw [two_zpow_le_iff]; exact hf
      calc (m : ℚ) * (2 : ℚ) ^ e ≤ (2 : ℚ) ^ (23 : ℤ) := hm
        _ < (2 : ℚ) ^ (24 : ℤ) * ((2 : ℚ) ^ (23 : ℤ) * (2 : ℚ) ^ (-23 : ℤ)) := by norm_num
        _ ≤ (2 : ℚ) ^ (24 : ℤ) * ((n : ℚ) * (2 : ℚ) ^ f) := by
            apply mul_le_mul_of_nonneg_left _ (two_zpow_pos _).le
            exact mul_le_mul hnq2 hfq (two_zpow_pos _).le hnq.le
    obtain ⟨k, g, h⟩ := round_fin binary32 (xor s t) _ _ 24 hden (by decide) (by decide) hval
      (by decide)
    exact ⟨_, k, g, h⟩

/-- Rounding to nearest: a finite result of `roundAt` lies within half a
quantum of the value rounded. -/
theorem roundAt_near (F : FloatFormat) (neg : Bool) (num den : Nat) (e : Int) (hden : 0 < den)
    (n : Nat) (g : Int) (h : Flt.roundAt F neg num den e = Flt.fin neg n g) :
    |(n : ℚ) * (2 : ℚ) ^ g - (num : ℚ) / den|
      ≤ (2 : ℚ) ^ (max e F.emin - ((F.prec : ℤ) - 1)) / 2 := by
  have h2 : (2 : ℚ) ≠ 0 := by norm_num
  simp only [Flt.roundAt] at h
  generalize max e F.emin - ((F.prec : ℤ) - 1) = qe at h ⊢
  have hDpos : 0 < den * pow2 qe := Nat.mul_pos hden (pow2_pos _)
  have hDq : (0 : ℚ) < ((den * pow2 qe : Nat) : ℚ) := by exact_mod_cast hDpos
  have hx := scaled_ratio num den qe hden
  have hdm := Nat.div_add_mod (num * pow2 (-qe)) (den * pow2 qe)
  have hrlt := Nat.mod_lt (num * pow2 (-qe)) hDpos
  generalize num * pow2 (-qe) / (den * pow2 qe) = q at h hdm
  generalize num * pow2 (-qe) % (den * pow2 qe) = r at h hdm hrlt
  generalize num * pow2 (-qe) = N at hx hdm
  generalize den * pow2 qe = D at h hx hdm hrlt hDpos hDq
  have hN : (N : ℚ) = (D : ℚ) * q + r := by exact_mod_cast hdm.symm
  have hv : (num : ℚ) / den = ((q : ℚ) + (r : ℚ) / D) * (2 : ℚ) ^ qe := by
    have h3 : (num : ℚ) / den = (N : ℚ) / D * (2 : ℚ) ^ qe := by
      rw [hx, mul_assoc, ← zpow_add₀ h2, neg_add_cancel, zpow_zero, mul_one]
    have hD0 : (D : ℚ) ≠ 0 := hDq.ne'
    have h4 : (N : ℚ) / D = (q : ℚ) + (r : ℚ) / D := by
      rw [hN, add_div, mul_div_cancel_left₀ _ hD0]
    rw [h3, h4]
  have hq2 : (0 : ℚ) < (2 : ℚ) ^ qe := two_zpow_pos qe
  have hrq : (0 : ℚ) ≤ (r : ℚ) / D := div_nonneg (Nat.cast_nonneg r) hDq.le
  by_cases hcond : 2 * r < D ∨ (2 * r = D ∧ q % 2 = 0)
  · have hle : (r : ℚ) / D ≤ 1 / 2 := by
      rw [div_le_iff₀ hDq]
      have : 2 * r ≤ D := by omega
      have h4 : ((2 * r : Nat) : ℚ) ≤ (D : ℚ) := by exact_mod_cast this
      push_cast at h4
      linarith
    rw [if_pos hcond] at h
    by_cases hq0 : q = 0
    · rw [if_pos hq0] at h
      injection h with _ hn hg
      subst hn hg hq0
      rw [hv]
      simp only [Nat.cast_zero, zero_mul, zero_add, zero_sub, abs_neg]
      rw [abs_of_nonneg (mul_nonneg hrq hq2.le)]
      nlinarith
    · rw [if_neg hq0] at h
      split at h
      · exact absurd h (by simp)
      · injection h with _ hn hg
        subst hn hg
        rw [hv, show (q : ℚ) * (2 : ℚ) ^ qe - ((q : ℚ) + (r : ℚ) / D) * (2 : ℚ) ^ qe
          = -((r : ℚ) / D * (2 : ℚ) ^ qe) by ring, abs_neg,
          abs_of_nonneg (mul_nonneg hrq hq2.le)]
        nlinarith
  · have hge : 1 / 2 ≤ (r : ℚ) / D := by
      rw [le_div_iff₀ hDq]
      have : D ≤ 2 * r := by omega
      have h4 : (D : ℚ) ≤ ((2 * r : Nat) : ℚ) := by exact_mod_cast this
      push_cast at h4
      linarith
    have hlt1 : (r : ℚ) / D ≤ 1 := by
      rw [div_le_iff₀ hDq]
      have h4 : (r : ℚ) ≤ (D : ℚ) := by exact_mod_cast hrlt.le
      linarith
    rw [if_neg hcond, if_neg (Nat.succ_ne_zero q)] at h
    split at h
    · exact absurd h (by simp)
    · injection h with _ hn hg
      subst hn hg
      rw [hv, show ((q + 1 : Nat) : ℚ) * (2 : ℚ) ^ qe - ((q : ℚ) + (r : ℚ) / D) * (2 : ℚ) ^ qe
        = (1 - (r : ℚ) / D) * (2 : ℚ) ^ qe by push_cast; ring,
        abs_of_nonneg (mul_nonneg (by linarith) hq2.le)]
      nlinarith

/-- The quotient that `Flt.div` rounds. -/
theorem div_ratio (m n : Nat) (e f : Int) (hn : n ≠ 0) :
    ((m * pow2 (e - f) : Nat) : ℚ) / ((n * pow2 (f - e) : Nat) : ℚ)
      = (m : ℚ) * (2 : ℚ) ^ e / ((n : ℚ) * (2 : ℚ) ^ f) := by
  have h2 : (2 : ℚ) ≠ 0 := by norm_num
  have hr := pow2_ratio (e - f)
  rw [neg_sub] at hr
  have hnq : (n : ℚ) ≠ 0 := by exact_mod_cast hn
  have hpq : ((pow2 (f - e) : Nat) : ℚ) ≠ 0 := by exact_mod_cast (pow2_pos _).ne'
  have hz : (2 : ℚ) ^ e = (2 : ℚ) ^ (e - f) * (2 : ℚ) ^ f := by
    rw [← zpow_add₀ h2]; congr 1; ring
  rw [hz, ← hr]
  have hfq : (2 : ℚ) ^ f ≠ 0 := (two_zpow_pos f).ne'
  push_cast
  field_simp
  ring

/-- An integer as a signed magnitude. -/
theorem int_sign_natAbs (t : Int) :
    (t : ℚ) = (if decide (t < 0) = true then -1 else 1) * (t.natAbs : ℚ) := by
  by_cases h : t < 0
  · have : ((t.natAbs : Int) : ℚ) = -(t : ℚ) := by
      rw [← Int.cast_neg]; congr 1; omega
    simp only [h, decide_True, if_true]
    rw [← Int.cast_natCast, this]; ring
  · have : ((t.natAbs : Int) : ℚ) = (t : ℚ) := by
      congr 1; omega
    simp only [h, decide_False, Bool.false_eq_true, if_false]
    rw [← Int.cast_natCast, this]; ring

/-- The `float` quotient of a raw 24-bit sample and a nonzero scale factor of
fewer than 25 bits is finite and within a relative error of `2 ^ (-24)` of the
exact quotient. -/
theorem scaled_near (t s : Int) (ht : t.natAbs ≤ 2 ^ 23) (hs : s ≠ 0) (hs2 : s.natAbs < 2 ^ 24) :
    ∃ q : ℚ, Flt.toRat (Flt.div binary32 (Flt.ofInt binary32 t) (Flt.ofInt binary32 s)) = some q ∧
      |q - (t : ℚ) / s| ≤ |(t : ℚ) / s| * (2 : ℚ) ^ (-24 : ℤ) := by
  have h2 : (2 : ℚ) ≠ 0 := by norm_num
  obtain ⟨n, f, hsn, hn0, hsval⟩ := ofInt_exact binary32 s hs hs2 (by decide) (by decide)
  by_cases ht0 : t = 0
  · subst ht0
    refine ⟨0, ?_, by simp⟩
    rw [ofInt_zero, hsn]
    simp [Flt.div, hn0, Flt.toRat]
  · obtain ⟨m, e, htm, hm0, htval⟩ := ofInt_exact binary32 t ht0
      (lt_of_le_of_lt ht (by decide)) (by decide) (by decide)
    have htpos : (1 : ℚ) ≤ (t.natAbs : ℚ) := by
      exact_mod_cast Int.natAbs_pos.mpr ht0
    have hspos : (1 : ℚ) ≤ (s.natAbs : ℚ) := by
      exact_mod_cast Int.natAbs_pos.mpr hs
    have htle : (t.natAbs : ℚ) ≤ (2 : ℚ) ^ (23 : ℤ) := by
      have : ((t.natAbs : Nat) : ℚ) ≤ ((2 ^ 23 : Nat) : ℚ) := by exact_mod_cast ht
      norm_num at this ⊢
      exact this
    have hslt : (s.natAbs : ℚ) < (2 : ℚ) ^ (24 : ℤ) := by
      have : ((s.natAbs : Nat) : ℚ) < ((2 ^ 24 : Nat) : ℚ) := by exact_mod_cast hs2
      norm_num at this ⊢
      exact this
    have hs0 : (0 : ℚ) < (s.natAbs : ℚ) := by linarith
    have hnum : 0 < m * pow2 (e - f) := Nat.mul_pos (Nat.pos_of_ne_zero hm0) (pow2_pos _)
    have hden : 0 < n * pow2 (f - e) := Nat.mul_pos (Nat.pos_of_ne_zero hn0) (pow2_pos _)
    have hv : ((m * pow2 (e - f) : Nat) : ℚ) / ((n * pow2 (f - e) : Nat) : ℚ)
        = (t.natAbs : ℚ) / (s.natAbs : ℚ) := by
      rw [div_ratio m n e f hn0, htval, hsval]
    obtain ⟨he1, he2⟩ := expOf_spec _ _ hnum hden
    rw [hv] at he1 he2
    have hvlo : (2 : ℚ) ^ (-24 : ℤ) < (t.natAbs : ℚ) / (s.natAbs : ℚ) := by
      rw [lt_div_iff₀ hs0]
      calc (2 : ℚ) ^ (-24 : ℤ) * (s.natAbs : ℚ) < (2 : ℚ) ^ (-24 : ℤ) * (2 : ℚ) ^ (24 : ℤ) :=
            mul_lt_mul_of_pos_left hslt (two_zpow_pos _)
        _ = 1 := by norm_num
        _ ≤ (t.natAbs : ℚ) := htpos
    have hvhi : (t.natAbs : ℚ) / (s.natAbs : ℚ) < (2 : ℚ) ^ (24 : ℤ) := by
      rw [div_lt_iff₀ hs0]
      calc (t.natAbs : ℚ) ≤ (2 : ℚ) ^ (23 : ℤ) := htle
        _ < (2 : ℚ) ^ (24 : ℤ) * 1 := by norm_num
        _ ≤ (2 : ℚ) ^ (24 : ℤ) * (s.natAbs : ℚ) :=
            mul_le_mul_of_nonneg_left hspos (two_zpow_pos _).le
    have hE : -24 ≤ expOf (m * pow2 (e - f)) (n * pow2 (f - e)) := by
      have := lt_trans hvlo he2
      rw [two_zpow_lt_iff] at this
      omega
    have hround : Flt.div binary32 (Flt.fin (decide (t < 0)) m e) (Flt.fin (decide (s < 0)) n f)
        = Flt.roundAt binary32 (xor (decide (t < 0)) (decide (s < 0))) (m * pow2 (e - f))
            (n * pow2 (f - e)) (expOf (m * pow2 (e - f)) (n * pow2 (f - e))) := by
      simp only [Flt.div, if_neg hn0, if_neg hm0, Flt.round, if_neg hnum.ne']
    obtain ⟨k, g, hfin⟩ := roundAt_fin binary32 (xor (decide (t < 0)) (decide (s < 0)))
      (m * pow2 (e - f)) (n * pow2 (f - e)) _ 24 hden (by decide) (by decide)
      (by rw [hv]; exact he1) (by rw [hv]; exact hvhi) (by decide)
    have hnear := roundAt_near binary32 _ _ _ _ hden k g hfin
    rw [hv] at hnear
    have hmax : max (expOf (m * pow2 (e - f)) (n * pow2 (f - e))) binary32.emin
        - ((binary32.prec : ℤ) - 1) = expOf (m * pow2 (e - f)) (n * pow2 (f - e)) - 23 := by
      have h1 : binary32.emin = -126 := rfl
      have h3 : (binary32.prec : ℤ) = 24 := rfl
      rw [h1, h3]
      omega
    rw [hmax] at hnear
    generalize expOf (m * pow2 (e - f)) (n * pow2 (f - e)) = E at he1 he2 hE hnear
    have hbound : (2 : ℚ) ^ (E - 23) / 2
        ≤ (t.natAbs : ℚ) / (s.natAbs : ℚ) * (2 : ℚ) ^ (-24 : ℤ) := by
      have : (2 : ℚ) ^ (E - 23) / 2 = (2 : ℚ) ^ E * (2 : ℚ) ^ (-24 : ℤ) := by
        rw [show E - 23 = E + (-24) + 1 by ring, zpow_add₀ h2, zpow_add₀ h2, zpow_one]
        ring
      rw [this]
      exact mul_le_mul_of_nonneg_right he1 (two_zpow_pos _).le
    have hvnn : (0 : ℚ) ≤ (t.natAbs : ℚ) / (s.natAbs : ℚ) := div_nonneg (by linarith) hs0.le
    rw [htm, hsn, hround, hfin]
    refine ⟨(if xor (decide (t < 0)) (decide (s < 0)) = true then -1 else 1) * (k : ℚ)
      * (2 : ℚ) ^ g, rfl, ?_⟩
    have hts : (t : ℚ) / s
        = (if xor (decide (t < 0)) (decide (s < 0)) = true then -1 else 1)
          * ((t.natAbs : ℚ) / (s.natAbs : ℚ)) := by
      rw [int_sign_natAbs t, int_sign_natAbs s]
      by_cases h1 : t < 0 <;> by_cases h3 : s < 0 <;> simp [h1, h3] <;> ring
    rw [hts]
    by_cases hx : xor (decide (t < 0)) (decide (s < 0)) = true
    · simp only [hx, if_true]
      rw [show (-1 : ℚ) * (k : ℚ) * (2 : ℚ) ^ g - -1 * ((t.natAbs : ℚ) / (s.natAbs : ℚ))
          = -((k : ℚ) * (2 : ℚ) ^ g - (t.natAbs : ℚ) / (s.natAbs : ℚ)) by ring, abs_neg,
        show (-1 : ℚ) * ((t.natAbs : ℚ) / (s.natAbs : ℚ))
          = -((t.natAbs : ℚ) / (s.natAbs : ℚ)) by ring, abs_neg, abs_of_nonneg hvnn]
      exact le_trans hnear hbound
    · simp only [hx, Bool.false_eq_true, if_false]
      rw [one_mul, one_mul, abs_of_nonneg hvnn]
      exact le_trans hnear hbound

theorem toRat_sign (b : Bool) (n : Nat) (g : Int) :
    Flt.toRat (Flt.fin b n g) = some ((if b = true then -1 else 1) * ((n : ℚ) * (2 : ℚ) ^ g)) := by
  simp [Flt.toRat, mul_assoc]

/-- The value that `Flt.convert` rounds. -/
theorem convert_ratio (m : Nat) (e : Int) :
    ((m * pow2 e : Nat) : ℚ) / ((pow2 (-e) : Nat) : ℚ) = (m : ℚ) * (2 : ℚ) ^ e := by
  rw [← pow2_ratio e]
  push_cast
  ring

/-- Conversion of a datum whose value is an integer of at most `prec` bits is
exact. -/
theorem convert_exact (F : FloatFormat) (s : Bool) (m : Nat) (e : Int) (k : Nat) (hk : 0 < k)
    (hkp : k < 2 ^ F.prec) (hval : (m : ℚ) * (2 : ℚ) ^ e = (k : ℚ))
    (hsub : F.emin - ((F.prec : ℤ) - 1) ≤ 0) (hov : (F.prec : ℤ) ≤ F.emax + 1) :
    ∃ n g, Flt.convert F (Flt.fin s m e) = Flt.fin s n g ∧ n ≠ 0 ∧
      (n : ℚ) * (2 : ℚ) ^ g = (k : ℚ) := by
  have hm : 0 < m := by
    rcases Nat.eq_zero_or_pos m with h | h
    · subst h
      have hk0 : (0 : ℚ) < (k : ℚ) := by exact_mod_cast hk
      rw [Nat.cast_zero, zero_mul] at hval
      linarith
    · exact h
  have h := round_exact F s (m * pow2 e) (pow2 (-e)) k 0 (Nat.mul_pos hm (pow2_pos _))
    (pow2_pos _) hk hkp (by rw [convert_ratio, hval, zpow_zero, mul_one]) hsub (by
      rw [zpow_zero, mul_one]
      calc (k : ℚ) < (2 : ℚ) ^ (F.prec : ℤ) := by
            rw [zpow_natCast]; exact_mod_cast hkp
        _ ≤ (2 : ℚ) ^ (F.emax + 1) := by rw [two_zpow_le_iff]; exact hov)
  simpa [Flt.convert] using h

/-- Half of a 16-bit integer, computed in `double`, is exact. -/
theorem half_exact (c : Int) (hc : c.natAbs < 2 ^ 16) :
    Flt.toRat (Flt.div binary64 (Flt.ofInt binary64 c) (Flt.fin false 1 1))
      = some ((c : ℚ) / 2) := by
  by_cases hc0 : c = 0
  · subst hc0
    rw [ofInt_zero]
    simp [Flt.div, Flt.toRat]
  · have hpos : 0 < c.natAbs := Int.natAbs_pos.mpr hc0
    have hk53 : c.natAbs < 2 ^ binary64.prec := lt_of_lt_of_le hc (by decide)
    obtain ⟨m, e, hm, hm0, hval⟩ := ofInt_exact binary64 c hc0 hk53 (by decide) (by decide)
    have hnum : 0 < m * pow2 (e - 1) := Nat.mul_pos (Nat.pos_of_ne_zero hm0) (pow2_pos _)
    have hv : ((m * pow2 (e - 1) : Nat) : ℚ) / ((1 * pow2 (1 - e) : Nat) : ℚ)
        = (c.natAbs : ℚ) * (2 : ℚ) ^ (-1 : ℤ) := by
      rw [div_ratio m 1 e 1 (by norm_num), hval]
      norm_num
      ring
    have hcq : (c.natAbs : ℚ) < (2 : ℚ) ^ (16 : ℤ) := by
      have : ((c.natAbs : Nat) : ℚ) < ((2 ^ 16 : Nat) : ℚ) := by exact_mod_cast hc
      norm_num at this ⊢
      exact this
    obtain ⟨n, g, hr, _, hnval⟩ := round_exact binary64 (xor (decide (c < 0)) false)
      (m * pow2 (e - 1)) (1 * pow2 (1 - e)) c.natAbs (-1) hnum
      (Nat.mul_pos (by norm_num) (pow2_pos _)) hpos hk53 hv (by decide) (by
        have h1 : (0 : ℚ) ≤ (c.natAbs : ℚ) := Nat.cast_nonneg _
        calc (c.natAbs : ℚ) * (2 : ℚ) ^ (-1 : ℤ) ≤ (c.natAbs : ℚ) * 1 :=
              mul_le_mul_of_nonneg_left (by norm_num) h1
          _ < (2 : ℚ) ^ (16 : ℤ) := by rw [mul_one]; exact hcq
          _ ≤ (2 : ℚ) ^ (binary64.emax + 1) := by rw [two_zpow_le_iff]; decide)
    have hdiv : Flt.div binary64 (Flt.fin (decide (c < 0)) m e) (Flt.fin false 1 1)
        = Flt.round binary64 (xor (decide (c < 0)) false) (m * pow2 (e - 1))
            (1 * pow2 (1 - e)) := by
      simp only [Flt.div, if_neg hm0, if_neg (by norm_num : ¬ (1 : Nat) = 0)]
    rw [hm, hdiv, hr, toRat_sign, hnval, int_sign_natAbs c]
    simp only [Bool.xor_false]
    congr 1
    rw [zpow_neg, zpow_one]
    by_cases h : c < 0 <;> simp [h] <;> ring

theorem mul_zero_right (F : FloatFormat) (s t : Bool) (m : Nat) (e : Int) :
    Flt.mul F (Flt.fin s m e) (Flt.fin t 0 0) = Flt.fin (xor s t) 0 0 := by
  simp [Flt.mul]

theorem mul_zero_left (F : FloatFormat) (s t : Bool) (n : Nat) (f : Int) :
    Flt.mul F (Flt.fin s 0 0) (Flt.fin t n f) = Flt.fin (xor s t) 0 0 := by
  simp [Flt.mul]

theorem add_zero_zero (F : FloatFormat) (s t : Bool) :
    Flt.add F (Flt.fin s 0 0) (Flt.fin t 0 0) = Flt.fin (s && t) 0 0 := by
  simp [Flt.add]

theorem add_zero_right (F : FloatFormat) (s t : Bool) (m : Nat) (e : Int) (hm : m ≠ 0) :
    Flt.add F (Flt.fin s m e) (Flt.fin t 0 0) = Flt.convert F (Flt.fin s m e) := by
  simp [Flt.add, hm]

theorem div_nan_left (F : FloatFormat) (x : Flt) : Flt.div F Flt.nan x = Flt.nan := by
  cases x <;> rfl

theorem div_zero_left (F : FloatFormat) (s t : Bool) (n : Nat) (f : Int) (hn : n ≠ 0) :
    Flt.div F (Flt.fin s 0 0) (Flt.fin t n f) = Flt.fin (xor s t) 0 0 := by
  simp [Flt.div, hn]

/-- The temperature of the example: with a scaled raw temperature of `1.0` and
`c0 = 0` the computed temperature is `c1`, for every 16-bit `c1`. -/
theorem temperature_unit_scale (c1 : Int) (hc : c1.natAbs < 2 ^ 16) :
    Flt.toRat (Flt.convert binary32
      (Flt.add binary64 (Flt.mul binary32 (Flt.fin false 8388608 (-23)) (Flt.ofInt binary32 c1))
        (Flt.div binary64 (Flt.ofInt binary64 0) (Flt.fin false 1 1)))) = some (c1 : ℚ) := by
  have hz : Flt.div binary64 (Flt.ofInt binary64 0) (Flt.fin false 1 1) = Flt.fin false 0 0 := by
    rw [ofInt_zero]
    exact div_zero_left binary64 false false 1 1 (by norm_num)
  rw [hz]
  by_cases hc0 : c1 = 0
  · subst hc0
    rw [ofInt_zero, mul_zero_right, add_zero_zero]
    simp [Flt.convert, Flt.round, Flt.toRat]
  · have hpos : 0 < c1.natAbs := Int.natAbs_pos.mpr hc0
    have hk24 : c1.natAbs < 2 ^ binary32.prec := lt_of_lt_of_le hc (by decide)
    have hk53 : c1.natAbs < 2 ^ binary64.prec := lt_of_lt_of_le hc (by decide)
    obtain ⟨m, e, hm, hm0, hval⟩ := ofInt_exact binary32 c1 hc0 hk24 (by decide) (by decide)
    have hmul : Flt.mul binary32 (Flt.fin false 8388608 (-23)) (Flt.fin (decide (c1 < 0)) m e)
        = Flt.round binary32 (xor false (decide (c1 < 0))) (8388608 * m * pow2 (-23 + e))
            (pow2 (-(-23 + e))) := by
      simp [Flt.mul, hm0]
    have hv : ((8388608 * m * pow2 (-23 + e) : Nat) : ℚ) / ((pow2 (-(-23 + e)) : Nat) : ℚ)
        = (c1.natAbs : ℚ) * (2 : ℚ) ^ (0 : ℤ) := by
      rw [convert_ratio, zpow_add₀ (by norm_num : (2 : ℚ) ≠ 0), zpow_zero, mul_one, ← hval]
      push_cast
      norm_num
      ring
    obtain ⟨n, g, hr, hn0, hnval⟩ := round_exact binary32 (xor false (decide (c1 < 0)))
      (8388608 * m * pow2 (-23 + e)) (pow2 (-(-23 + e))) c1.natAbs 0
      (Nat.mul_pos (Nat.mul_pos (by norm_num) (Nat.pos_of_ne_zero hm0)) (pow2_pos _))
      (pow2_pos _) hpos hk24 hv (by decide) (by
        rw [zpow_zero, mul_one]
        calc (c1.natAbs : ℚ) < (2 : ℚ) ^ (binary32.prec : ℤ) := by
              rw [zpow_natCast]; exact_mod_cast hk24
          _ ≤ (2 : ℚ) ^ (binary32.emax + 1) := by rw [two_zpow_le_iff]; decide)
    rw [zpow_zero, mul_one] at hnval
    obtain ⟨n2, g2, hc2, hn2, hval2⟩ := convert_exact binary64 (xor false (decide (c1 < 0))) n g
      c1.natAbs hpos hk53 hnval (by decide) (by decide)
    obtain ⟨n3, g3, hc3, _, hval3⟩ := convert_exact binary32 (xor false (decide (c1 < 0))) n2 g2
      c1.natAbs hpos hk24 hval2 (by decide) (by decide)
    rw [hm, hmul, hr, add_zero_right _ _ _ _ _ hn0, hc2, hc3, toRat_sign, hval3,
      int_sign_natAbs c1]
    simp

/-- The pressure polynomial with only the offset coefficient: when the scaled
raw pressure is a zero, the scaled raw temperature is finite and `c00 = 100000`
is the only nonzero coefficient, the polynomial evaluates to `100000`. -/
theorem pressure_offset_only (b u : Bool) (k : Nat) (g : Int) :
    Flt.add binary32
      (Flt.add binary32 (Flt.ofInt binary32 100000)
        (Flt.mul binary32 (Flt.fin b 0 0)
          (Flt.add binary32 (Flt.ofInt binary32 0)
            (Flt.mul binary32 (Flt.fin b 0 0)
              (Flt.add binary32 (Flt.ofInt binary32 0)
                (Flt.mul binary32 (Flt.fin b 0 0) (Flt.ofInt binary32 0)))))))
      (Flt.mul binary32 (Flt.fin u k g)
        (Flt.add binary32 (Flt.ofInt binary32 0)
          (Flt.mul binary32 (Flt.fin b 0 0)
            (Flt.add binary32 (Flt.ofInt binary32 0)
              (Flt.mul binary32 (Flt.fin b 0 0) (Flt.ofInt binary32 0))))))
      = Flt.fin false 12800000 (-7) := by
  have h1 : Flt.ofInt binary32 100000 = Flt.fin false 12800000 (-7) := by decide
  have h2 : ∀ c : Bool, Flt.add binary32 (Flt.fin false 12800000 (-7)) (Flt.fin c 0 0)
      = Flt.fin false 12800000 (-7) := by decide
  simp only [ofInt_zero, h1, mul_zero_right, mul_zero_left, add_zero_zero, Bool.false_and, h2]

/-! ## Bit-level and machine-integer lemmas -/

theorem readRegister_one (b : Bus) (addr : Nat) : b.readRegister addr 1 = b.regs addr % 256 := by
  simp [Bus.readRegister, List.range_succ]

/-- A bitwise or of a multiple of `2 ^ k` with a value below `2 ^ k` is their sum. -/
theorem or_eq_add (m x k : Nat) (hm : m % 2 ^ k = 0) (hx : x < 2 ^ k) : m ||| x = m + x := by
  have h := Nat.mul_add_lt_is_or hx (m / 2 ^ k)
  have hmk : 2 ^ k * (m / 2 ^ k) = m := by
    have := Nat.div_add_mod m (2 ^ k)
    omega
  rw [hmk] at h
  exact h.symm

theorem and_15 (x : Nat) : x &&& 15 = x % 16 := Nat.and_pow_two_sub_one_eq_mod x 4

theorem testBit_top (v k : Nat) (hv : v < 2 ^ (k + 1)) : v.testBit k = decide (2 ^ k ≤ v) := by
  rw [Nat.testBit_to_div_mod]
  have hpos : 0 < 2 ^ k := Nat.two_pow_pos k
  have h2 : 2 ^ (k + 1) = 2 * 2 ^ k := by rw [pow_succ]; ring
  have hlt : v / 2 ^ k < 2 := by
    rw [Nat.div_lt_iff_lt_mul hpos]
    omega
  have hiff : 1 ≤ v / 2 ^ k ↔ 2 ^ k ≤ v := by
    rw [Nat.le_div_iff_mul_le hpos]
    simp
  by_cases h : 2 ^ k ≤ v
  · have h1 := hiff.mpr h
    have h3 : v / 2 ^ k % 2 = 1 := by
      generalize v / 2 ^ k = x at hlt h1
      omega
    simp [h, h3]
  · have h1 : ¬ 1 ≤ v / 2 ^ k := fun h1 => h (hiff.mp h1)
    have h3 : v / 2 ^ k % 2 ≠ 1 := by
      generalize v / 2 ^ k = x at hlt h1
      omega
    simp [h, h3]

theorem and_two_pow_ne_zero (v k : Nat) (hv : v < 2 ^ (k + 1)) :
    v &&& 2 ^ k ≠ 0 ↔ 2 ^ k ≤ v := by
  rw [Nat.and_two_pow, testBit_top v k hv]
  have hpos : 0 < 2 ^ k := Nat.two_pow_pos k
  by_cases h : 2 ^ k ≤ v
  · simp [h]
  · simp [h]

theorem twosComplement_val (n v : Nat) (h1 : 1 ≤ n) (h31 : n ≤ 31) (hv : v < 2 ^ n) :
    (twosComplement (wrapI32 (v : Int)) n).val
      = if 2 ^ (n - 1) ≤ v then (v : Int) - ((2 ^ n : Nat) : Int) else (v : Int) := by
  obtain ⟨k, rfl⟩ : ∃ k, n = k + 1 := ⟨n - 1, by omega⟩
  have hk : 2 ^ k ≤ 2 ^ 30 := Nat.pow_le_pow_right (by norm_num) (by omega)
  have hpos : 0 < 2 ^ k := Nat.two_pow_pos k
  have h2 : 2 ^ (k + 1) = 2 * 2 ^ k := by rw [pow_succ]; ring
  have hiff := and_two_pow_ne_zero v k hv
  have hu : toU32 (wrapI32 (v : Int)) = v := by
    simp only [toU32, wrapI32]
    omega
  simp only [twosComplement, hu, Nat.add_sub_cancel, Nat.shiftLeft_eq, one_mul]
  rw [h2] at hv ⊢
  generalize 2 ^ k = P at *
  have hm1 : P % 4294967296 = P := Nat.mod_eq_of_lt (by omega)
  have hm2 : 2 * P % 4294967296 = 2 * P := Nat.mod_eq_of_lt (by omega)
  rw [hm1, hm2]
  by_cases h : P ≤ v
  · rw [if_pos (hiff.mpr h), if_pos h]
    simp only [wrapI32]
    omega
  · rw [if_neg (fun hc => h (hiff.mp hc)), if_neg h]
    simp only [wrapI32]
    omega

theorem sext_val (n v : Nat) (h1 : 1 ≤ n) (hv : v < 2 ^ n) :
    sext n v = if 2 ^ (n - 1) ≤ v then (v : Int) - ((2 ^ n : Nat) : Int) else (v : Int) := by
  obtain ⟨k, rfl⟩ : ∃ k, n = k + 1 := ⟨n - 1, by omega⟩
  simp only [sext, Nat.add_sub_cancel, testBit_top v k hv, decide_eq_true_eq]
  push_cast
  rfl

/-- On an `n`-bit field value the function `twosComplement` is sign extension. -/
theorem twosComplement_sext (n v : Nat) (h1 : 1 ≤ n) (h31 : n ≤ 31) (hv : v < 2 ^ n) :
    (twosComplement (wrapI32 (v : Int)) n).val = sext n v := by
  rw [twosComplement_val n v h1 h31 hv, sext_val n v h1 hv]

theorem store16_sext (n v : Nat) (h1 : 1 ≤ n) (h16 : n ≤ 16) (hv : v < 2 ^ n) :
    (wrapI16 (twosComplement (wrapI32 (v : Int)) n).val).val = sext n v := by
  rw [twosComplement_sext n v h1 (by omega) hv, sext_val n v h1 hv]
  obtain ⟨k, rfl⟩ : ∃ k, n = k + 1 := ⟨n - 1, by omega⟩
  have hk : 2 ^ k ≤ 2 ^ 15 := Nat.pow_le_pow_right (by norm_num) (by omega)
  have h2 : 2 ^ (k + 1) = 2 * 2 ^ k := by rw [pow_succ]; ring
  simp only [Nat.add_sub_cancel]
  rw [h2] at hv ⊢
  generalize 2 ^ k = P at *
  simp only [wrapI16]
  split <;> omega

theorem sext_range (n v : Nat) (h1 : 1 ≤ n) (hv : v < 2 ^ n) :
    -((2 ^ (n - 1) : Nat) : Int) ≤ sext n v ∧ sext n v ≤ ((2 ^ (n - 1) : Nat) : Int) - 1 := by
  rw [sext_val n v h1 hv]
  obtain ⟨k, rfl⟩ : ∃ k, n = k + 1 := ⟨n - 1, by omega⟩
  have h2 : 2 ^ (k + 1) = 2 * 2 ^ k := by rw [pow_succ]; ring
  simp only [Nat.add_sub_cancel]
  rw [h2] at hv ⊢
  generalize 2 ^ k = P at *
  split <;> omega

theorem c0_field (a b : Nat) (ha : a < 256) (hb : b < 256) :
    a <<< 4 ||| b >>> 4 &&& 15 = a <<< 4 ||| b >>> 4 ∧ a <<< 4 ||| b >>> 4 < 2 ^ 12 := by
  have e1 : b >>> 4 &&& 15 = b >>> 4 := by
    rw [and_15, Nat.shiftRight_eq_div_pow]
    omega
  have e2 : a <<< 4 ||| b >>> 4 = a * 16 + b / 16 := by
    rw [or_eq_add _ _ 4 (by rw [Nat.shiftLeft_eq]; omega)
      (by rw [Nat.shiftRight_eq_div_pow]; omega), Nat.shiftLeft_eq, Nat.shiftRight_eq_div_pow]
  rw [e1, e2]
  exact ⟨rfl, by omega⟩

theorem c1_field (b c : Nat) (hc : c < 256) : (b &&& 15) <<< 8 ||| c < 2 ^ 12 := by
  rw [or_eq_add _ _ 8 (by rw [Nat.shiftLeft_eq]; omega) (by omega), Nat.shiftLeft_eq, and_15]
  omega

theorem c00_field (a b c : Nat) (ha : a < 256) (hb : b < 256) (hc : c < 256) :
    a <<< 12 ||| b <<< 4 ||| c >>> 4 &&& 15 = a <<< 12 ||| b <<< 4 ||| c >>> 4 ∧
    a <<< 12 ||| b <<< 4 ||| c >>> 4 < 2 ^ 20 := by
  have e1 : c >>> 4 &&& 15 = c >>> 4 := by
    rw [and_15, Nat.shiftRight_eq_div_pow]
    omega
  have e2 : a <<< 12 ||| b <<< 4 = a * 4096 + b * 16 := by
    rw [or_eq_add _ _ 12 (by rw [Nat.shiftLeft_eq]; omega) (by rw [Nat.shiftLeft_eq]; omega),
      Nat.shiftLeft_eq, Nat.shiftLeft_eq]
  have e3 : a <<< 12 ||| b <<< 4 ||| c >>> 4 = a * 4096 + b * 16 + c / 16 := by
    rw [e2, or_eq_add _ _ 4 (by omega) (by rw [Nat.shiftRight_eq_div_pow]; omega),
      Nat.shiftRight_eq_div_pow]
  rw [e1, e3]
  exact ⟨rfl, by omega⟩

theorem c10_field (a b c : Nat) (hb : b < 256) (hc : c < 256) :
    (a &&& 15) <<< 16 ||| b <<< 8 ||| c < 2 ^ 20 := by
  have e2 : (a &&& 15) <<< 16 ||| b <<< 8 = a % 16 * 65536 + b * 256 := by
    rw [or_eq_add _ _ 16 (by rw [Nat.shiftLeft_eq]; omega) (by rw [Nat.shiftLeft_eq]; omega),
      Nat.shiftLeft_eq, Nat.shiftLeft_eq, and_15]
  rw [e2, or_eq_add _ _ 8 (by omega) (by omega)]
  omega

theorem pair16_field (a b : Nat) (ha : a < 256) (hb : b < 256) : a <<< 8 ||| b < 2 ^ 16 := by
  rw [or_eq_add _ _ 8 (by rw [Nat.shiftLeft_eq]; omega) (by omega), Nat.shiftLeft_eq]
  omega

theorem wrapI16_small (v : Nat) (hv : v < 2 ^ 12) : (wrapI16 (v : Int)).val = (v : Int) := by
  simp only [wrapI16]
  omega

theorem loadCalibration_bus (s : Adafruit_DPS310) : (loadCalibration s).bus = s.bus := rfl

/-- The coefficients stored from the 18 bytes are the reference coefficients. -/
theorem loadCalibration_stored (s : Adafruit_DPS310) :
    storedCoefficients (loadCalibration s) = referenceCoefficients (calibrationBlock s.bus) := by
  have hb : ∀ i, s.bus.regs i % 256 < 256 := fun i => Nat.mod_lt _ (by norm_num)
  simp only [storedCoefficients, referenceCoefficients, loadCalibration, calibrationBlock,
    readRegister_one]
  rw [(c0_field _ _ (hb _) (hb _)).1, wrapI16_small _ (c0_field _ _ (hb _) (hb _)).2,
    (c00_field _ _ _ (hb _) (hb _) (hb _)).1,
    store16_sext 12 _ (by norm_num) (by norm_num) (c0_field _ _ (hb _) (hb _)).2,
    store16_sext 12 _ (by norm_num) (by norm_num) (c1_field _ _ (hb _)),
    twosComplement_sext 20 _ (by norm_num) (by norm_num) (c00_field _ _ _ (hb _) (hb _) (hb _)).2,
    twosComplement_sext 20 _ (by norm_num) (by norm_num) (c10_field _ _ _ (hb _) (hb _)),
    store16_sext 16 _ (by norm_num) (by norm_num) (pair16_field _ _ (hb _) (hb _)),
    store16_sext 16 _ (by norm_num) (by norm_num) (pair16_field _ _ (hb _) (hb _)),
    store16_sext 16 _ (by norm_num) (by norm_num) (pair16_field _ _ (hb _) (hb _)),
    store16_sext 16 _ (by norm_num) (by norm_num) (pair16_field _ _ (hb _) (hb _)),
    store16_sext 16 _ (by norm_num) (by norm_num) (pair16_field _ _ (hb _) (hb _))]

theorem loadCalibration_range (s : Adafruit_DPS310) :
    (-2048 ≤ (loadCalibration s)._c0.val ∧ (loadCalibration s)._c0.val ≤ 2047) ∧
    (-2048 ≤ (loadCalibration s)._c1.val ∧ (loadCalibration s)._c1.val ≤ 2047) ∧
    (-524288 ≤ (loadCalibration s)._c00.val ∧ (loadCalibration s)._c00.val ≤ 524287) ∧
    (-524288 ≤ (loadCalibration s)._c10.val ∧ (loadCalibration s)._c10.val ≤ 524287) := by
  have hb : ∀ i, s.bus.regs i % 256 < 256 := fun i => Nat.mod_lt _ (by norm_num)
  have h := loadCalibration_stored s
  simp only [storedCoefficients, referenceCoefficients, calibrationBlock, List.cons.injEq] at h
  obtain ⟨h0, h1, h00, h10, _⟩ := h
  rw [h0, h1, h00, h10]
  have r0 := sext_range 12 _ (by norm_num) (c0_field _ _ (hb (16 + 0)) (hb (16 + 1))).2
  have r1 := sext_range 12 _ (by norm_num)
    (c1_field (s.bus.regs (16 + 1) % 256) _ (hb (16 + 2)))
  have r00 := sext_range 20 _ (by norm_num)
    (c00_field _ _ _ (hb (16 + 3)) (hb (16 + 4)) (hb (16 + 5))).2
  have r10 := sext_range 20 _ (by norm_num)
    (c10_field (s.bus.regs (16 + 5) % 256) _ _ (hb (16 + 6)) (hb (16 + 7)))
  norm_num at r0 r1 r00 r10
  exact ⟨r0, r1, r00, r10⟩

/-- A polling loop whose condition holds after `n` delays returns, with more
than `n` fuel, at the first delay count at which the condition holds. -/
theorem pollUntil_first (hw : (Nat → Nat) → (Nat → Nat)) (ms : Nat)
    (done : Adafruit_DPS310 → Bool) :
    ∀ (n fuel : Nat) (s : Adafruit_DPS310), done ((delay hw ms)^[n] s) = true → n < fuel →
      ∃ k, k ≤ n ∧ (∀ j, j < k → done ((delay hw ms)^[j] s) = false) ∧
        done ((delay hw ms)^[k] s) = true ∧
        pollUntil hw ms done fuel s = some ((delay hw ms)^[k] s) := by
  intro n
  induction n with
  | zero =>
    intro fuel s hd hf
    obtain ⟨f, rfl⟩ : ∃ f, fuel = f + 1 := ⟨fuel - 1, by omega⟩
    refine ⟨0, le_refl _, fun j hj => absurd hj (Nat.not_lt_zero j), hd, ?_⟩
    simp only [Function.iterate_zero, id_eq] at hd
    simp [pollUntil, hd]
  | succ n ih =>
    intro fuel s hd hf
    obtain ⟨f, rfl⟩ : ∃ f, fuel = f + 1 := ⟨fuel - 1, by omega⟩
    by_cases h0 : done s = true
    · exact ⟨0, Nat.zero_le _, fun j hj => absurd hj (Nat.not_lt_zero j), by simpa using h0,
        by simp [pollUntil, h0]⟩
    · rw [Function.iterate_succ_apply] at hd
      obtain ⟨k, hk, hfirst, hdk, hp⟩ := ih f (delay hw ms s) hd (by omega)
      refine ⟨k + 1, by omega, ?_, ?_, ?_⟩
      · intro j hj
        cases j with
        | zero => simpa using h0
        | succ j =>
          rw [Function.iterate_succ_apply]
          exact hfirst j (by omega)
      · rw [Function.iterate_succ_apply]
        exact hdk
      · rw [Function.iterate_succ_apply]
        simp [pollUntil, h0, hp]

/-- Delays change nothing but the registers, which take one sensor step per
millisecond. -/
theorem delay_one_iterate (hw : (Nat → Nat) → (Nat → Nat)) (k : Nat) (s : Adafruit_DPS310) :
    ((delay hw 1)^[k] s).bus.regs = hw^[k] s.bus.regs ∧
    ((delay hw 1)^[k] s).bus.log = s.bus.log ∧
    ((delay hw 1)^[k] s).temp_scale = s.temp_scale ∧
    ((delay hw 1)^[k] s).pressure_scale = s.pressure_scale := by
  induction k generalizing s with
  | zero => simp
  | succ k ih =>
    rw [Function.iterate_succ_apply, Function.iterate_succ_apply]
    exact ih (delay hw 1 s)

/-- The reference coefficients depend on the first 18 bytes only. -/
theorem referenceCoefficients_congr (a b : Nat → Nat) (h : ∀ i, i < 18 → a i = b i) :
    referenceCoefficients a = referenceCoefficients b := by
  simp only [referenceCoefficients, h 0 (by norm_num), h 1 (by norm_num), h 2 (by norm_num),
    h 3 (by norm_num), h 4 (by norm_num), h 5 (by norm_num), h 6 (by norm_num),
    h 7 (by norm_num), h 8 (by norm_num), h 9 (by norm_num), h 10 (by norm_num),
    h 11 (by norm_num), h 12 (by norm_num), h 13 (by norm_num), h 14 (by norm_num),
    h 15 (by norm_num), h 16 (by norm_num), h 17 (by norm_num)]

/-! ## Calibration decoding -/

/-- Claim C1: `_readCalibration` polls the calibration-ready bit once per
millisecond and, when the bit shows after at most `n < fuel` delays, returns at
the first delay count `k` at which it shows, with the state that lines 191-214
produce from the registers the sensor then presents.  For every 18-byte block
`bytes` the sensor presents at `0x10 .. 0x21` at that moment, the nine members
stored are exactly the nine reference coefficients of `bytes`: sign-extended
12-bit `c0`, `c1`, 20-bit `c00`, `c10` and the five big-endian 16-bit pairs, so
the narrowing to the `int16_t` / `int32_t` members loses nothing.  The call
writes no register and leaves the scale factors as they were. -/
theorem readCalibration_stores_reference (hw : (Nat → Nat) → (Nat → Nat)) (n fuel : Nat)
    (s : Adafruit_DPS310)
    (hready : ((delay hw 1)^[n] s).bus.readBit DPS310_MEASCFG 1 7 ≠ 0) (hfuel : n < fuel) :
    ∃ k s', k ≤ n ∧
      (∀ j, j < k → ((delay hw 1)^[j] s).bus.readBit DPS310_MEASCFG 1 7 = 0) ∧
      ((delay hw 1)^[k] s).bus.readBit DPS310_MEASCFG 1 7 ≠ 0 ∧
      _readCalibration hw fuel s = some s' ∧
      s' = loadCalibration ((delay hw 1)^[k] s) ∧
      s'.bus.regs = hw^[k] s.bus.regs ∧
      s'.bus.log = s.bus.log ∧
      s'.temp_scale = s.temp_scale ∧ s'.pressure_scale = s.pressure_scale ∧
      storedCoefficients s'
        = referenceCoefficients (fun i => (hw^[k] s.bus.regs) (0x10 + i) % 256) ∧
      (∀ bytes : Nat → Nat, (∀ i, i < 18 → (hw^[k] s.bus.regs) (0x10 + i) % 256 = bytes i) →
        storedCoefficients s' = referenceCoefficients bytes) := by
  obtain ⟨k, hk, hfirst, hdone, hp⟩ := pollUntil_first hw 1
    (fun s => s.bus.readBit DPS310_MEASCFG 1 7 != 0) n fuel s (by simpa using hready) hfuel
  obtain ⟨hregs, hlog, hts, hps⟩ := delay_one_iterate hw k s
  have hstored : storedCoefficients (loadCalibration ((delay hw 1)^[k] s))
      = referenceCoefficients (fun i => (hw^[k] s.bus.regs) (0x10 + i) % 256) := by
    rw [loadCalibration_stored]
    show referenceCoefficients (fun i => ((delay hw 1)^[k] s).bus.regs (0x10 + i) % 256) = _
    rw [hregs]
  refine ⟨k, loadCalibration ((delay hw 1)^[k] s), hk, ?_, by simpa using hdone, ?_, rfl, ?_, ?_,
    ?_, ?_, hstored, ?_⟩
  · intro j hj
    simpa using hfirst j hj
  · simp [_readCalibration, hp]
  · rw [loadCalibration_bus]; exact hregs
  · rw [loadCalibration_bus]; exact hlog
  · exact hts
  · exact hps
  · intro bytes hbytes
    rw [hstored]
    exact referenceCoefficients_congr _ _ hbytes

/-- Witness for C1 on the sample sensor, which becomes ready after one delay:
the call returns the nine coefficients of the sample block. -/
theorem readCalibration_stores_reference_witness :
    ∃ k s', k ≤ 1 ∧ _readCalibration sampleHw 2 (freshDriver sampleRegs) = some s' ∧
      s' = loadCalibration ((delay sampleHw 1)^[k] (freshDriver sampleRegs)) ∧
      storedCoefficients s' = [201, -258, 74565, -4095, -32768, 32767, -1, 1, 4660] := by
  obtain ⟨k, s', hk, _, _, hs, hload, _, _, _, _, _, hbytes⟩ :=
    readCalibration_stores_reference sampleHw 1 2 (freshDriver sampleRegs) (by decide) (by decide)
  refine ⟨k, s', hk, hs, hload, ?_⟩
  rw [hbytes (fun i => sampleRegs (0x10 + i)) ?_]
  · decide
  · intro i hi
    have hk2 : k = 0 ∨ k = 1 := by omega
    rcases hk2 with rfl | rfl
    · revert i; decide
    · revert i; decide

/-! ## Compensation -/

theorem readRegister_three (b : Bus) (a : Nat) :
    b.readRegister a 3
      = b.regs a % 256 * 65536 + b.regs (a + 1) % 256 * 256 + b.regs (a + 2) % 256 := by
  have h0 : b.regs a % 256 < 256 := Nat.mod_lt _ (by norm_num)
  have h1 : b.regs (a + 1) % 256 < 256 := Nat.mod_lt _ (by norm_num)
  have h2 : b.regs (a + 2) % 256 < 256 := Nat.mod_lt _ (by norm_num)
  simp only [Bus.readRegister, List.range_succ, List.range_zero, List.nil_append,
    List.cons_append, List.foldl_cons, List.foldl_nil, Nat.zero_shiftLeft, Nat.zero_or,
    Nat.add_zero]
  rw [or_eq_add _ _ 8 (by rw [Nat.shiftLeft_eq]; omega) h1, Nat.shiftLeft_eq,
    or_eq_add _ _ 8 (by rw [Nat.shiftLeft_eq]; omega) h2, Nat.shiftLeft_eq]
  omega

theorem readRegister_three_lt (b : Bus) (a : Nat) : b.readRegister a 3 < 2 ^ 24 := by
  rw [readRegister_three]
  omega

theorem read_raw_temperature (s : Adafruit_DPS310) :
    (_read s).raw_temperature.val = sext 24 (s.bus.readRegister DPS310_TMPB2 3) :=
  twosComplement_sext 24 _ (by norm_num) (by norm_num) (readRegister_three_lt _ _)

theorem read_raw_pressure (s : Adafruit_DPS310) :
    (_read s).raw_pressure.val = sext 24 (s.bus.readRegister DPS310_PRSB2 3) :=
  twosComplement_sext 24 _ (by norm_num) (by norm_num) (readRegister_three_lt _ _)

/-- A raw sample is a signed 24-bit value. -/
theorem read_raw_natAbs (s : Adafruit_DPS310) :
    (_read s).raw_temperature.val.natAbs ≤ 2 ^ 23 ∧ (_read s).raw_pressure.val.natAbs ≤ 2 ^ 23 := by
  have ht := sext_range 24 _ (by norm_num) (readRegister_three_lt s.bus DPS310_TMPB2)
  have hp := sext_range 24 _ (by norm_num) (readRegister_three_lt s.bus DPS310_PRSB2)
  rw [← read_raw_temperature] at ht
  rw [← read_raw_pressure] at hp
  norm_num at ht hp
  constructor <;> omega

theorem read_scaled_rawtemp_eq (s : Adafruit_DPS310) :
    (_read s)._scaled_rawtemp
      = Flt.div binary32 (Flt.ofInt binary32 (_read s).raw_temperature.val)
          (Flt.ofInt binary32 s.temp_scale.val) := rfl

theorem read_temperature_eq (s : Adafruit_DPS310) :
    (_read s)._temperature
      = Flt.convert binary32
          (Flt.add binary64
            (Flt.mul binary32 (_read s)._scaled_rawtemp (Flt.ofInt binary32 s._c1.val))
            (Flt.div binary64 (Flt.ofInt binary64 s._c0.val) (Flt.fin false 1 1))) := rfl

theorem read_pressure_eq (s : Adafruit_DPS310) :
    (_read s)._pressure
      = compensatedPressure s._c00.val s._c10.val s._c01.val s._c11.val s._c20.val s._c21.val
          s._c30.val
          (Flt.div binary32 (Flt.ofInt binary32 (_read s).raw_pressure.val)
            (Flt.ofInt binary32 s.pressure_scale.val))
          (_read s)._scaled_rawtemp := rfl

/-- A quotient by a zero scale factor is an infinity or NaN. -/
theorem div_zero_scale (t : Int) :
    Flt.div binary32 (Flt.ofInt binary32 t) (Flt.ofInt binary32 0) = Flt.nan ∨
    ∃ b, Flt.div binary32 (Flt.ofInt binary32 t) (Flt.ofInt binary32 0) = Flt.inf b := by
  rw [ofInt_zero]
  cases h : Flt.ofInt binary32 t with
  | nan => left; rfl
  | inf b => right; exact ⟨xor b false, rfl⟩
  | fin b m e =>
    by_cases hm : m = 0
    · left; simp [Flt.div, hm]
    · right; exact ⟨xor b false, by simp [Flt.div, hm]⟩

/-- Claim C2 (amended): for every sensor state and every driver object, `_read`
sets the raw temperature to the sign-extended 24-bit sample `t`, the scaled raw
temperature to the `float` quotient of `t` and the scale factor `s`, and the
temperature to the `float` nearest to the `double` sum of the `float` product
`scaled * c1` and `c0 / 2.0`, where `c0 / 2.0` is the exact half of `c0`.  For
a nonzero scale factor of fewer than 25 bits (every entry of the oversample
table) the quotient is finite and within a relative error of `2 ^ (-24)` of
`t / s`; for a zero scale factor it is an infinity or NaN.  With `c0 = 0`,
`t = 1040384` and `s = 1040384` the scaled raw temperature is `1` and the
temperature equals `c1` exactly, which an `int16_t` member bounds by `32767`. -/
theorem read_temperature (s : Adafruit_DPS310) :
    (_read s).raw_temperature.val = sext 24 (s.bus.readRegister DPS310_TMPB2 3) ∧
    (_read s)._scaled_rawtemp
      = Flt.div binary32 (Flt.ofInt binary32 (_read s).raw_temperature.val)
          (Flt.ofInt binary32 s.temp_scale.val) ∧
    (_read s)._temperature
      = Flt.convert binary32
          (Flt.add binary64
            (Flt.mul binary32 (_read s)._scaled_rawtemp (Flt.ofInt binary32 s._c1.val))
            (Flt.div binary64 (Flt.ofInt binary64 s._c0.val) (Flt.fin false 1 1))) ∧
    Flt.toRat (Flt.div binary64 (Flt.ofInt binary64 s._c0.val) (Flt.fin false 1 1))
      = some ((s._c0.val : ℚ) / 2) ∧
    (s.temp_scale.val ≠ 0 → s.temp_scale.val.natAbs < 2 ^ 24 →
      ∃ q : ℚ, Flt.toRat (_read s)._scaled_rawtemp = some q ∧
        |q - ((_read s).raw_temperature.val : ℚ) / (s.temp_scale.val : ℚ)|
          ≤ |((_read s).raw_temperature.val : ℚ) / (s.temp_scale.val : ℚ)|
            * (2 : ℚ) ^ (-24 : ℤ)) ∧
    (∀ x ∈ oversample_scalefactor, x.val ≠ 0 ∧ x.val.natAbs < 2 ^ 24) ∧
    (s.temp_scale.val = 0 →
      (_read s)._scaled_rawtemp = Flt.nan ∨ ∃ b, (_read s)._scaled_rawtemp = Flt.inf b) ∧
    (s._c0.val = 0 → (_read s).raw_temperature.val = 1040384 → s.temp_scale.val = 1040384 →
      Flt.toRat (_read s)._scaled_rawtemp = some 1 ∧
      Flt.toRat (_read s)._temperature = some (s._c1.val : ℚ) ∧
      (s._c1.val : ℚ) ≤ 32767) := by
  have hc0 : s._c0.val.natAbs < 2 ^ 16 := by
    have := s._c0.property
    omega
  have hc1 : s._c1.val.natAbs < 2 ^ 16 := by
    have := s._c1.property
    omega
  refine ⟨read_raw_temperature s, rfl, rfl, half_exact _ hc0, ?_, by decide, ?_, ?_⟩
  · intro hs hs2
    rw [read_scaled_rawtemp_eq]
    exact scaled_near _ _ (read_raw_natAbs s).1 hs hs2
  · intro hs
    rw [read_scaled_rawtemp_eq, hs]
    exact div_zero_scale _
  · intro h0 ht hs
    have hunit : Flt.div binary32 (Flt.ofInt binary32 1040384) (Flt.ofInt binary32 1040384)
        = Flt.fin false 8388608 (-23) := by decide
    have hst : (_read s)._scaled_rawtemp = Flt.fin false 8388608 (-23) := by
      rw [read_scaled_rawtemp_eq, ht, hs, hunit]
    refine ⟨?_, ?_, by exact_mod_cast s._c1.property.2⟩
    · rw [hst]
      simp only [Flt.toRat]
      norm_num
    · rw [read_temperature_eq, hst, h0]
      exact temperature_unit_scale _ hc1

/-- Witness for C2: after `_init` on the example sensor (`c0 = 0`, `c1 = 1000`,
raw temperature `1040384`, scale factor `1040384`) `_read` computes the
temperature `1000`. -/
theorem read_temperature_witness :
    ∃ s1, _init sampleHw 5 (freshDriver exampleRegs) = some (true, s1) ∧
      s1._c0.val = 0 ∧ s1._c1.val = 1000 ∧ (_read s1).raw_temperature.val = 1040384 ∧
      s1.temp_scale.val = 1040384 ∧
      Flt.toRat (_read s1)._temperature = some 1000 := by
  have h1 : (_init sampleHw 5 (freshDriver exampleRegs)).map
      (fun r => (r.1, r.2._c0.val, r.2._c1.val, (_read r.2).raw_temperature.val,
        r.2.temp_scale.val)) = some (true, 0, 1000, 1040384, 1040384) := by decide
  obtain ⟨⟨b, s1⟩, hs, hb⟩ := Option.map_eq_some'.mp h1
  simp only [Prod.mk.injEq] at hb
  obtain ⟨rfl, h0, hc1, ht, hts⟩ := hb
  refine ⟨s1, hs, h0, hc1, ht, hts, ?_⟩
  have h := ((read_temperature s1).2.2.2.2.2.2.2 h0 ht hts).2.1
  rw [h, hc1]
  norm_num

set_option exponentiation.threshold 2000 in
/-- Counterexample for C2: after `_init` on the sample sensor with raw
temperature `1` the scale factor is `1040384`, `c0 = 201` and `c1 = -258`;
`_read` sets the scaled raw temperature to `2113665 / 2 ^ 41`, not to
`1 / 1040384`, and the temperature to `13172703 / 2 ^ 17`, not to
`(1 / 1040384) * (-258) + 201 / 2`.  No driver object holds `c1 = 1000000`:
the member is an `int16_t`, and `_readCalibration` stores a 12-bit value. -/
theorem read_temperature_counterexample :
    ∃ s1, _init sampleHw 5 (freshDriver (sampleRegsWith 0 0 0 0 0 1)) = some (true, s1) ∧
      (_read s1).raw_temperature.val = 1 ∧ s1.temp_scale.val = 1040384 ∧
      s1._c0.val = 201 ∧ s1._c1.val = -258 ∧
      (_read s1)._scaled_rawtemp = Flt.fin false 8454660 (-43) ∧
      Flt.toRat (_read s1)._scaled_rawtemp = some (2113665 / 2 ^ 41) ∧
      Flt.toRat (_read s1)._scaled_rawtemp
        ≠ some (((_read s1).raw_temperature.val : ℚ) / (s1.temp_scale.val : ℚ)) ∧
      (_read s1)._temperature = Flt.fin false 13172703 (-17) ∧
      Flt.toRat (_read s1)._temperature = some (13172703 / 2 ^ 17) ∧
      Flt.toRat (_read s1)._temperature
        ≠ some (((_read s1).raw_temperature.val : ℚ) / (s1.temp_scale.val : ℚ)
                  * (s1._c1.val : ℚ) + (s1._c0.val : ℚ) / 2) ∧
      (∀ s : Adafruit_DPS310, s._c1.val ≠ 1000000) ∧
      (∀ s : Adafruit_DPS310, (loadCalibration s)._c1.val ≤ 2047) := by
  have h1 : (_init sampleHw 5 (freshDriver (sampleRegsWith 0 0 0 0 0 1))).map
      (fun r => (r.1, (_read r.2).raw_temperature.val, r.2.temp_scale.val, r.2._c0.val))
      = some (true, 1, 1040384, 201) := by decide
  have h2 : (_init sampleHw 5 (freshDriver (sampleRegsWith 0 0 0 0 0 1))).map
      (fun r => (r.2._c1.val, (_read r.2)._scaled_rawtemp, (_read r.2)._temperature))
      = some (-258, Flt.fin false 8454660 (-43), Flt.fin false 13172703 (-17)) := by decide
  obtain ⟨⟨b, s1⟩, hs, hb⟩ := Option.map_eq_some'.mp h1
  rw [hs] at h2
  simp only [Prod.mk.injEq, Option.map_some', Option.some.injEq] at hb h2
  obtain ⟨rfl, ht, hts, h0⟩ := hb
  obtain ⟨hc1, hst, hT⟩ := h2
  refine ⟨s1, hs, ht, hts, h0, hc1, hst, ?_, ?_, hT, ?_, ?_, ?_, ?_⟩
  · rw [hst]
    simp only [Flt.toRat]
    norm_num
  · rw [hst, ht, hts]
    simp only [Flt.toRat]
    norm_num
  · rw [hT]
    simp only [Flt.toRat]
    norm_num
  · rw [hT, ht, hts, hc1, h0]
    simp only [Flt.toRat]
    norm_num
  · intro s h
    have := s._c1.property.2
    omega
  · intro s
    exact (loadCalibration_range s).2.1.2

/-- Claim C3 (amended): for all raw samples, scale factors and coefficients,
`_read` sets the pressure to
`c00 + sp*(c10 + sp*(c20 + sp*c30)) + st*(c01 + sp*(c11 + sp*c21))` evaluated
in `float` arithmetic in this order, where every `sp` is the `float` quotient
of the raw pressure and the pressure scale factor that the first assignment to
the pressure member stored, and `st` is the scaled raw temperature.  For a
nonzero pressure scale factor of fewer than 25 bits `sp` is finite and within a
relative error of `2 ^ (-24)` of the exact quotient.  With nonzero scale
factors, raw pressure `0`, `c00 = 100000` and the other six pressure
coefficients `0` the pressure is `100000` for every raw temperature. -/
theorem read_pressure (s : Adafruit_DPS310) :
    (_read s).raw_pressure.val = sext 24 (s.bus.readRegister DPS310_PRSB2 3) ∧
    (_read s).raw_temperature.val = sext 24 (s.bus.readRegister DPS310_TMPB2 3) ∧
    (_read s)._scaled_rawtemp
      = Flt.div binary32 (Flt.ofInt binary32 (_read s).raw_temperature.val)
          (Flt.ofInt binary32 s.temp_scale.val) ∧
    (_read s)._pressure
      = compensatedPressure s._c00.val s._c10.val s._c01.val s._c11.val s._c20.val s._c21.val
          s._c30.val
          (Flt.div binary32 (Flt.ofInt binary32 (_read s).raw_pressure.val)
            (Flt.ofInt binary32 s.pressure_scale.val))
          (_read s)._scaled_rawtemp ∧
    (s.pressure_scale.val ≠ 0 → s.pressure_scale.val.natAbs < 2 ^ 24 →
      ∃ q : ℚ, Flt.toRat (Flt.div binary32 (Flt.ofInt binary32 (_read s).raw_pressure.val)
            (Flt.ofInt binary32 s.pressure_scale.val)) = some q ∧
        |q - ((_read s).raw_pressure.val : ℚ) / (s.pressure_scale.val : ℚ)|
          ≤ |((_read s).raw_pressure.val : ℚ) / (s.pressure_scale.val : ℚ)|
            * (2 : ℚ) ^ (-24 : ℤ)) ∧
    (s.pressure_scale.val ≠ 0 → s.temp_scale.val ≠ 0 →
      (_read s).raw_pressure.val = 0 → s._c00.val = 100000 → s._c10.val = 0 →
      s._c20.val = 0 → s._c30.val = 0 → s._c01.val = 0 → s._c11.val = 0 → s._c21.val = 0 →
      (_read s)._pressure = Flt.ofInt binary32 100000 ∧
      Flt.toRat (_read s)._pressure = some 100000) := by
  refine ⟨read_raw_pressure s, read_raw_temperature s, rfl, rfl, ?_, ?_⟩
  · intro hs hs2
    exact scaled_near _ _ (read_raw_natAbs s).2 hs hs2
  · intro hps hts h0 h00 h10 h20 h30 h01 h11 h21
    have hpsb : s.pressure_scale.val.natAbs ≤ 2 ^ 31 := by
      have := s.pressure_scale.property
      omega
    have htsb : s.temp_scale.val.natAbs ≤ 2 ^ 31 := by
      have := s.temp_scale.property
      omega
    obtain ⟨b, n, f, hpn, hn, _⟩ := ofInt32_normal _ hps hpsb
    obtain ⟨b2, n2, f2, htn, hn2, hf2⟩ := ofInt32_normal _ hts htsb
    obtain ⟨bt, mt, et, htm, hmt⟩ := ofInt32_raw _ (read_raw_natAbs s).1
    obtain ⟨u, k, g, hst⟩ := div32_fin bt b2 mt n2 et f2 hmt hn2 hf2
    have hn0 : n ≠ 0 := by
      have : 0 < 2 ^ 23 := by norm_num
      omega
    have hsp : Flt.div binary32 (Flt.ofInt binary32 (_read s).raw_pressure.val)
        (Flt.ofInt binary32 s.pressure_scale.val) = Flt.fin b 0 0 := by
      rw [h0, ofInt_zero, hpn, div_zero_left _ _ _ _ _ hn0, Bool.false_xor]
    have hoff : Flt.ofInt binary32 100000 = Flt.fin false 12800000 (-7) := by decide
    have hP : (_read s)._pressure = Flt.fin false 12800000 (-7) := by
      rw [read_pressure_eq, read_scaled_rawtemp_eq, hsp, htm, htn, hst, h00, h10, h20, h30, h01,
        h11, h21]
      exact pressure_offset_only b u k g
    refine ⟨by rw [hP, hoff], ?_⟩
    rw [hP]
    simp only [Flt.toRat]
    norm_num

/-- Witness for C3: after `_init` on the example sensor (`c00 = 100000`, the
other pressure coefficients `0`, raw pressure `0`, raw temperature `1040384`,
both scale factors `1040384`) `_read` computes the pressure `100000`. -/
theorem read_pressure_witness :
    ∃ s1, _init sampleHw 5 (freshDriver exampleRegs) = some (true, s1) ∧
      s1.pressure_scale.val = 1040384 ∧ s1.temp_scale.val = 1040384 ∧
      (_read s1).raw_pressure.val = 0 ∧
      storedCoefficients s1 = [0, 1000, 100000, 0, 0, 0, 0, 0, 0] ∧
      Flt.toRat (_read s1)._pressure = some 100000 := by
  have h1 : (_init sampleHw 5 (freshDriver exampleRegs)).map
      (fun r => (r.1, r.2.pressure_scale.val, r.2.temp_scale.val, (_read r.2).raw_pressure.val,
        storedCoefficients r.2))
      = some (true, 1040384, 1040384, 0, [0, 1000, 100000, 0, 0, 0, 0, 0, 0]) := by decide
  obtain ⟨⟨b, s1⟩, hs, hb⟩ := Option.map_eq_some'.mp h1
  simp only [Prod.mk.injEq] at hb
  obtain ⟨rfl, hps, hts, hp, hc⟩ := hb
  refine ⟨s1, hs, hps, hts, hp, hc, ?_⟩
  simp only [storedCoefficients, List.cons.injEq, and_true] at hc
  obtain ⟨_, _, h00, h10, h01, h11, h20, h21, h30⟩ := hc
  exact ((read_pressure s1).2.2.2.2.2 (by rw [hps]; norm_num) (by rw [hts]; norm_num) hp h00 h10
    h20 h30 h01 h11 h21).2

/-- Counterexample for C3.  With a zero scale factor the example fails: on a
driver object with `c00 = 100000`, every other coefficient `0`, raw pressure
`0` and scale factors `0` the pressure is NaN, not `100000`, and it stays NaN
when only one of the two scale factors is zero; likewise a zero-initialised
driver object (`c00 = 0`, scale factors `0`) on a sensor with raw pressure `0`
gets the pressure NaN, not `c00`.  And the polynomial is not evaluated
exactly: after `_init` on the sample sensor with raw pressure `4834675` and raw
temperature `-1865715`, `_read` sets the pressure to `308810.25`, which is not
the value of the polynomial at `sp = p / 1040384`, `st = t / 1040384`. -/
theorem read_pressure_counterexample :
    (_read zeroScaleExample).raw_pressure.val = 0 ∧
    storedCoefficients zeroScaleExample = [0, 0, 100000, 0, 0, 0, 0, 0, 0] ∧
    zeroScaleExample.pressure_scale.val = 0 ∧ zeroScaleExample.temp_scale.val = 0 ∧
    (_read zeroScaleExample)._pressure = Flt.nan ∧
    (_read { zeroScaleExample with temp_scale := ⟨1040384, by omega⟩ })._pressure = Flt.nan ∧
    (_read { zeroScaleExample with pressure_scale := ⟨1040384, by omega⟩ })._pressure = Flt.nan ∧
    storedCoefficients uninitialisedExample = [0, 0, 0, 0, 0, 0, 0, 0, 0] ∧
    uninitialisedExample.pressure_scale.val = 0 ∧
    (_read uninitialisedExample).raw_pressure.val = 0 ∧
    (_read uninitialisedExample)._pressure = Flt.nan ∧
    ∃ s1, _init sampleHw 5 (freshDriver (sampleRegsWith 0x49 0xC5 0x73 0xE3 0x88 0x0D))
        = some (true, s1) ∧
      (_read s1).raw_pressure.val = 4834675 ∧ (_read s1).raw_temperature.val = -1865715 ∧
      s1.pressure_scale.val = 1040384 ∧ s1.temp_scale.val = 1040384 ∧
      storedCoefficients s1 = [201, -258, 74565, -4095, -32768, 32767, -1, 1, 4660] ∧
      (_read s1)._pressure = Flt.fin false 9881928 (-5) ∧
      Flt.toRat (_read s1)._pressure = some (1235241 / 4) ∧
      exactPressure s1._c00.val s1._c10.val s1._c01.val s1._c11.val s1._c20.val s1._c21.val
          s1._c30.val
          (((_read s1).raw_pressure.val : ℚ) / (s1.pressure_scale.val : ℚ))
          (((_read s1).raw_temperature.val : ℚ) / (s1.temp_scale.val : ℚ))
        = 347754373360016149217105 / 1126110463319343104 ∧
      (347754373360016149217105 / 1126110463319343104 : ℚ) ≠ 1235241 / 4 := by
  refine ⟨by decide, by decide, by decide, by decide, by decide, by decide, by decide, by decide,
    by decide, by decide, by decide, ?_⟩
  have h1 : (_init sampleHw 5 (freshDriver (sampleRegsWith 0x49 0xC5 0x73 0xE3 0x88 0x0D))).map
      (fun r => (r.1, (_read r.2).raw_pressure.val, (_read r.2).raw_temperature.val,
        r.2.pressure_scale.val)) = some (true, 4834675, -1865715, 1040384) := by decide
  have h2 : (_init sampleHw 5 (freshDriver (sampleRegsWith 0x49 0xC5 0x73 0xE3 0x88 0x0D))).map
      (fun r => (r.2.temp_scale.val, storedCoefficients r.2, (_read r.2)._pressure))
      = some (1040384, [201, -258, 74565, -4095, -32768, 32767, -1, 1, 4660],
          Flt.fin false 9881928 (-5)) := by decide
  obtain ⟨⟨b, s1⟩, hs, hb⟩ := Option.map_eq_some'.mp h1
  rw [hs] at h2
  simp only [Prod.mk.injEq, Option.map_some', Option.some.injEq] at hb h2
  obtain ⟨rfl, hp, ht, hps⟩ := hb
  obtain ⟨hts, hc, hP⟩ := h2
  refine ⟨s1, hs, hp, ht, hps, hts, hc, hP, ?_, ?_, by norm_num⟩
  · rw [hP]
    simp only [Flt.toRat]
    norm_num
  · simp only [storedCoefficients, List.cons.injEq, and_true] at hc
    obtain ⟨_, _, h00, h10, h01, h11, h20, h21, h30⟩ := hc
    rw [h00, h10, h01, h11, h20, h21, h30, hp, ht, hps, hts]
    simp only [exactPressure]
    norm_num

/-- Claim C4: for every width `1 ≤ N ≤ 31` (the driver uses 12, 16, 20 and 24)
and every `v < 2 ^ N`, `twosComplement v N` lies in
`[-(2 ^ (N - 1)), 2 ^ (N - 1) - 1]`; hence after loading the calibration
`c0`, `c1` are 12-bit, `c00`, `c10` 20-bit and the other five 16-bit signed
values, and after `_read` both raw samples are 24-bit signed values. -/
theorem twosComplement_range (N v : Nat) (h1 : 1 ≤ N) (h31 : N ≤ 31) (hv : v < 2 ^ N)
    (s : Adafruit_DPS310) :
    (-((2 : Int) ^ (N - 1)) ≤ (twosComplement (wrapI32 (v : Int)) N).val ∧
      (twosComplement (wrapI32 (v : Int)) N).val ≤ (2 : Int) ^ (N - 1) - 1) ∧
    (-2048 ≤ (loadCalibration s)._c0.val ∧ (loadCalibration s)._c0.val ≤ 2047) ∧
    (-2048 ≤ (loadCalibration s)._c1.val ∧ (loadCalibration s)._c1.val ≤ 2047) ∧
    (-524288 ≤ (loadCalibration s)._c00.val ∧ (loadCalibration s)._c00.val ≤ 524287) ∧
    (-524288 ≤ (loadCalibration s)._c10.val ∧ (loadCalibration s)._c10.val ≤ 524287) ∧
    (∀ c ∈ [(loadCalibration s)._c01, (loadCalibration s)._c11, (loadCalibration s)._c20,
        (loadCalibration s)._c21, (loadCalibration s)._c30], -32768 ≤ c.val ∧ c.val ≤ 32767) ∧
    (-8388608 ≤ (_read s).raw_pressure.val ∧ (_read s).raw_pressure.val ≤ 8388607) ∧
    (-8388608 ≤ (_read s).raw_temperature.val ∧ (_read s).raw_temperature.val ≤ 8388607) := by
  obtain ⟨r0, r1, r00, r10⟩ := loadCalibration_range s
  refine ⟨?_, r0, r1, r00, r10, fun c _ => c.property, ?_, ?_⟩
  · rw [twosComplement_sext N v h1 h31 hv]
    have h := sext_range N v h1 hv
    push_cast at h
    exact h
  · rw [read_raw_pressure]
    have h := sext_range 24 _ (by norm_num) (readRegister_three_lt s.bus DPS310_PRSB2)
    norm_num at h
    exact h
  · rw [read_raw_temperature]
    have h := sext_range 24 _ (by norm_num) (readRegister_three_lt s.bus DPS310_TMPB2)
    norm_num at h
    exact h

/-- Witness for C4 at the most negative 24-bit sample `0x800000`. -/
theorem twosComplement_range_witness :
    -((2 : Int) ^ (24 - 1)) ≤ (twosComplement (wrapI32 ((0x800000 : Nat) : Int)) 24).val ∧
      (twosComplement (wrapI32 ((0x800000 : Nat) : Int)) 24).val ≤ (2 : Int) ^ (24 - 1) - 1 :=
  (twosComplement_range 24 0x800000 (by decide) (by decide) (by decide)
    (freshDriver sampleRegs)).1

/-! ## Register fields and configuration -/

/-- The byte a field write sends to the register. -/
theorem writeBit_eq (b : Bus) (addr bits shift data : Nat) :
    b.writeBit addr bits shift data
      = b.writeRegister addr
          (((b.regs addr % 256) &&& (0xFFFFFFFF ^^^ (((1 <<< bits) - 1) <<< shift)))
            ||| ((data &&& ((1 <<< bits) - 1)) <<< shift)) := by
  simp only [Bus.writeBit, readRegister_one]

theorem readBit_eq (b : Bus) (addr bits shift : Nat) :
    b.readBit addr bits shift = ((b.regs addr % 256) >>> shift) &&& ((1 <<< bits) - 1) := by
  simp only [Bus.readBit, readRegister_one]

theorem writeRegister_regs (b : Bus) (addr value a : Nat) :
    (b.writeRegister addr value).regs a = if a = addr then value % 256 else b.regs a := rfl

theorem writeRegister_log (b : Bus) (addr value : Nat) :
    (b.writeRegister addr value).log = (addr, value % 256) :: b.log := rfl

set_option maxRecDepth 100000 in
theorem field_1_2 : ∀ v, v < 256 → ∀ d, d < 2 →
    (((((v &&& (0xFFFFFFFF ^^^ (((1 <<< 1) - 1) <<< 2))) ||| ((d &&& ((1 <<< 1) - 1)) <<< 2))
      % 256) % 256) >>> 2) &&& ((1 <<< 1) - 1) = d := by
  decide

set_option maxRecDepth 100000 in
theorem field_1_3 : ∀ v, v < 256 → ∀ d, d < 2 →
    (((((v &&& (0xFFFFFFFF ^^^ (((1 <<< 1) - 1) <<< 3))) ||| ((d &&& ((1 <<< 1) - 1)) <<< 3))
      % 256) % 256) >>> 3) &&& ((1 <<< 1) - 1) = d := by
  decide

theorem configurePressure_shift (s : Adafruit_DPS310) (rate : dps310_rate_t)
    (os : dps310_oversample_t) :
    (configurePressure s rate os).bus.readBit DPS310_CFGREG 1 2
      = if os.toNat > dps310_oversample_t.DPS310_8SAMPLES.toNat then 1 else 0 := by
  have hv : s.bus.regs 9 % 256 < 256 := Nat.mod_lt _ (by norm_num)
  have h1 := field_1_2 _ hv 1 (by norm_num)
  have h0 := field_1_2 _ hv 0 (by norm_num)
  cases os <;>
    simp only [configurePressure, dps310_oversample_t.toNat, writeBit_eq, readBit_eq,
      writeRegister_regs, DPS310_CFGREG, DPS310_PRSCFG, gt_iff_lt, Nat.lt_irrefl,
      if_true, if_false, reduceIte, Nat.reduceLT, Nat.reduceEqDiff] <;>
    first | exact h1 | exact h0

theorem configureTemperature_shift (s : Adafruit_DPS310) (rate : dps310_rate_t)
    (os : dps310_oversample_t) :
    (configureTemperature s rate os).bus.readBit DPS310_CFGREG 1 3
      = if os.toNat > dps310_oversample_t.DPS310_8SAMPLES.toNat then 1 else 0 := by
  have hv : s.bus.regs 9 % 256 < 256 := Nat.mod_lt _ (by norm_num)
  have h1 := field_1_3 _ hv 1 (by norm_num)
  have h0 := field_1_3 _ hv 0 (by norm_num)
  cases os <;>
    simp only [configureTemperature, dps310_oversample_t.toNat, writeBit_eq, readBit_eq,
      writeRegister_regs, DPS310_CFGREG, DPS310_TMPCFG, DPS310_TMPCOEFSRCE, gt_iff_lt,
      Nat.lt_irrefl, if_true, if_false, reduceIte, Nat.reduceLT, Nat.reduceEqDiff] <;>
    first | exact h1 | exact h0

set_option maxRecDepth 1000000 in
/-- The bytes last written by the default configuration and mode selection, for
every prior register content. -/
theorem configured_log (s : Adafruit_DPS310) :
    ∃ p t c m : Nat,
      lastWrite (setMode (configureTemperature (configurePressure s
        dps310_rate_t.DPS310_64HZ dps310_oversample_t.DPS310_64SAMPLES)
        dps310_rate_t.DPS310_64HZ dps310_oversample_t.DPS310_64SAMPLES)
        dps310_mode_t.DPS310_CONT_PRESTEMP).bus.log DPS310_PRSCFG = some p ∧
      lastWrite (setMode (configureTemperature (configurePressure s
        dps310_rate_t.DPS310_64HZ dps310_oversample_t.DPS310_64SAMPLES)
        dps310_rate_t.DPS310_64HZ dps310_oversample_t.DPS310_64SAMPLES)
        dps310_mode_t.DPS310_CONT_PRESTEMP).bus.log DPS310_TMPCFG = some t ∧
      lastWrite (setMode (configureTemperature (configurePressure s
        dps310_rate_t.DPS310_64HZ dps310_oversample_t.DPS310_64SAMPLES)
        dps310_rate_t.DPS310_64HZ dps310_oversample_t.DPS310_64SAMPLES)
        dps310_mode_t.DPS310_CONT_PRESTEMP).bus.log DPS310_CFGREG = some c ∧
      lastWrite (setMode (configureTemperature (configurePressure s
        dps310_rate_t.DPS310_64HZ dps310_oversample_t.DPS310_64SAMPLES)
        dps310_rate_t.DPS310_64HZ dps310_oversample_t.DPS310_64SAMPLES)
        dps310_mode_t.DPS310_CONT_PRESTEMP).bus.log DPS310_MEASCFG = some m ∧
      (p >>> 4) &&& 7 = 6 ∧ p &&& 15 = 6 ∧ (t >>> 4) &&& 7 = 6 ∧ t &&& 15 = 6 ∧
      c.testBit 2 = true ∧ c.testBit 3 = true ∧ m &&& 7 = 7 := by
  have h6 : s.bus.regs 6 % 256 < 256 := Nat.mod_lt _ (by norm_num)
  have h7 : s.bus.regs 7 % 256 < 256 := Nat.mod_lt _ (by norm_num)
  have h8 : s.bus.regs 8 % 256 < 256 := Nat.mod_lt _ (by norm_num)
  have h9 : s.bus.regs 9 % 256 < 256 := Nat.mod_lt _ (by norm_num)
  simp only [setMode, configureTemperature, configurePressure, dps310_oversample_t.toNat,
    dps310_rate_t.toNat, dps310_mode_t.toNat, writeBit_eq, readBit_eq, readRegister_one,
    writeRegister_regs, writeRegister_log, DPS310_CFGREG, DPS310_TMPCFG, DPS310_PRSCFG,
    DPS310_MEASCFG, DPS310_TMPCOEFSRCE, gt_iff_lt, Nat.lt_irrefl, if_true, if_false, reduceIte,
    Nat.reduceLT, Nat.reduceEqDiff, lastWrite, List.find?, Nat.reduceBEq, Option.map]
  refine ⟨_, _, _, _, rfl, rfl, rfl, rfl, ?_, ?_, ?_, ?_, ?_, ?_, ?_⟩
  · generalize s.bus.regs 6 % 256 = v at h6
    revert v
    decide
  · generalize s.bus.regs 6 % 256 = v at h6
    revert v
    decide
  · have hd : ((s.bus.regs 40 % 256) >>> 7) &&& ((1 <<< 1) - 1) < 2 :=
      lt_of_le_of_lt Nat.and_le_right (by decide)
    generalize ((s.bus.regs 40 % 256) >>> 7) &&& ((1 <<< 1) - 1) = d at hd
    generalize s.bus.regs 7 % 256 = v at h7
    revert d
    revert v
    decide
  · have hd : ((s.bus.regs 40 % 256) >>> 7) &&& ((1 <<< 1) - 1) < 2 :=
      lt_of_le_of_lt Nat.and_le_right (by decide)
    generalize ((s.bus.regs 40 % 256) >>> 7) &&& ((1 <<< 1) - 1) = d at hd
    generalize s.bus.regs 7 % 256 = v at h7
    revert d
    revert v
    decide
  · generalize s.bus.regs 9 % 256 = v at h9
    revert v
    decide
  · generalize s.bus.regs 9 % 256 = v at h9
    revert v
    decide
  · generalize s.bus.regs 8 % 256 = v at h8
    revert v
    decide

set_option maxRecDepth 1000000 in
theorem bit_of_byte : ∀ k, k < 8 → ∀ w, w < 256 →
    ((w >>> k) &&& ((1 <<< 1) - 1)) = (w.testBit k).toNat := by
  decide

theorem readBit_one (b : Bus) (addr k : Nat) (hk : k < 8) :
    b.readBit addr 1 k = ((b.regs addr).testBit k).toNat := by
  have h := bit_of_byte k hk (b.regs addr % 256) (Nat.mod_lt _ (by norm_num))
  have hm : (b.regs addr % 256).testBit k = (b.regs addr).testBit k := by
    have := Nat.testBit_mod_two_pow (b.regs addr) 8 k
    simpa [hk] using this
  rw [readBit_eq, h, hm]

theorem scalefactor_ne_zero : ∀ x ∈ oversample_scalefactor, x.val ≠ 0 := by
  decide

theorem configurePressure_scale (s : Adafruit_DPS310) (rate : dps310_rate_t)
    (os : dps310_oversample_t) :
    some (configurePressure s rate os).pressure_scale = oversample_scalefactor[os.toNat]? := by
  cases os <;> rfl

theorem configureTemperature_scale (s : Adafruit_DPS310) (rate : dps310_rate_t)
    (os : dps310_oversample_t) :
    some (configureTemperature s rate os).temp_scale = oversample_scalefactor[os.toNat]? := by
  cases os <;> rfl

/-- Claim C5: for each of the eight oversample values, `configurePressure` and
`configureTemperature` store the entry of the table
`{524288, 1572864, 3670016, 7864320, 253952, 516096, 1040384, 2088960}` at the
index of the oversample value, whatever the rate; the index is in bounds, the
stored factor is never zero, 64 samples give `1040384` and 1 sample `524288`. -/
theorem configure_scale_factor (s : Adafruit_DPS310) (rate rate' : dps310_rate_t)
    (os : dps310_oversample_t) :
    os.toNat < oversample_scalefactor.length ∧
    oversample_scalefactor.map (fun x => x.val)
      = [524288, 1572864, 3670016, 7864320, 253952, 516096, 1040384, 2088960] ∧
    oversample_scalefactor[os.toNat]? = some (configurePressure s rate os).pressure_scale ∧
    oversample_scalefactor[os.toNat]? = some (configureTemperature s rate os).temp_scale ∧
    (configurePressure s rate os).pressure_scale
      = (configurePressure s rate' os).pressure_scale ∧
    (configureTemperature s rate os).temp_scale
      = (configureTemperature s rate' os).temp_scale ∧
    (configurePressure s rate os).pressure_scale.val ≠ 0 ∧
    (configureTemperature s rate os).temp_scale.val ≠ 0 ∧
    (configurePressure s rate dps310_oversample_t.DPS310_64SAMPLES).pressure_scale.val
      = 1040384 ∧
    (configureTemperature s rate dps310_oversample_t.DPS310_64SAMPLES).temp_scale.val
      = 1040384 ∧
    (configurePressure s rate dps310_oversample_t.DPS310_1SAMPLE).pressure_scale.val
      = 524288 ∧
    (configureTemperature s rate dps310_oversample_t.DPS310_1SAMPLE).temp_scale.val
      = 524288 := by
  have hp := configurePressure_scale s rate os
  have hp' := configurePressure_scale s rate' os
  have ht := configureTemperature_scale s rate os
  have ht' := configureTemperature_scale s rate' os
  refine ⟨by cases os <;> decide, rfl, hp.symm, ht.symm, ?_, ?_, ?_, ?_, rfl, rfl, rfl, rfl⟩
  · exact Option.some.inj (hp.trans hp'.symm)
  · exact Option.some.inj (ht.trans ht'.symm)
  · exact scalefactor_ne_zero _ (List.getElem?_mem hp.symm)
  · exact scalefactor_ne_zero _ (List.getElem?_mem ht.symm)

/-- Claim C6: after `configurePressure` bit 2, and after
`configureTemperature` bit 3, of the shared configuration register `0x09` is
set if and only if the oversample value exceeds `DPS310_8SAMPLES`, that is for
16, 32, 64 and 128 samples and not for 1, 2, 4 and 8. -/
theorem configure_shift_bit (s : Adafruit_DPS310) (rate : dps310_rate_t)
    (os : dps310_oversample_t) :
    (((configurePressure s rate os).bus.regs DPS310_CFGREG).testBit 2 = true
      ↔ os.toNat > dps310_oversample_t.DPS310_8SAMPLES.toNat) ∧
    (((configureTemperature s rate os).bus.regs DPS310_CFGREG).testBit 3 = true
      ↔ os.toNat > dps310_oversample_t.DPS310_8SAMPLES.toNat) ∧
    (os.toNat > dps310_oversample_t.DPS310_8SAMPLES.toNat
      ↔ os ∈ [dps310_oversample_t.DPS310_16SAMPLES, dps310_oversample_t.DPS310_32SAMPLES,
          dps310_oversample_t.DPS310_64SAMPLES, dps310_oversample_t.DPS310_128SAMPLES]) ∧
    (¬ os.toNat > dps310_oversample_t.DPS310_8SAMPLES.toNat
      ↔ os ∈ [dps310_oversample_t.DPS310_1SAMPLE, dps310_oversample_t.DPS310_2SAMPLES,
          dps310_oversample_t.DPS310_4SAMPLES, dps310_oversample_t.DPS310_8SAMPLES]) := by
  have hp := configurePressure_shift s rate os
  have ht := configureTemperature_shift s rate os
  rw [show DPS310_CFGREG = 9 from rfl] at hp ht ⊢
  rw [readBit_one _ _ 2 (by norm_num)] at hp
  rw [readBit_one _ _ 3 (by norm_num)] at ht
  refine ⟨?_, ?_, by cases os <;> decide, by cases os <;> decide⟩
  · by_cases h : os.toNat > dps310_oversample_t.DPS310_8SAMPLES.toNat
    · rw [if_pos h] at hp
      cases hb : ((configurePressure s rate os).bus.regs 9).testBit 2
      · rw [hb] at hp; simp at hp
      · simp [h]
    · rw [if_neg h] at hp
      cases hb : ((configurePressure s rate os).bus.regs 9).testBit 2
      · simp [h]
      · rw [hb] at hp; simp at hp
  · by_cases h : os.toNat > dps310_oversample_t.DPS310_8SAMPLES.toNat
    · rw [if_pos h] at ht
      cases hb : ((configureTemperature s rate os).bus.regs 9).testBit 3
      · rw [hb] at ht; simp at ht
      · simp [h]
    · rw [if_neg h] at ht
      cases hb : ((configureTemperature s rate os).bus.regs 9).testBit 3
      · simp [h]
      · rw [hb] at ht; simp at ht

/-! ## Initialisation and events -/

/-- A polling loop that returns has only delayed. -/
theorem pollUntil_result (hw : (Nat → Nat) → (Nat → Nat)) (ms : Nat)
    (done : Adafruit_DPS310 → Bool) :
    ∀ (fuel : Nat) (s s' : Adafruit_DPS310), pollUntil hw ms done fuel s = some s' →
      ∃ k, s' = (delay hw ms)^[k] s ∧ done s' = true := by
  intro fuel
  induction fuel with
  | zero =>
    intro s s' h
    simp [pollUntil] at h
  | succ f ih =>
    intro s s' h
    by_cases h0 : done s = true
    · simp only [pollUntil, h0, if_true, Option.some.injEq] at h
      exact ⟨0, by simpa using h.symm, by rw [← h]; exact h0⟩
    · simp only [pollUntil, h0, Bool.false_eq_true, if_false] at h
      obtain ⟨k, hk, hd⟩ := ih (delay hw ms s) s' h
      exact ⟨k + 1, by rw [Function.iterate_succ_apply]; exact hk, hd⟩

theorem delay_iterate_frame (hw : (Nat → Nat) → (Nat → Nat)) (ms k : Nat)
    (s : Adafruit_DPS310) :
    ((delay hw ms)^[k] s).bus.log = s.bus.log ∧
    ((delay hw ms)^[k] s).temp_scale = s.temp_scale ∧
    ((delay hw ms)^[k] s).pressure_scale = s.pressure_scale ∧
    storedCoefficients ((delay hw ms)^[k] s) = storedCoefficients s := by
  induction k generalizing s with
  | zero => simp
  | succ k ih =>
    rw [Function.iterate_succ_apply]
    exact ih (delay hw ms s)

theorem init_wrong_id (hw : (Nat → Nat) → (Nat → Nat)) (fuel : Nat) (s : Adafruit_DPS310)
    (hid : s.bus.readRegister DPS310_PRODREVID 1 ≠ 0x10) :
    _init hw fuel s = some (false, s) := by
  simp [_init, hid]

theorem init_true_id (hw : (Nat → Nat) → (Nat → Nat)) (fuel : Nat) (s s' : Adafruit_DPS310)
    (h : _init hw fuel s = some (true, s')) :
    s.bus.readRegister DPS310_PRODREVID 1 = 0x10 := by
  by_contra hid
  rw [init_wrong_id hw fuel s hid] at h
  simp at h

theorem init_true_state (hw : (Nat → Nat) → (Nat → Nat)) (fuel : Nat) (s s' : Adafruit_DPS310)
    (h : _init hw fuel s = some (true, s')) :
    ∃ (s2 : Adafruit_DPS310) (k : Nat),
      s' = (delay hw 10)^[k] (setMode (configureTemperature (configurePressure s2
        dps310_rate_t.DPS310_64HZ dps310_oversample_t.DPS310_64SAMPLES)
        dps310_rate_t.DPS310_64HZ dps310_oversample_t.DPS310_64SAMPLES)
        dps310_mode_t.DPS310_CONT_PRESTEMP) := by
  have hid := init_true_id hw fuel s s' h
  simp only [_init, hid, ne_eq, not_true_eq_false, if_false, Option.bind_eq_some,
    Option.map_eq_some', Prod.mk.injEq, true_and] at h
  obtain ⟨s1, _, s2, _, s3, hp, rfl⟩ := h
  obtain ⟨k, hk, _⟩ := pollUntil_result hw 10 _ fuel _ _ hp
  exact ⟨s2, k, hk⟩

/-- Claim C9: whenever `_init` returns true, both stored scale factors are
`1040384`, the bytes last written to `0x06` and `0x07` carry the rate code of
64 Hz in bits 4..6 and the oversample code of 64 samples in bits 0..3, the byte
last written to `0x09` has both shift bits 2 and 3 set, and the byte last
written to `0x08` carries the mode code `0b111` in bits 0..2. -/
theorem init_default_preset (hw : (Nat → Nat) → (Nat → Nat)) (fuel : Nat)
    (s s' : Adafruit_DPS310) (h : _init hw fuel s = some (true, s')) :
    s'.pressure_scale.val = 1040384 ∧ s'.temp_scale.val = 1040384 ∧
    ∃ p t c m : Nat,
      lastWrite s'.bus.log DPS310_PRSCFG = some p ∧
      lastWrite s'.bus.log DPS310_TMPCFG = some t ∧
      lastWrite s'.bus.log DPS310_CFGREG = some c ∧
      lastWrite s'.bus.log DPS310_MEASCFG = some m ∧
      (p >>> 4) &&& 7 = dps310_rate_t.DPS310_64HZ.toNat ∧
      p &&& 15 = dps310_oversample_t.DPS310_64SAMPLES.toNat ∧
      (t >>> 4) &&& 7 = dps310_rate_t.DPS310_64HZ.toNat ∧
      t &&& 15 = dps310_oversample_t.DPS310_64SAMPLES.toNat ∧
      c.testBit 2 = true ∧ c.testBit 3 = true ∧
      m &&& 7 = 0b111 ∧ m &&& 7 = dps310_mode_t.DPS310_CONT_PRESTEMP.toNat := by
  obtain ⟨s2, k, rfl⟩ := init_true_state hw fuel s s' h
  obtain ⟨hlog, hts, hps, _⟩ := delay_iterate_frame hw 10 k
    (setMode (configureTemperature (configurePressure s2
        dps310_rate_t.DPS310_64HZ dps310_oversample_t.DPS310_64SAMPLES)
        dps310_rate_t.DPS310_64HZ dps310_oversample_t.DPS310_64SAMPLES)
        dps310_mode_t.DPS310_CONT_PRESTEMP)
  obtain ⟨p, t, c, m, h1, h2, h3, h4, h5, h6, h7, h8, h9, h10, h11⟩ := configured_log s2
  rw [hlog, hts, hps]
  exact ⟨rfl, rfl, p, t, c, m, h1, h2, h3, h4, h5, h6, h7, h8, h9, h10, h11, h11⟩

/-- Witness for C9: `_init` returns true on the sample sensor. -/
theorem init_default_preset_witness :
    ∃ s', _init sampleHw 5 (freshDriver sampleRegs) = some (true, s') ∧
      s'.pressure_scale.val = 1040384 ∧ s'.temp_scale.val = 1040384 ∧
      lastWrite s'.bus.log DPS310_MEASCFG = some 0xF7 := by
  have h1 : (_init sampleHw 5 (freshDriver sampleRegs)).map Prod.fst = some true := by decide
  obtain ⟨⟨b, s'⟩, hs, hb⟩ := Option.map_eq_some'.mp h1
  simp only at hb
  subst hb
  have h := init_default_preset sampleHw 5 (freshDriver sampleRegs) s' hs
  refine ⟨s', hs, h.1, h.2.1, ?_⟩
  have h2 : (_init sampleHw 5 (freshDriver sampleRegs)).map
      (fun r => lastWrite r.2.bus.log DPS310_MEASCFG) = some (some 0xF7) := by decide
  rw [hs] at h2
  simpa using h2

/-- Claim C7 (amended): no measurement path has an initialisation guard.  On
every driver object `getEvents` runs `_read`, returns true and fills each event
asked for from the `float` values `_read` just computed (the pressure divided
by `100` in `float`); the two sub-sensor `getEvent` functions return true
likewise; and `readAltitude` runs `_read` and returns
`44330 * (1.0 - pow((pressure / 100) / seaLevelhPa, 0.1903))` rounded to
`float`, for every power function `pow`, with no error result. -/
theorem getEvents_always_reads (s : Adafruit_DPS310) (temp_event pressure_event : Bool)
    (tT tP : Nat) :
    (getEvents s temp_event pressure_event tT tP).1 = true ∧
    (getEvents s temp_event pressure_event tT tP).2.2.2 = _read s ∧
    (getEvents s true pressure_event tT tP).2.1
      = some { version := 1, sensor_id := (_read s)._sensorID.val,
               type := sensor_type_t.SENSOR_TYPE_AMBIENT_TEMPERATURE, timestamp := tT,
               value := (_read s)._temperature } ∧
    (getEvents s temp_event true tT tP).2.2.1
      = some { version := 1, sensor_id := (_read s)._sensorID.val,
               type := sensor_type_t.SENSOR_TYPE_PRESSURE, timestamp := tP,
               value := Flt.div binary32 (_read s)._pressure (Flt.ofInt binary32 100) } ∧
    (Adafruit_DPS310_Temp.getEvent s tT).1 = true ∧
    (Adafruit_DPS310_Temp.getEvent s tT).2.1
      = some { version := 1, sensor_id := (_read s)._sensorID.val,
               type := sensor_type_t.SENSOR_TYPE_AMBIENT_TEMPERATURE, timestamp := tT,
               value := (_read s)._temperature } ∧
    (Adafruit_DPS310_Pressure.getEvent s tP).1 = true ∧
    (Adafruit_DPS310_Pressure.getEvent s tP).2.2.1
      = some { version := 1, sensor_id := (_read s)._sensorID.val,
               type := sensor_type_t.SENSOR_TYPE_PRESSURE, timestamp := tP,
               value := Flt.div binary32 (_read s)._pressure (Flt.ofInt binary32 100) } ∧
    (∀ (pow : Flt → Flt → Flt) (seaLevelhPa : Flt),
      (readAltitude pow s seaLevelhPa).2 = _read s ∧
      (readAltitude pow s seaLevelhPa).1
        = Flt.convert binary32
            (Flt.mul binary64 (Flt.ofInt binary64 44330)
              (Flt.sub binary64 (Flt.fin false 1 0)
                (pow (Flt.div binary32
                        (Flt.div binary32 (_read s)._pressure (Flt.ofInt binary32 100))
                        seaLevelhPa)
                     (Flt.round binary64 false 1903 10000))))) := by
  refine ⟨?_, ?_, ?_, ?_, ?_, ?_, ?_, ?_, ?_⟩
  · simp only [getEvents]
  · simp only [getEvents]
  · simp only [getEvents, if_true]
  · simp only [getEvents, if_true]
  · simp only [Adafruit_DPS310_Temp.getEvent, getEvents]
  · simp only [Adafruit_DPS310_Temp.getEvent, getEvents, if_true]
  · simp only [Adafruit_DPS310_Pressure.getEvent, getEvents]
  · simp only [Adafruit_DPS310_Pressure.getEvent, getEvents, if_true]
  · intro pow seaLevelhPa
    constructor <;> simp only [readAltitude]

/-- Counterexample for C7: on a zero-initialised driver object whose `_init`
and `begin_I2C` return false, `getEvents` and both sub-sensor `getEvent`
functions still return true and deliver a temperature and a pressure event,
both with the value NaN (zero divided by the zero scale factor), and
`readAltitude` returns the altitude formula applied to `pow(NaN, 0.1903)`. -/
theorem getEvents_unguarded_counterexample :
    _init sampleHw 5 uninitialisedExample = some (false, uninitialisedExample) ∧
    begin_I2C sampleHw 5 true uninitialisedExample = some (false, uninitialisedExample) ∧
    uninitialisedExample.temp_scale.val = 0 ∧ uninitialisedExample.pressure_scale.val = 0 ∧
    (getEvents uninitialisedExample true true 0 0).1 = true ∧
    ((getEvents uninitialisedExample true true 0 0).2.1.map fun e => e.value) = some Flt.nan ∧
    ((getEvents uninitialisedExample true true 0 0).2.2.1.map fun e => e.value)
      = some Flt.nan ∧
    (Adafruit_DPS310_Temp.getEvent uninitialisedExample 0).1 = true ∧
    ((Adafruit_DPS310_Temp.getEvent uninitialisedExample 0).2.1.map fun e => e.value)
      = some Flt.nan ∧
    (Adafruit_DPS310_Pressure.getEvent uninitialisedExample 0).1 = true ∧
    ((Adafruit_DPS310_Pressure.getEvent uninitialisedExample 0).2.2.1.map fun e => e.value)
      = some Flt.nan ∧
    (∀ (pow : Flt → Flt → Flt) (seaLevelhPa : Flt),
      (readAltitude pow uninitialisedExample seaLevelhPa).1
        = Flt.convert binary32
            (Flt.mul binary64 (Flt.ofInt binary64 44330)
              (Flt.sub binary64 (Flt.fin false 1 0)
                (pow Flt.nan (Flt.round binary64 false 1903 10000))))) := by
  have h := init_wrong_id sampleHw 5 uninitialisedExample (by decide)
  have hP : (_read uninitialisedExample)._pressure = Flt.nan := by decide
  refine ⟨h, ?_, by decide, by decide, rfl, by decide, by decide, rfl, by decide, rfl,
    by decide, ?_⟩
  · simp only [begin_I2C, Bool.not_true, Bool.false_eq_true, if_false]
    exact h
  · intro pow seaLevelhPa
    simp only [readAltitude, hP, div_nan_left]

/-- Claim C8: when the product ID register `0x0D` does not read `0x10`, `_init`
returns false with the driver object unchanged: no register write is issued and
the coefficients and scale factors stay as they were.  `_init` returns true, or
issues any write, only when the byte is `0x10`. -/
theorem init_id_check (hw : (Nat → Nat) → (Nat → Nat)) (fuel : Nat) (s : Adafruit_DPS310) :
    (s.bus.readRegister DPS310_PRODREVID 1 ≠ 0x10 →
      _init hw fuel s = some (false, s) ∧
      ∀ r s', _init hw fuel s = some (r, s') →
        r = false ∧ s'.bus.log = s.bus.log ∧ s'.bus.regs = s.bus.regs ∧
        storedCoefficients s' = storedCoefficients s ∧
        s'.temp_scale = s.temp_scale ∧ s'.pressure_scale = s.pressure_scale) ∧
    (∀ s', _init hw fuel s = some (true, s') → s.bus.regs DPS310_PRODREVID % 256 = 0x10) ∧
    (∀ r s', _init hw fuel s = some (r, s') → s'.bus.log ≠ s.bus.log →
      s.bus.regs DPS310_PRODREVID % 256 = 0x10) := by
  refine ⟨?_, ?_, ?_⟩
  · intro hid
    refine ⟨init_wrong_id hw fuel s hid, ?_⟩
    intro r s' h
    rw [init_wrong_id hw fuel s hid] at h
    simp only [Option.some.injEq, Prod.mk.injEq] at h
    obtain ⟨rfl, rfl⟩ := h
    exact ⟨rfl, rfl, rfl, rfl, rfl, rfl⟩
  · intro s' h
    rw [← readRegister_one]
    exact init_true_id hw fuel s s' h
  · intro r s' h hlog
    rw [← readRegister_one]
    by_contra hid
    rw [init_wrong_id hw fuel s hid] at h
    simp only [Option.some.injEq, Prod.mk.injEq] at h
    obtain ⟨_, rfl⟩ := h
    exact hlog rfl

/-- Witness for C8: the sample sensor with a wrong ID is rejected untouched, and
the sample sensor on which `_init` succeeds has ID `0x10`. -/
theorem init_id_check_witness :
    _init sampleHw 5 (freshDriver absentRegs) = some (false, freshDriver absentRegs) ∧
    (freshDriver sampleRegs).bus.regs DPS310_PRODREVID % 256 = 0x10 := by
  refine ⟨((init_id_check sampleHw 5 (freshDriver absentRegs)).1 (by decide)).1, ?_⟩
  have h1 : (_init sampleHw 5 (freshDriver sampleRegs)).map Prod.fst = some true := by decide
  obtain ⟨⟨b, s'⟩, hs, hb⟩ := Option.map_eq_some'.mp h1
  simp only at hb
  subst hb
  exact (init_id_check sampleHw 5 (freshDriver sampleRegs)).2.1 s' hs

/-- Claim C10: `temperatureAvailable` returns bit 5 and `pressureAvailable`
bit 4 of the measurement configuration register `0x08`; neither changes the
registers, the write log or any member of the driver object, and repeating
either call gives the same result. -/
theorem available_reads_status_bit (s : Adafruit_DPS310) :
    (temperatureAvailable s).1 = (s.bus.regs DPS310_MEASCFG).testBit 5 ∧
    (pressureAvailable s).1 = (s.bus.regs DPS310_MEASCFG).testBit 4 ∧
    (temperatureAvailable s).2 = s ∧
    (pressureAvailable s).2 = s ∧
    temperatureAvailable (temperatureAvailable s).2 = temperatureAvailable s ∧
    pressureAvailable (pressureAvailable s).2 = pressureAvailable s ∧
    (temperatureAvailable (pressureAvailable s).2).1 = (temperatureAvailable s).1 ∧
    (pressureAvailable (temperatureAvailable s).2).1 = (pressureAvailable s).1 := by
  refine ⟨?_, ?_, rfl, rfl, rfl, rfl, rfl, rfl⟩
  · simp only [temperatureAvailable, readBit_one _ _ 5 (by norm_num)]
    cases (s.bus.regs DPS310_MEASCFG).testBit 5 <;> rfl
  · simp only [pressureAvailable, readBit_one _ _ 4 (by norm_num)]
    cases (s.bus.regs DPS310_MEASCFG).testBit 4 <;> rfl

/-! ## Register frames of the configuration calls -/

theorem writeBit_regs_same (b : Bus) (addr bits shift data : Nat) :
    (b.writeBit addr bits shift data).regs addr
      = fieldByte (b.regs addr % 256) bits shift data := by
  simp only [writeBit_eq, writeRegister_regs, if_true, fieldByte]

theorem writeBit_regs_other (b : Bus) (addr bits shift data a : Nat) (h : a ≠ addr) :
    (b.writeBit addr bits shift data).regs a = b.regs a := by
  simp only [writeBit_eq, writeRegister_regs, if_neg h]

theorem fieldByte_lt (v bits shift data : Nat) : fieldByte v bits shift data < 256 :=
  Nat.mod_lt _ (by norm_num)

/-- The function `configurePressure` on the bus: three field writes. -/
theorem configurePressure_bus (s : Adafruit_DPS310) (rate : dps310_rate_t)
    (os : dps310_oversample_t) :
    (configurePressure s rate os).bus
      = ((s.bus.writeBit DPS310_PRSCFG 3 4 rate.toNat).writeBit DPS310_PRSCFG 4 0
          os.toNat).writeBit DPS310_CFGREG 1 2
            (if os.toNat > dps310_oversample_t.DPS310_8SAMPLES.toNat then 1 else 0) := by
  cases os <;> rfl

/-- The function `configureTemperature` on the bus: four field writes, the
last one of the source bit read from register `0x28`. -/
theorem configureTemperature_bus (s : Adafruit_DPS310) (rate : dps310_rate_t)
    (os : dps310_oversample_t) :
    (configureTemperature s rate os).bus
      = (((s.bus.writeBit DPS310_TMPCFG 3 4 rate.toNat).writeBit DPS310_TMPCFG 4 0
          os.toNat).writeBit DPS310_CFGREG 1 3
            (if os.toNat > dps310_oversample_t.DPS310_8SAMPLES.toNat then 1 else 0)).writeBit
          DPS310_TMPCFG 1 7
          ((((s.bus.writeBit DPS310_TMPCFG 3 4 rate.toNat).writeBit DPS310_TMPCFG 4 0
            os.toNat).writeBit DPS310_CFGREG 1 3
              (if os.toNat > dps310_oversample_t.DPS310_8SAMPLES.toNat then 1 else 0)).readBit
            DPS310_TMPCOEFSRCE 1 7) := by
  cases os <;> rfl

set_option maxRecDepth 1000000 in
/-- The three fields of a configuration byte, read through the bus. -/
theorem byte_fields : ∀ y, y < 256 →
    (y >>> 7) &&& ((1 <<< 1) - 1) = y / 128 ∧
    (y >>> 4) &&& ((1 <<< 3) - 1) = y / 16 % 8 ∧
    (y >>> 0) &&& ((1 <<< 4) - 1) = y % 16 := by
  decide

set_option maxRecDepth 1000000 in
/-- Writing the 3-bit field at offset 4 sets it and keeps bit 7 and bits 0..3. -/
theorem fieldByte_rate : ∀ v, v < 256 → ∀ r, r < 8 →
    fieldByte v 3 4 r / 128 = v / 128 ∧ fieldByte v 3 4 r / 16 % 8 = r ∧
    fieldByte v 3 4 r % 16 = v % 16 := by
  decide

set_option maxRecDepth 1000000 in
/-- Writing the 4-bit field at offset 0 sets it and keeps bits 4..7. -/
theorem fieldByte_os : ∀ v, v < 256 → ∀ o, o < 8 →
    fieldByte v 4 0 o / 128 = v / 128 ∧ fieldByte v 4 0 o / 16 % 8 = v / 16 % 8 ∧
    fieldByte v 4 0 o % 16 = o := by
  decide

set_option maxRecDepth 1000000 in
/-- Writing the 1-bit field at offset 7 sets it and keeps bits 0..6. -/
theorem fieldByte_src : ∀ v, v < 256 → ∀ d, d < 2 →
    fieldByte v 1 7 d / 128 = d ∧ fieldByte v 1 7 d / 16 % 8 = v / 16 % 8 ∧
    fieldByte v 1 7 d % 16 = v % 16 := by
  decide

set_option maxRecDepth 1000000 in
/-- Writing one of the two shift bits keeps every other bit of the byte. -/
theorem fieldByte_shift : ∀ v, v < 256 → ∀ d, d < 2 → ∀ k, k < 8 →
    (k ≠ 2 → (fieldByte v 1 2 d).testBit k = v.testBit k) ∧
    (k ≠ 3 → (fieldByte v 1 3 d).testBit k = v.testBit k) := by
  decide

/-- Register `0x07` after `configureTemperature`, field by field, for the
byte `v` it held and the byte `w` register `0x28` holds. -/
theorem configureTemperature_tmpcfg_fields (s : Adafruit_DPS310) (rate : dps310_rate_t)
    (os : dps310_oversample_t) :
    (configureTemperature s rate os).bus.regs DPS310_TMPCFG < 256 ∧
    (configureTemperature s rate os).bus.regs DPS310_TMPCFG / 128
      = s.bus.regs DPS310_TMPCOEFSRCE % 256 / 128 ∧
    (configureTemperature s rate os).bus.regs DPS310_TMPCFG / 16 % 8 = rate.toNat ∧
    (configureTemperature s rate os).bus.regs DPS310_TMPCFG % 16 = os.toNat := by
  have hr : rate.toNat < 8 := by cases rate <;> decide
  have ho : os.toNat < 8 := by cases os <;> decide
  have hv : s.bus.regs 7 % 256 < 256 := Nat.mod_lt _ (by norm_num)
  have hw : s.bus.regs 40 % 256 < 256 := Nat.mod_lt _ (by norm_num)
  have hd : s.bus.regs 40 % 256 / 128 < 2 := by omega
  rw [configureTemperature_bus]
  simp only [DPS310_TMPCFG, DPS310_CFGREG, DPS310_TMPCOEFSRCE]
  rw [readBit_eq, writeBit_regs_same,
    writeBit_regs_other _ 9 1 3 _ 7 (by norm_num), writeBit_regs_same, writeBit_regs_same,
    writeBit_regs_other _ 9 1 3 _ 40 (by norm_num),
    writeBit_regs_other _ 7 4 0 _ 40 (by norm_num),
    writeBit_regs_other _ 7 3 4 _ 40 (by norm_num), (byte_fields _ hw).1]
  have h1 := fieldByte_rate _ hv _ hr
  have h2 := fieldByte_os _ (Nat.mod_lt (fieldByte (s.bus.regs 7 % 256) 3 4 rate.toNat)
    (by norm_num : 0 < 256)) _ ho
  have h3 := fieldByte_src _ (Nat.mod_lt
    (fieldByte (fieldByte (s.bus.regs 7 % 256) 3 4 rate.toNat % 256) 4 0 os.toNat)
    (by norm_num : 0 < 256)) _ hd
  have e1 := Nat.mod_eq_of_lt (fieldByte_lt (s.bus.regs 7 % 256) 3 4 rate.toNat)
  have e2 := Nat.mod_eq_of_lt
    (fieldByte_lt (fieldByte (s.bus.regs 7 % 256) 3 4 rate.toNat % 256) 4 0 os.toNat)
  refine ⟨fieldByte_lt _ _ _ _, h3.1, ?_, ?_⟩
  · rw [h3.2.1, e2, h2.2.1, e1, h1.2.1]
  · rw [h3.2.2, e2, h2.2.2]

/-- Claim C11: for every rate, oversample value and content of the
temperature coefficient source register `0x28`, after `configureTemperature`
register `0x07` holds the byte `((s >> 7) << 7) | (rate << 4) | os`: bit 7 is
bit 7 of `0x28`, bits 4..6 the rate code and bits 0..3 the oversample code.
The three field masks are pairwise disjoint and cover the byte, and a write of
the source bit keeps the rate and oversample fields. -/
theorem configureTemperature_tmpcfg (s : Adafruit_DPS310) (rate : dps310_rate_t)
    (os : dps310_oversample_t) :
    (configureTemperature s rate os).bus.regs DPS310_TMPCFG
      = ((((s.bus.regs DPS310_TMPCOEFSRCE % 256) >>> 7) <<< 7) ||| (rate.toNat <<< 4))
          ||| os.toNat ∧
    ((configureTemperature s rate os).bus.regs DPS310_TMPCFG).testBit 7
      = (s.bus.regs DPS310_TMPCOEFSRCE).testBit 7 ∧
    (configureTemperature s rate os).bus.readBit DPS310_TMPCFG 1 7
      = s.bus.readBit DPS310_TMPCOEFSRCE 1 7 ∧
    (configureTemperature s rate os).bus.readBit DPS310_TMPCFG 3 4 = rate.toNat ∧
    (configureTemperature s rate os).bus.readBit DPS310_TMPCFG 4 0 = os.toNat ∧
    (configureTemperature s rate os).bus.regs DPS310_TMPCOEFSRCE
      = s.bus.regs DPS310_TMPCOEFSRCE ∧
    (∀ (b : Bus) (d : Nat),
      (b.writeBit DPS310_TMPCFG 1 7 d).readBit DPS310_TMPCFG 3 4 = b.readBit DPS310_TMPCFG 3 4 ∧
      (b.writeBit DPS310_TMPCFG 1 7 d).readBit DPS310_TMPCFG 4 0
        = b.readBit DPS310_TMPCFG 4 0) ∧
    ((((1 <<< 1) - 1) <<< 7) &&& (((1 <<< 3) - 1) <<< 4) = 0 ∧
      (((1 <<< 1) - 1) <<< 7) &&& (((1 <<< 4) - 1) <<< 0) = 0 ∧
      (((1 <<< 3) - 1) <<< 4) &&& (((1 <<< 4) - 1) <<< 0) = 0 ∧
      ((((1 <<< 1) - 1) <<< 7) ||| (((1 <<< 3) - 1) <<< 4)) ||| (((1 <<< 4) - 1) <<< 0)
        = 0xFF) := by
  obtain ⟨hlt, h7, h4, h0⟩ := configureTemperature_tmpcfg_fields s rate os
  have hr : rate.toNat < 8 := by cases rate <;> decide
  have ho : os.toNat < 8 := by cases os <;> decide
  have hw : s.bus.regs DPS310_TMPCOEFSRCE % 256 < 256 := Nat.mod_lt _ (by norm_num)
  have hmod := Nat.mod_eq_of_lt hlt
  have hf := byte_fields _ (Nat.mod_lt ((configureTemperature s rate os).bus.regs DPS310_TMPCFG)
    (by norm_num : 0 < 256))
  rw [hmod] at hf
  have hR : (configureTemperature s rate os).bus.regs DPS310_TMPCFG
      = s.bus.regs DPS310_TMPCOEFSRCE % 256 / 128 * 128 + rate.toNat * 16 + os.toNat := by
    omega
  have hsrc : (configureTemperature s rate os).bus.regs DPS310_TMPCOEFSRCE
      = s.bus.regs DPS310_TMPCOEFSRCE := by
    rw [configureTemperature_bus]
    simp only [DPS310_TMPCFG, DPS310_CFGREG, DPS310_TMPCOEFSRCE]
    rw [writeBit_regs_other _ 7 1 7 _ 40 (by norm_num),
      writeBit_regs_other _ 9 1 3 _ 40 (by norm_num),
      writeBit_regs_other _ 7 4 0 _ 40 (by norm_num),
      writeBit_regs_other _ 7 3 4 _ 40 (by norm_num)]
  have hbit : (configureTemperature s rate os).bus.readBit DPS310_TMPCFG 1 7
      = s.bus.readBit DPS310_TMPCOEFSRCE 1 7 := by
    rw [readBit_eq, readBit_eq, hmod, hf.1, (byte_fields _ hw).1, h7]
  refine ⟨?_, ?_, hbit, ?_, ?_, hsrc, ?_, by decide⟩
  · have e1 : ((s.bus.regs DPS310_TMPCOEFSRCE % 256) >>> 7) <<< 7
        = s.bus.regs DPS310_TMPCOEFSRCE % 256 / 128 * 128 := by
      rw [Nat.shiftRight_eq_div_pow, Nat.shiftLeft_eq]
    have e2 : rate.toNat <<< 4 = rate.toNat * 16 := by rw [Nat.shiftLeft_eq]
    have p7 : (2 : Nat) ^ 7 = 128 := by norm_num
    have p4 : (2 : Nat) ^ 4 = 16 := by norm_num
    rw [e1, e2,
      or_eq_add (s.bus.regs DPS310_TMPCOEFSRCE % 256 / 128 * 128) (rate.toNat * 16) 7
        (by rw [p7]; omega) (by rw [p7]; omega),
      or_eq_add (s.bus.regs DPS310_TMPCOEFSRCE % 256 / 128 * 128 + rate.toNat * 16) os.toNat 4
        (by rw [p4]; omega) (by rw [p4]; omega)]
    exact hR
  · have h := hbit
    rw [show DPS310_TMPCFG = 7 from rfl, show DPS310_TMPCOEFSRCE = 40 from rfl,
      readBit_one _ _ 7 (by norm_num), readBit_one _ _ 7 (by norm_num)] at h
    rw [show DPS310_TMPCFG = 7 from rfl, show DPS310_TMPCOEFSRCE = 40 from rfl]
    cases h1 : ((configureTemperature s rate os).bus.regs 7).testBit 7 <;>
      cases h2 : (s.bus.regs 40).testBit 7 <;> simp [h1, h2] at h ⊢
  · rw [readBit_eq, hmod, hf.2.1, h4]
  · rw [readBit_eq, hmod, hf.2.2, h0]
  · intro b d
    have hv : b.regs DPS310_TMPCFG % 256 < 256 := Nat.mod_lt _ (by norm_num)
    have hd : d % 2 < 2 := Nat.mod_lt _ (by norm_num)
    have hfb : fieldByte (b.regs DPS310_TMPCFG % 256) 1 7 d
        = fieldByte (b.regs DPS310_TMPCFG % 256) 1 7 (d % 2) := by
      have hm : d &&& ((1 <<< 1) - 1) = (d % 2) &&& ((1 <<< 1) - 1) := by
        have h1 := Nat.and_pow_two_sub_one_eq_mod d 1
        have h2 := Nat.and_pow_two_sub_one_eq_mod (d % 2) 1
        simp only [pow_one] at h1 h2
        show d &&& (2 - 1) = (d % 2) &&& (2 - 1)
        rw [h1, h2, Nat.mod_mod]
      simp only [fieldByte, hm]
    have h3 := fieldByte_src _ hv _ hd
    have e := Nat.mod_eq_of_lt (fieldByte_lt (b.regs DPS310_TMPCFG % 256) 1 7 (d % 2))
    rw [readBit_eq, readBit_eq, readBit_eq, readBit_eq, writeBit_regs_same, hfb, e,
      (byte_fields _ (fieldByte_lt _ _ _ _)).2.1, (byte_fields _ (fieldByte_lt _ _ _ _)).2.2,
      (byte_fields _ hv).2.1, (byte_fields _ hv).2.2, h3.2.1, h3.2.2]
    exact ⟨rfl, rfl⟩

/-- A byte has no bit at position 8 or above. -/
theorem byte_testBit_high (v k : Nat) (hv : v < 256) (hk : 8 ≤ k) : v.testBit k = false := by
  apply Nat.testBit_lt_two_pow
  calc v < 2 ^ 8 := by norm_num; exact hv
    _ ≤ 2 ^ k := Nat.pow_le_pow_right (by norm_num) hk

/-- Writing shift bit 2 (resp. 3) keeps every other bit of the byte. -/
theorem fieldByte_shift_all (v d k : Nat) (hv : v < 256) :
    (k ≠ 2 → (fieldByte v 1 2 d).testBit k = v.testBit k) ∧
    (k ≠ 3 → (fieldByte v 1 3 d).testBit k = v.testBit k) := by
  have hd : d % 2 < 2 := Nat.mod_lt _ (by norm_num)
  have hm : d &&& ((1 <<< 1) - 1) = (d % 2) &&& ((1 <<< 1) - 1) := by
    have h1 := Nat.and_pow_two_sub_one_eq_mod d 1
    have h2 := Nat.and_pow_two_sub_one_eq_mod (d % 2) 1
    simp only [pow_one] at h1 h2
    show d &&& (2 - 1) = (d % 2) &&& (2 - 1)
    rw [h1, h2, Nat.mod_mod]
  have e2 : fieldByte v 1 2 d = fieldByte v 1 2 (d % 2) := by simp only [fieldByte, hm]
  have e3 : fieldByte v 1 3 d = fieldByte v 1 3 (d % 2) := by simp only [fieldByte, hm]
  rw [e2, e3]
  by_cases hk : k < 8
  · exact fieldByte_shift v hv _ hd k hk
  · have hk8 : 8 ≤ k := by omega
    refine ⟨fun _ => ?_, fun _ => ?_⟩
    · rw [byte_testBit_high _ k (fieldByte_lt _ _ _ _) hk8, byte_testBit_high v k hv hk8]
    · rw [byte_testBit_high _ k (fieldByte_lt _ _ _ _) hk8, byte_testBit_high v k hv hk8]

/-- The write a field write records. -/
theorem writeBit_log (b : Bus) (addr bits shift data : Nat) :
    (b.writeBit addr bits shift data).log
      = (addr, fieldByte (b.regs addr % 256) bits shift data) :: b.log := by
  simp only [writeBit_eq, writeRegister_log, fieldByte]

/-- Claim C12: `configurePressure` changes only register `0x06`, bit 2 of
register `0x09` and the stored pressure scale factor: every other register,
every other bit of `0x09`, register `0x07`, the temperature scale factor, the
nine coefficients and all remaining members stay, and its three writes go to
`0x06`, `0x06` and `0x09`.  Symmetrically `configureTemperature` changes only
register `0x07`, bit 3 of `0x09` and the temperature scale factor, and its four
writes go to `0x07`, `0x07`, `0x09` and `0x07`. -/
theorem configure_channels_independent (s : Adafruit_DPS310) (rate : dps310_rate_t)
    (os : dps310_oversample_t) :
    ((∀ a, a ≠ DPS310_PRSCFG → a ≠ DPS310_CFGREG →
        (configurePressure s rate os).bus.regs a = s.bus.regs a) ∧
      (∀ k, k ≠ 2 →
        ((configurePressure s rate os).bus.regs DPS310_CFGREG % 256).testBit k
          = (s.bus.regs DPS310_CFGREG % 256).testBit k) ∧
      (configurePressure s rate os).bus.regs DPS310_TMPCFG = s.bus.regs DPS310_TMPCFG ∧
      (configurePressure s rate os).temp_scale = s.temp_scale ∧
      storedCoefficients (configurePressure s rate os) = storedCoefficients s ∧
      configurePressure s rate os
        = { s with bus := (configurePressure s rate os).bus
                   pressure_scale := (configurePressure s rate os).pressure_scale } ∧
      (∃ w1 w2 w3 : Nat, (configurePressure s rate os).bus.log
        = (DPS310_CFGREG, w3) :: (DPS310_PRSCFG, w2) :: (DPS310_PRSCFG, w1) :: s.bus.log)) ∧
    ((∀ a, a ≠ DPS310_TMPCFG → a ≠ DPS310_CFGREG →
        (configureTemperature s rate os).bus.regs a = s.bus.regs a) ∧
      (∀ k, k ≠ 3 →
        ((configureTemperature s rate os).bus.regs DPS310_CFGREG % 256).testBit k
          = (s.bus.regs DPS310_CFGREG % 256).testBit k) ∧
      (configureTemperature s rate os).bus.regs DPS310_PRSCFG = s.bus.regs DPS310_PRSCFG ∧
      (configureTemperature s rate os).pressure_scale = s.pressure_scale ∧
      storedCoefficients (configureTemperature s rate os) = storedCoefficients s ∧
      configureTemperature s rate os
        = { s with bus := (configureTemperature s rate os).bus
                   temp_scale := (configureTemperature s rate os).temp_scale } ∧
      (∃ w1 w2 w3 w4 : Nat, (configureTemperature s rate os).bus.log
        = (DPS310_TMPCFG, w4) :: (DPS310_CFGREG, w3) :: (DPS310_TMPCFG, w2)
            :: (DPS310_TMPCFG, w1) :: s.bus.log)) := by
  have hv : s.bus.regs 9 % 256 < 256 := Nat.mod_lt _ (by norm_num)
  have hP : ∀ a, a ≠ DPS310_PRSCFG → a ≠ DPS310_CFGREG →
      (configurePressure s rate os).bus.regs a = s.bus.regs a := by
    intro a h6 h9
    rw [configurePressure_bus, writeBit_regs_other _ _ _ _ _ a h9,
      writeBit_regs_other _ _ _ _ _ a h6, writeBit_regs_other _ _ _ _ _ a h6]
  have hT : ∀ a, a ≠ DPS310_TMPCFG → a ≠ DPS310_CFGREG →
      (configureTemperature s rate os).bus.regs a = s.bus.regs a := by
    intro a h7 h9
    rw [configureTemperature_bus, writeBit_regs_other _ _ _ _ _ a h7,
      writeBit_regs_other _ _ _ _ _ a h9, writeBit_regs_other _ _ _ _ _ a h7,
      writeBit_regs_other _ _ _ _ _ a h7]
  refine ⟨⟨hP, ?_, hP _ (by decide) (by decide), ?_, ?_, ?_, ?_⟩,
    ⟨hT, ?_, hT _ (by decide) (by decide), ?_, ?_, ?_, ?_⟩⟩
  · intro k hk
    rw [configurePressure_bus]
    simp only [DPS310_PRSCFG, DPS310_CFGREG]
    rw [writeBit_regs_same, writeBit_regs_other _ 6 4 0 _ 9 (by norm_num),
      writeBit_regs_other _ 6 3 4 _ 9 (by norm_num), Nat.mod_eq_of_lt (fieldByte_lt _ _ _ _)]
    exact (fieldByte_shift_all _ _ k hv).1 hk
  · cases os <;> rfl
  · cases os <;> rfl
  · cases os <;> rfl
  · rw [configurePressure_bus, writeBit_log, writeBit_log, writeBit_log]
    exact ⟨_, _, _, rfl⟩
  · intro k hk
    rw [configureTemperature_bus]
    simp only [DPS310_TMPCFG, DPS310_CFGREG, DPS310_TMPCOEFSRCE]
    rw [writeBit_regs_other _ 7 1 7 _ 9 (by norm_num), writeBit_regs_same,
      writeBit_regs_other _ 7 4 0 _ 9 (by norm_num),
      writeBit_regs_other _ 7 3 4 _ 9 (by norm_num), Nat.mod_eq_of_lt (fieldByte_lt _ _ _ _)]
    exact (fieldByte_shift_all _ _ k hv).2 hk
  · cases os <;> rfl
  · cases os <;> rfl
  · cases os <;> rfl
  · rw [configureTemperature_bus, writeBit_log, writeBit_log, writeBit_log, writeBit_log]
    exact ⟨_, _, _, _, rfl⟩

/-- Witness for C12: on the sample sensor `configurePressure` keeps the product
ID register and bit 3 of register `0x09`, and `configureTemperature` keeps the
product ID register and bit 2 of register `0x09`. -/
theorem configure_channels_independent_witness :
    ((configurePressure (freshDriver sampleRegs) dps310_rate_t.DPS310_64HZ
        dps310_oversample_t.DPS310_64SAMPLES).bus.regs DPS310_PRODREVID
      = (freshDriver sampleRegs).bus.regs DPS310_PRODREVID ∧
      ((configurePressure (freshDriver sampleRegs) dps310_rate_t.DPS310_64HZ
        dps310_oversample_t.DPS310_64SAMPLES).bus.regs DPS310_CFGREG % 256).testBit 3
      = ((freshDriver sampleRegs).bus.regs DPS310_CFGREG % 256).testBit 3) ∧
    ((configureTemperature (freshDriver sampleRegs) dps310_rate_t.DPS310_64HZ
        dps310_oversample_t.DPS310_64SAMPLES).bus.regs DPS310_PRODREVID
      = (freshDriver sampleRegs).bus.regs DPS310_PRODREVID ∧
      ((configureTemperature (freshDriver sampleRegs) dps310_rate_t.DPS310_64HZ
        dps310_oversample_t.DPS310_64SAMPLES).bus.regs DPS310_CFGREG % 256).testBit 2
      = ((freshDriver sampleRegs).bus.regs DPS310_CFGREG % 256).testBit 2) :=
  ⟨⟨(configure_channels_independent (freshDriver sampleRegs) dps310_rate_t.DPS310_64HZ
        dps310_oversample_t.DPS310_64SAMPLES).1.1 DPS310_PRODREVID (by decide) (by decide),
      (configure_channels_independent (freshDriver sampleRegs) dps310_rate_t.DPS310_64HZ
        dps310_oversample_t.DPS310_64SAMPLES).1.2.1 3 (by decide)⟩,
    ⟨(configure_channels_independent (freshDriver sampleRegs) dps310_rate_t.DPS310_64HZ
        dps310_oversample_t.DPS310_64SAMPLES).2.1 DPS310_PRODREVID (by decide) (by decide),
      (configure_channels_independent (freshDriver sampleRegs) dps310_rate_t.DPS310_64HZ
        dps310_oversample_t.DPS310_64SAMPLES).2.2.1 2 (by decide)⟩⟩

/-! ## The calibration layout is a bijection -/

/-- The reference coefficients of a block of bytes in arithmetic form. -/
theorem referenceCoefficients_arith (bytes : Nat → Nat) (hb : ∀ i, bytes i < 256) :
    referenceCoefficients bytes
      = [ sext 12 (bytes 0 * 16 + bytes 1 / 16),
          sext 12 (bytes 1 % 16 * 256 + bytes 2),
          sext 20 (bytes 3 * 4096 + bytes 4 * 16 + bytes 5 / 16),
          sext 20 (bytes 5 % 16 * 65536 + bytes 6 * 256 + bytes 7),
          sext 16 (bytes 8 * 256 + bytes 9),
          sext 16 (bytes 10 * 256 + bytes 11),
          sext 16 (bytes 12 * 256 + bytes 13),
          sext 16 (bytes 14 * 256 + bytes 15),
          sext 16 (bytes 16 * 256 + bytes 17) ] := by
  have pair : ∀ a b : Nat, b < 256 → a <<< 8 ||| b = a * 256 + b := by
    intro a b h
    rw [or_eq_add _ _ 8 (by rw [Nat.shiftLeft_eq]; omega) (by omega), Nat.shiftLeft_eq]
  have e0 : bytes 0 <<< 4 ||| bytes 1 >>> 4 = bytes 0 * 16 + bytes 1 / 16 := by
    have := hb 1
    rw [or_eq_add _ _ 4 (by rw [Nat.shiftLeft_eq]; omega)
      (by rw [Nat.shiftRight_eq_div_pow]; omega), Nat.shiftLeft_eq, Nat.shiftRight_eq_div_pow]
  have e1 : (bytes 1 &&& 15) <<< 8 ||| bytes 2 = bytes 1 % 16 * 256 + bytes 2 := by
    rw [pair _ _ (hb 2), and_15]
  have e00 : bytes 3 <<< 12 ||| bytes 4 <<< 4 ||| bytes 5 >>> 4
      = bytes 3 * 4096 + bytes 4 * 16 + bytes 5 / 16 := by
    have h4 := hb 4
    have h5 := hb 5
    rw [or_eq_add (bytes 3 <<< 12) (bytes 4 <<< 4) 12 (by rw [Nat.shiftLeft_eq]; omega)
        (by rw [Nat.shiftLeft_eq]; omega), Nat.shiftLeft_eq, Nat.shiftLeft_eq,
      or_eq_add _ _ 4 (by omega) (by rw [Nat.shiftRight_eq_div_pow]; omega),
      Nat.shiftRight_eq_div_pow]
  have e10 : (bytes 5 &&& 15) <<< 16 ||| bytes 6 <<< 8 ||| bytes 7
      = bytes 5 % 16 * 65536 + bytes 6 * 256 + bytes 7 := by
    have h6 := hb 6
    have h7 := hb 7
    rw [or_eq_add ((bytes 5 &&& 15) <<< 16) (bytes 6 <<< 8) 16
        (by rw [Nat.shiftLeft_eq]; omega) (by rw [Nat.shiftLeft_eq]; omega),
      Nat.shiftLeft_eq, Nat.shiftLeft_eq, and_15, or_eq_add _ _ 8 (by omega) (by omega)]
  simp only [referenceCoefficients]
  rw [e0, e1, e00, e10, pair _ _ (hb 9), pair _ _ (hb 11), pair _ _ (hb 13), pair _ _ (hb 15),
    pair _ _ (hb 17)]

/-- Sign extension is injective on `n`-bit fields. -/
theorem sext_inj (n v w : Nat) (h1 : 1 ≤ n) (hv : v < 2 ^ n) (hw : w < 2 ^ n)
    (h : sext n v = sext n w) : v = w := by
  rw [sext_val n v h1 hv, sext_val n w h1 hw] at h
  obtain ⟨k, rfl⟩ : ∃ k, n = k + 1 := ⟨n - 1, by omega⟩
  have h2 : 2 ^ (k + 1) = 2 * 2 ^ k := by rw [pow_succ]; ring
  simp only [Nat.add_sub_cancel] at h
  rw [h2] at hv hw h
  generalize 2 ^ k = P at *
  split at h <;> split at h <;> omega

/-- Every value of the signed `n`-bit range is the sign extension of its field. -/
theorem sext_fieldOf (n : Nat) (c : Int) (h1 : 1 ≤ n)
    (hlo : -((2 ^ (n - 1) : Nat) : Int) ≤ c) (hhi : c < ((2 ^ (n - 1) : Nat) : Int)) :
    fieldOf n c < 2 ^ n ∧ sext n (fieldOf n c) = c := by
  obtain ⟨k, rfl⟩ : ∃ k, n = k + 1 := ⟨n - 1, by omega⟩
  have h2 : 2 ^ (k + 1) = 2 * 2 ^ k := by rw [pow_succ]; ring
  have hQ : (2 : Int) ^ (k + 1) = ((2 * 2 ^ k : Nat) : Int) := by
    push_cast
    ring
  simp only [Nat.add_sub_cancel] at hlo hhi
  have hpos : 0 < 2 ^ k := Nat.two_pow_pos k
  have hf : fieldOf (k + 1) c
      = if 0 ≤ c then c.toNat else (c + ((2 * 2 ^ k : Nat) : Int)).toNat := by
    simp only [fieldOf, hQ]
    by_cases hc : 0 ≤ c
    · rw [if_pos hc, Int.emod_eq_of_lt hc (by push_cast; omega)]
    · rw [if_neg hc, ← Int.add_emod_self,
        Int.emod_eq_of_lt (by push_cast; omega) (by push_cast; omega)]
  have hlt : fieldOf (k + 1) c < 2 ^ (k + 1) := by
    rw [hf, h2]
    split <;> omega
  refine ⟨hlt, ?_⟩
  rw [sext_val (k + 1) _ (by omega) hlt, hf]
  simp only [Nat.add_sub_cancel]
  rw [h2]
  generalize 2 ^ k = P at *
  split <;> split <;> omega

/-- Three bytes are determined by the two 12-bit fields packed into them. -/
theorem unpack12 (a0 a1 a2 b0 b1 b2 : Nat) (ha0 : a0 < 256) (ha1 : a1 < 256) (ha2 : a2 < 256)
    (hb0 : b0 < 256) (hb1 : b1 < 256) (hb2 : b2 < 256)
    (h0 : sext 12 (a0 * 16 + a1 / 16) = sext 12 (b0 * 16 + b1 / 16))
    (h1 : sext 12 (a1 % 16 * 256 + a2) = sext 12 (b1 % 16 * 256 + b2)) :
    a0 = b0 ∧ a1 = b1 ∧ a2 = b2 := by
  have p12 : (2 : Nat) ^ 12 = 4096 := by norm_num
  have e0 := sext_inj 12 _ _ (by norm_num) (by rw [p12]; omega) (by rw [p12]; omega) h0
  have e1 := sext_inj 12 _ _ (by norm_num) (by rw [p12]; omega) (by rw [p12]; omega) h1
  omega

/-- Five bytes are determined by the two 20-bit fields packed into them. -/
theorem unpack20 (a3 a4 a5 a6 a7 b3 b4 b5 b6 b7 : Nat) (ha3 : a3 < 256) (ha4 : a4 < 256)
    (ha5 : a5 < 256) (ha6 : a6 < 256) (ha7 : a7 < 256) (hb3 : b3 < 256) (hb4 : b4 < 256)
    (hb5 : b5 < 256) (hb6 : b6 < 256) (hb7 : b7 < 256)
    (h0 : sext 20 (a3 * 4096 + a4 * 16 + a5 / 16) = sext 20 (b3 * 4096 + b4 * 16 + b5 / 16))
    (h1 : sext 20 (a5 % 16 * 65536 + a6 * 256 + a7)
      = sext 20 (b5 % 16 * 65536 + b6 * 256 + b7)) :
    a3 = b3 ∧ a4 = b4 ∧ a5 = b5 ∧ a6 = b6 ∧ a7 = b7 := by
  have p20 : (2 : Nat) ^ 20 = 1048576 := by norm_num
  have e0 := sext_inj 20 _ _ (by norm_num) (by rw [p20]; omega) (by rw [p20]; omega) h0
  have e1 := sext_inj 20 _ _ (by norm_num) (by rw [p20]; omega) (by rw [p20]; omega) h1
  omega

/-- Two bytes are determined by the 16-bit field they form. -/
theorem unpack16 (a b c d : Nat) (ha : a < 256) (hb : b < 256) (hc : c < 256) (hd : d < 256)
    (h : sext 16 (a * 256 + b) = sext 16 (c * 256 + d)) : a = c ∧ b = d := by
  have p16 : (2 : Nat) ^ 16 = 65536 := by norm_num
  have e := sext_inj 16 _ _ (by norm_num) (by rw [p16]; omega) (by rw [p16]; omega) h
  omega

/-- Two blocks of bytes with the same reference coefficients are equal. -/
theorem referenceCoefficients_inj (a b : Nat → Nat) (ha : ∀ i, a i < 256)
    (hb : ∀ i, b i < 256) (h : referenceCoefficients a = referenceCoefficients b) :
    ∀ i, i < 18 → a i = b i := by
  rw [referenceCoefficients_arith a ha, referenceCoefficients_arith b hb] at h
  simp only [List.cons.injEq, and_true] at h
  obtain ⟨h0, h1, h00, h10, h01, h11, h20, h21, h30⟩ := h
  obtain ⟨r0, r1, r2⟩ := unpack12 _ _ _ _ _ _ (ha 0) (ha 1) (ha 2) (hb 0) (hb 1) (hb 2) h0 h1
  obtain ⟨r3, r4, r5, r6, r7⟩ := unpack20 _ _ _ _ _ _ _ _ _ _ (ha 3) (ha 4) (ha 5) (ha 6)
    (ha 7) (hb 3) (hb 4) (hb 5) (hb 6) (hb 7) h00 h10
  obtain ⟨r8, r9⟩ := unpack16 _ _ _ _ (ha 8) (ha 9) (hb 8) (hb 9) h01
  obtain ⟨r10, r11⟩ := unpack16 _ _ _ _ (ha 10) (ha 11) (hb 10) (hb 11) h11
  obtain ⟨r12, r13⟩ := unpack16 _ _ _ _ (ha 12) (ha 13) (hb 12) (hb 13) h20
  obtain ⟨r14, r15⟩ := unpack16 _ _ _ _ (ha 14) (ha 15) (hb 14) (hb 15) h21
  obtain ⟨r16, r17⟩ := unpack16 _ _ _ _ (ha 16) (ha 17) (hb 16) (hb 17) h30
  intro i hi
  interval_cases i <;> assumption

/-- Packing two 12-bit fields into three bytes and reading them back. -/
theorem pack12 (u0 u1 : Nat) (l0 : u0 < 4096) (l1 : u1 < 4096) :
    u0 / 16 % 256 * 16 + (u0 % 16 * 16 + u1 / 256) % 256 / 16 = u0 ∧
    (u0 % 16 * 16 + u1 / 256) % 256 % 16 * 256 + u1 % 256 % 256 = u1 := by
  omega

/-- Packing two 20-bit fields into five bytes and reading them back. -/
theorem pack20 (u0 u1 : Nat) (l0 : u0 < 1048576) (l1 : u1 < 1048576) :
    u0 / 4096 % 256 * 4096 + u0 / 16 % 256 % 256 * 16
      + (u0 % 16 * 16 + u1 / 65536) % 256 / 16 = u0 ∧
    (u0 % 16 * 16 + u1 / 65536) % 256 % 16 * 65536 + u1 / 256 % 256 % 256 * 256
      + u1 % 256 % 256 = u1 := by
  omega

/-- Packing a 16-bit field into two bytes and reading it back. -/
theorem pack16 (u : Nat) (l : u < 65536) : u / 256 % 256 * 256 + u % 256 % 256 = u := by
  omega

/-- The block laid out for nine coefficients in range decodes to them. -/
theorem referenceCoefficients_encode (c0 c1 c00 c10 c01 c11 c20 c21 c30 : Int)
    (h0 : -2048 ≤ c0 ∧ c0 ≤ 2047) (h1 : -2048 ≤ c1 ∧ c1 ≤ 2047)
    (h00 : -524288 ≤ c00 ∧ c00 ≤ 524287) (h10 : -524288 ≤ c10 ∧ c10 ≤ 524287)
    (h01 : -32768 ≤ c01 ∧ c01 ≤ 32767) (h11 : -32768 ≤ c11 ∧ c11 ≤ 32767)
    (h20 : -32768 ≤ c20 ∧ c20 ≤ 32767) (h21 : -32768 ≤ c21 ∧ c21 ≤ 32767)
    (h30 : -32768 ≤ c30 ∧ c30 ≤ 32767) :
    referenceCoefficients
        (fun i => encodeCalibration c0 c1 c00 c10 c01 c11 c20 c21 c30 i % 256)
      = [c0, c1, c00, c10, c01, c11, c20, c21, c30] := by
  have f12 : ∀ c : Int, -2048 ≤ c ∧ c ≤ 2047 →
      fieldOf 12 c < 4096 ∧ sext 12 (fieldOf 12 c) = c := by
    intro c hc
    have h := sext_fieldOf 12 c (by norm_num) (by norm_num; omega) (by norm_num; omega)
    norm_num at h
    exact h
  have f20 : ∀ c : Int, -524288 ≤ c ∧ c ≤ 524287 →
      fieldOf 20 c < 1048576 ∧ sext 20 (fieldOf 20 c) = c := by
    intro c hc
    have h := sext_fieldOf 20 c (by norm_num) (by norm_num; omega) (by norm_num; omega)
    norm_num at h
    exact h
  have f16 : ∀ c : Int, -32768 ≤ c ∧ c ≤ 32767 →
      fieldOf 16 c < 65536 ∧ sext 16 (fieldOf 16 c) = c := by
    intro c hc
    have h := sext_fieldOf 16 c (by norm_num) (by norm_num; omega) (by norm_num; omega)
    norm_num at h
    exact h
  rw [referenceCoefficients_arith _ (fun i => Nat.mod_lt _ (by norm_num))]
  simp only [encodeCalibration]
  rw [(pack12 _ _ (f12 c0 h0).1 (f12 c1 h1).1).1, (pack12 _ _ (f12 c0 h0).1 (f12 c1 h1).1).2,
    (pack20 _ _ (f20 c00 h00).1 (f20 c10 h10).1).1,
    (pack20 _ _ (f20 c00 h00).1 (f20 c10 h10).1).2,
    pack16 _ (f16 c01 h01).1, pack16 _ (f16 c11 h11).1, pack16 _ (f16 c20 h20).1,
    pack16 _ (f16 c21 h21).1, pack16 _ (f16 c30 h30).1,
    (f12 c0 h0).2, (f12 c1 h1).2, (f20 c00 h00).2, (f20 c10 h10).2, (f16 c01 h01).2,
    (f16 c11 h11).2, (f16 c20 h20).2, (f16 c21 h21).2, (f16 c30 h30).2]

/-- Whatever `_readCalibration` returns holds the reference coefficients of the
block on the bus at that moment. -/
theorem readCalibration_result (hw : (Nat → Nat) → (Nat → Nat)) (fuel : Nat)
    (s s' : Adafruit_DPS310) (h : _readCalibration hw fuel s = some s') :
    storedCoefficients s' = referenceCoefficients (calibrationBlock s'.bus) := by
  simp only [_readCalibration, Option.map_eq_some'] at h
  obtain ⟨a, _, rfl⟩ := h
  rw [loadCalibration_bus]
  exact loadCalibration_stored a

/-- The block a `calibratedSensor` presents. -/
theorem calibrationBlock_calibratedSensor (block : Nat → Nat) (i : Nat) (hi : i < 18) :
    calibrationBlock (calibratedSensor block).bus i = block i % 256 := by
  have h1 : ¬ (16 + i = 8) := by omega
  have h2 : 16 ≤ 16 + i ∧ 16 + i < 34 := by omega
  simp only [calibrationBlock, calibratedSensor, freshDriver, DPS310_MEASCFG, if_neg h1,
    if_pos h2, Nat.add_sub_cancel_left]

/-- On a `calibratedSensor` the calibration is read at the first poll. -/
theorem readCalibration_calibratedSensor (hw : (Nat → Nat) → (Nat → Nat)) (fuel : Nat)
    (hfuel : 0 < fuel) (block : Nat → Nat) :
    _readCalibration hw fuel (calibratedSensor block)
      = some (loadCalibration (calibratedSensor block)) := by
  obtain ⟨f, rfl⟩ : ∃ f, fuel = f + 1 := ⟨fuel - 1, by omega⟩
  have hr : (calibratedSensor block).bus.readBit DPS310_MEASCFG 1 7 = 1 := by
    rw [readBit_eq]
    simp only [calibratedSensor, freshDriver, DPS310_MEASCFG, if_true]
    decide
  simp [_readCalibration, pollUntil, hr]

/-- The bytes of an encoded block. -/
theorem encodeCalibration_lt (c0 c1 c00 c10 c01 c11 c20 c21 c30 : Int) (i : Nat) :
    encodeCalibration c0 c1 c00 c10 c01 c11 c20 c21 c30 i % 256 < 256 :=
  Nat.mod_lt _ (by norm_num)

/-- Claim C13: the nine field widths sum to `144 = 18 * 8` and the decode of
`_readCalibration` is a bijection between 18-byte blocks and the tuples with
`c0`, `c1` in `[-2048, 2047]`, `c00`, `c10` in `[-524288, 524287]` and the
other five in `[-32768, 32767]`: two blocks that decode to the same nine
coefficients agree in all 18 bytes, and every such tuple is what
`_readCalibration` stores for some block. -/
theorem calibration_decode_bijective :
    coefficientBits.sum = 18 * 8 ∧
    (∀ s1 s2 : Adafruit_DPS310,
      storedCoefficients (loadCalibration s1) = storedCoefficients (loadCalibration s2) →
      ∀ i, i < 18 → calibrationBlock s1.bus i = calibrationBlock s2.bus i) ∧
    (∀ (hw1 hw2 : (Nat → Nat) → (Nat → Nat)) (f1 f2 : Nat) (s1 s2 s1' s2' : Adafruit_DPS310),
      _readCalibration hw1 f1 s1 = some s1' → _readCalibration hw2 f2 s2 = some s2' →
      storedCoefficients s1' = storedCoefficients s2' →
      ∀ i, i < 18 → calibrationBlock s1'.bus i = calibrationBlock s2'.bus i) ∧
    (∀ c0 c1 c00 c10 c01 c11 c20 c21 c30 : Int,
      -2048 ≤ c0 ∧ c0 ≤ 2047 → -2048 ≤ c1 ∧ c1 ≤ 2047 →
      -524288 ≤ c00 ∧ c00 ≤ 524287 → -524288 ≤ c10 ∧ c10 ≤ 524287 →
      -32768 ≤ c01 ∧ c01 ≤ 32767 → -32768 ≤ c11 ∧ c11 ≤ 32767 →
      -32768 ≤ c20 ∧ c20 ≤ 32767 → -32768 ≤ c21 ∧ c21 ≤ 32767 →
      -32768 ≤ c30 ∧ c30 ≤ 32767 →
      ∃ block : Nat → Nat, (∀ i, block i < 256) ∧
        storedCoefficients (loadCalibration (calibratedSensor block))
          = [c0, c1, c00, c10, c01, c11, c20, c21, c30] ∧
        ∀ (hw : (Nat → Nat) → (Nat → Nat)) (fuel : Nat), 0 < fuel →
          ∃ s', _readCalibration hw fuel (calibratedSensor block) = some s' ∧
            (∀ i, i < 18 → calibrationBlock s'.bus i = block i) ∧
            storedCoefficients s' = [c0, c1, c00, c10, c01, c11, c20, c21, c30]) := by
  have hblk : ∀ b : Bus, ∀ i, calibrationBlock b i < 256 :=
    fun b i => Nat.mod_lt _ (by norm_num)
  refine ⟨by decide, ?_, ?_, ?_⟩
  · intro s1 s2 h
    rw [loadCalibration_stored, loadCalibration_stored] at h
    exact referenceCoefficients_inj _ _ (hblk _) (hblk _) h
  · intro hw1 hw2 f1 f2 s1 s2 s1' s2' h1 h2 h
    rw [readCalibration_result hw1 f1 s1 s1' h1, readCalibration_result hw2 f2 s2 s2' h2] at h
    exact referenceCoefficients_inj _ _ (hblk _) (hblk _) h
  · intro c0 c1 c00 c10 c01 c11 c20 c21 c30 h0 h1 h00 h10 h01 h11 h20 h21 h30
    have hb : ∀ i, i < 18 →
        calibrationBlock (calibratedSensor
          (fun i => encodeCalibration c0 c1 c00 c10 c01 c11 c20 c21 c30 i % 256)).bus i
          = encodeCalibration c0 c1 c00 c10 c01 c11 c20 c21 c30 i % 256 := by
      intro i hi
      rw [calibrationBlock_calibratedSensor _ i hi, Nat.mod_mod]
    have hst : storedCoefficients (loadCalibration (calibratedSensor
        (fun i => encodeCalibration c0 c1 c00 c10 c01 c11 c20 c21 c30 i % 256)))
        = [c0, c1, c00, c10, c01, c11, c20, c21, c30] := by
      rw [loadCalibration_stored, referenceCoefficients_congr _ _ hb]
      exact referenceCoefficients_encode c0 c1 c00 c10 c01 c11 c20 c21 c30
        h0 h1 h00 h10 h01 h11 h20 h21 h30
    refine ⟨fun i => encodeCalibration c0 c1 c00 c10 c01 c11 c20 c21 c30 i % 256,
      fun i => encodeCalibration_lt _ _ _ _ _ _ _ _ _ i, hst, ?_⟩
    intro hw fuel hfuel
    refine ⟨_, readCalibration_calibratedSensor hw fuel hfuel _, ?_, hst⟩
    intro i hi
    rw [loadCalibration_bus]
    exact hb i hi

/-- Witness for C13: the sample block is recovered from its coefficients, and
the tuple of extreme values is the decode of a block. -/
theorem calibration_decode_bijective_witness :
    (∀ i, i < 18 → calibrationBlock (freshDriver sampleRegs).bus i
        = calibrationBlock (calibratedSensor
            (encodeCalibration 201 (-258) 74565 (-4095) (-32768) 32767 (-1) 1 4660)).bus i) ∧
    ∃ block : Nat → Nat, (∀ i, block i < 256) ∧
      storedCoefficients (loadCalibration (calibratedSensor block))
        = [-2048, 2047, -524288, 524287, -32768, 32767, -1, 0, 1] := by
  refine ⟨?_, ?_⟩
  · exact calibration_decode_bijective.2.1 (freshDriver sampleRegs)
      (calibratedSensor (encodeCalibration 201 (-258) 74565 (-4095) (-32768) 32767 (-1) 1 4660))
      (by decide)
  · obtain ⟨block, hb, hs, _⟩ := calibration_decode_bijective.2.2.2
      (-2048) 2047 (-524288) 524287 (-32768) 32767 (-1) 0 1
      (by decide) (by decide) (by decide) (by decide) (by decide) (by decide) (by decide)
      (by decide) (by decide)
    exact ⟨block, hb, hs⟩

end DPS310
